import Mathlib

/-!
# rozofs `rozo_warnquota`: registry, policy, templates, configuration files and mail dispatch

Shallow embedding of `src/exportd/rozofs_warnquota.c`, in the build without
`USE_LDAP_MAIL_LOOKUP`, and of `src/storaged/storio_disk_thread_request_e2String.h`.

Conventions of the embedding

* C strings are `String`s (the characters before the terminating NUL).
* A `NULL`-able pointer is an `Option`.
* The singly linked lists `struct usage` and `struct offenderlist` are Lean lists, head first;
  the `next` field is the tail of the list.
* The file-scope variables (`offenders`, `maildev`, `maildev_handle`, `flags`) are passed
  explicitly; a function that assigns one of them returns its new value.
* `time(&now)` is an input: the functions that read the clock take the value it returns.
* `qsize_t` values are natural numbers.  `time_t` values are integers; the one place where the
  code does arithmetic on them, the two subtractions of `should_cc`, is taken in the 64-bit
  two's complement arithmetic of `time_t` (`time_sub`), where a difference that does not fit
  wraps around.
* Where the code writes into a string or walks it with pointers (`verify_format`,
  `format_print`), the string is a list of characters indexed from 0, with its terminating NUL
  at index `length`; a loop over it carries an iteration budget of one step per character and
  one more, and a result `none` stands for a read past the terminator.
* `die(1, ...)`, `exit(c)` and `wc_exit(c)` are `Except.error` with the exit status.
* A file is the list of its characters (`none` when `fopen` fails) and holds no NUL byte;
  `fgets` takes its lines off the front of the unread content.  The libc `qsort` is a parameter
  of `get_groupadmins`; `qsort_admin_cmp` is its model, an insertion sort with the comparison
  `admin_cmp`.
* The enum `storio_disk_thread_request_e` is declared in `storio_disk_thread_intf.h`, which is
  not part of the sources at hand: the values of its constants are a parameter.
* `rozofs_dquot_t` and the macro `rozofs_toqb` are declared in headers that are not part of the
  sources at hand.  The record is modelled with the fields the code reads (`key.s.eid`,
  `key.s.type`, `key.s.qid` and the eight `quota.dqb_*` fields).  The key fields are unsigned
  and are natural numbers here; `key.s.qid` is wider than `int`.  Where the code hands a key
  field to an `int` (the parameters `type` and `id` of `add_offender`), the value is narrowed
  with `to_int` to the low 32 bits, read in two's complement; where it compares an `int` with a
  key field (the search loop of `add_offence`), the two are equal when they are the same
  number, and a negative `int` equals no key field (`int_eq_unsigned`).  `rozofs_toqb` is a
  parameter `toqb`.
-/

namespace Warnquota

/-! ## Constants -/

def USRQUOTA : Nat := 0
def GRPQUOTA : Nat := 1

def FL_USER : Nat := 1
def FL_GROUP : Nat := 2
def FL_NOAUTOFS : Nat := 4
def FL_SHORTNUMS : Nat := 8
def FL_NODETAILS : Nat := 16

/-! ## Data model -/

/-- The C `struct util_dqblk`. -/
structure util_dqblk where
  dqb_ihardlimit : Nat
  dqb_isoftlimit : Nat
  dqb_curinodes : Nat
  dqb_bhardlimit : Nat
  dqb_bsoftlimit : Nat
  dqb_curspace : Nat
  dqb_btime : Int
  dqb_itime : Int
deriving DecidableEq, Repr

/-- The C `struct usage`; the `next` pointer is the tail of the list holding the node. -/
structure usage where
  devicename : String
  dq_dqb : util_dqblk
deriving DecidableEq, Repr

/-- The C `struct offenderlist`; the `next` pointer is the tail of the list holding the node. -/
structure offenderlist where
  offender_type : Int
  offender_id : Int
  offender_name : String
  usage : List usage
deriving DecidableEq, Repr

/-- The bit fields `key.s` of a `rozofs_dquot_t` that the program reads. -/
structure rozofs_quota_key where
  eid : Nat
  type : Nat
  qid : Nat
deriving DecidableEq, Repr

/-- The part of `rozofs_dquot_t` that the program reads: the key and the `quota` block. -/
structure rozofs_dquot_t where
  key : rozofs_quota_key
  quota : util_dqblk
deriving DecidableEq, Repr

/-- The C `struct quota_handle` is only ever tested against `NULL`. -/
structure quota_handle where
  qh_type : Int
deriving DecidableEq, Repr

/-! ## libc helpers -/

/-- The libc `strcasecmp` in the C locale: compares the lower-cased bytes, returns the difference
of the first pair that differs (the terminating NUL counts as 0). -/
def strcasecmp_chars : List Char → List Char → Int
  | [], [] => 0
  | [], b :: _ => - (b.toLower.toNat : Int)
  | a :: _, [] => (a.toLower.toNat : Int)
  | a :: l, b :: r =>
    if a.toLower = b.toLower then strcasecmp_chars l r
    else (a.toLower.toNat : Int) - (b.toLower.toNat : Int)

/-- The libc `strcasecmp` on strings. -/
def strcasecmp (a b : String) : Int := strcasecmp_chars a.data b.data

/-- The text `sprintf(bufall, "eid_%d", eid)` writes for a non-negative export id. -/
def eid_label (eid : Nat) : String := "eid_" ++ toString eid

/-! ## Integer conversions -/

/-- The conversion of an unsigned value to an `int`: the low 32 bits, read in two's complement.
It is done on the `unsigned long` result of `strtoul` assigned to the `int` variable `eid`, and
on the key fields `key.s.type` and `key.s.qid` passed to the `int` parameters of
`add_offender`. -/
def to_int (v : Nat) : Int :=
  if v % 2 ^ 32 < 2 ^ 31 then ((v % 2 ^ 32 : Nat) : Int) else ((v % 2 ^ 32 : Nat) : Int) - 2 ^ 32

/-- The C comparison `i == u` of an `int` with an unsigned key field, as the search loop of
`add_offence` does it: the `int` is converted to the unsigned type of the field, where a negative
value becomes larger than every value of the field, so that the two are equal exactly when `i` is
not negative and is the number `u`. -/
def int_eq_unsigned (i : Int) (u : Nat) : Prop := 0 ≤ i ∧ i.toNat = u

instance (i : Int) (u : Nat) : Decidable (int_eq_unsigned i u) := by
  unfold int_eq_unsigned; infer_instance

/-- The subtraction `a - b` of two `time_t` values, in the 64-bit two's complement arithmetic of
`time_t`: the difference when it fits, else the difference wrapped around by `2 ^ 64`. -/
def time_sub (a b : Int) : Int := (a - b + 2 ^ 63) % 2 ^ 64 - 2 ^ 63

/-- The difference `a - b` is a `time_t` value: the subtraction does not overflow. -/
def time_fits (a b : Int) : Prop := -2 ^ 63 ≤ a - b ∧ a - b < 2 ^ 63

instance (a b : Int) : Decidable (time_fits a b) := by
  unfold time_fits; infer_instance

/-! ## Offender registry -/

/-- The C `add_offender`, on the values of its `int` parameters `type` and `id` (the caller
narrows what it passes): resolves the name when none is given (`id2name` returns `none` when the
lookup fails), then links a new offender with no usage in front of `offenders`.  Returns `none`
for the `NULL` result; otherwise the new value of `offenders`, whose head is the node returned. -/
def add_offender (id2name : Int → Int → Option String) (offenders : List offenderlist)
    (type id : Int) (name : Option String) : Option (List offenderlist) :=
  let resolved : Option String :=
    match name with
    | some n => some n
    | none => id2name id type
  match resolved with
  | none => none
  | some n =>
    some ({ offender_type := type, offender_id := id, offender_name := n, usage := [] }
      :: offenders)

/-- The search loop of `add_offence`: the position of the first offender whose `int` fields
`offender_type` and `offender_id` compare equal to the unsigned key fields `key.s.type` and
`key.s.qid` of the record, `none` when the loop runs off the end (`lptr == NULL`). -/
def find_offender : List offenderlist → rozofs_dquot_t → Option Nat
  | [], _ => none
  | o :: rest, dquot =>
    if int_eq_unsigned o.offender_type dquot.key.type
        ∧ int_eq_unsigned o.offender_id dquot.key.qid then some 0
    else (find_offender rest dquot).map (· + 1)

/-- The usage node `add_offence` allocates and fills from the record. -/
def new_usage (dquot : rozofs_dquot_t) : usage :=
  { devicename := eid_label dquot.key.eid
    dq_dqb :=
      { dqb_ihardlimit := dquot.quota.dqb_ihardlimit
        dqb_isoftlimit := dquot.quota.dqb_isoftlimit
        dqb_curinodes := dquot.quota.dqb_curinodes
        dqb_bhardlimit := dquot.quota.dqb_bhardlimit
        dqb_bsoftlimit := dquot.quota.dqb_bsoftlimit
        dqb_curspace := dquot.quota.dqb_curspace
        dqb_btime := dquot.quota.dqb_btime
        dqb_itime := dquot.quota.dqb_itime } }

/-- The two closing assignments of `add_offence`, `usage->next = lptr->usage; lptr->usage = usage`,
done on the offender at position `i` of the list. -/
def stuff_in_front (u : usage) : List offenderlist → Nat → List offenderlist
  | [], _ => []
  | o :: rest, 0 => { o with usage := u :: o.usage } :: rest
  | o :: rest, i + 1 => o :: stuff_in_front u rest i

/-- The C `add_offence`; returns the new value of `offenders`.  The call
`add_offender(dquot->key.s.type, dquot->key.s.qid, name)` narrows the two key fields to the `int`
parameters of `add_offender`. -/
def add_offence (id2name : Int → Int → Option String) (offenders : List offenderlist)
    (dquot : rozofs_dquot_t) (name : Option String) : List offenderlist :=
  match find_offender offenders dquot with
  | some i => stuff_in_front (new_usage dquot) offenders i
  | none =>
    match add_offender id2name offenders (to_int dquot.key.type) (to_int dquot.key.qid) name with
    | none => offenders
    | some offenders1 => stuff_in_front (new_usage dquot) offenders1 0

/-! ## Threshold and exemption policy -/

/-- The C `deliverable`, with the clock value `now` it reads; returns the C `int`. -/
def deliverable (toqb : Nat → Nat) (maildev : String) (maildev_handle : Option quota_handle)
    (now : Int) (dquot : rozofs_dquot_t) : Int :=
  if maildev.data.head? = none then 1
  else if strcasecmp maildev "any" = 0 ∧
      ((dquot.quota.dqb_bhardlimit ≠ 0 ∧ toqb dquot.quota.dqb_curspace ≥ dquot.quota.dqb_bhardlimit)
        ∨ ((dquot.quota.dqb_bsoftlimit ≠ 0
              ∧ toqb dquot.quota.dqb_curspace ≥ dquot.quota.dqb_bsoftlimit)
            ∧ (dquot.quota.dqb_btime ≠ 0 ∧ dquot.quota.dqb_btime ≤ now))) then 0
  else if maildev_handle = none then 1
  else 1

/-- The C `check_offence`; returns the new value of `offenders` (the C function itself always
returns 0). -/
def check_offence (toqb : Nat → Nat) (id2name : Int → Int → Option String) (maildev : String)
    (maildev_handle : Option quota_handle) (now : Int) (offenders : List offenderlist)
    (dquot : rozofs_dquot_t) (name : Option String) : List offenderlist :=
  if (dquot.quota.dqb_bsoftlimit ≠ 0 ∧ toqb dquot.quota.dqb_curspace ≥ dquot.quota.dqb_bsoftlimit)
      ∨ (dquot.quota.dqb_isoftlimit ≠ 0
          ∧ dquot.quota.dqb_curinodes ≥ dquot.quota.dqb_isoftlimit) then
    if deliverable toqb maildev maildev_handle now dquot ≠ 0 then
      add_offence id2name offenders dquot name
    else offenders
  else offenders

/-! ## Scan phase -/

/-- What `rozofs_warn_quota` reads from one disk table (`quota_inode[type]` of an export): the
files `disk_tb_get_next_file_entry` yields, in order, each given by the results of its successive
`disk_tb_get_next_record` calls, as many as `disk_tb_get_nb_records` announces (none at all when
that count is not positive); `none` stands for a read whose byte count is not `entry_sz`. -/
abbrev disk_table := List (List (Option rozofs_dquot_t))

/-- The parts of a `rozofs_qt_export_t` quota context that `rozofs_warn_quota` reads, per account
type: `quota_super[type].enable` and the content of `quota_inode[type]`. -/
structure rozofs_qt_export_t where
  quota_super_enable : Nat → Nat
  quota_inode : Nat → disk_table

/-- The collaborators of the scan phase that live outside `rozofs_warnquota.c`.  `clock n` is the
value `time()` returns during the check of the record that follows `n` earlier checked records;
`strtoul` returns the converted value and the text left at `*errch`; `get_groupadmins` works on
the administrators table state `A` and returns `none` for a negative result. -/
structure collaborators (A : Type) where
  toqb : Nat → Nat
  id2name : Int → Int → Option String
  clock : Nat → Int
  getpwuid : Nat → Option String
  getgrgid : Nat → Option String
  strtoul : String → Nat × String
  econfig_get_export_path : Int → Option String
  rozofs_qt_alloc_context : Int → String → Option rozofs_qt_export_t
  get_groupadmins : A → Option A

/-- The file-scope state the scan phase of `warn_quota` works on; `checked` counts the records
handed to `check_offence` so far (the index into `collaborators.clock`). -/
structure scan_state (A : Type) where
  offenders : List offenderlist
  maildev_handle : Option quota_handle
  admins : A
  checked : Nat

/-- The display name `rozofs_warn_quota` builds for a record: the passwd or group entry name, or
`#<qid>` when there is no entry. -/
def record_name {A : Type} (env : collaborators A) (type : Nat) (data : rozofs_dquot_t) : String :=
  if type = USRQUOTA then
    match env.getpwuid data.key.qid with
    | some pw_name => pw_name
    | none => "#" ++ toString data.key.qid
  else
    match env.getgrgid data.key.qid with
    | some gr_name => gr_name
    | none => "#" ++ toString data.key.qid

/-- The `for (record = 0; record < nb_records; record++)` loop of `rozofs_warn_quota` over one
file: stops at the first short read, names each record and hands it to `check_offence`. -/
def scan_file {A : Type} (env : collaborators A) (maildev : String) (type : Nat) :
    scan_state A → List (Option rozofs_dquot_t) → scan_state A
  | st, [] => st
  | st, none :: _ => st
  | st, some data :: rest =>
    scan_file env maildev type
      { st with
        offenders :=
          check_offence env.toqb env.id2name maildev st.maildev_handle (env.clock st.checked)
            st.offenders data (some (record_name env type data))
        checked := st.checked + 1 }
      rest

/-- The C `rozofs_warn_quota`: nothing when quota is not enabled for the type, else every file of
the disk table of that type in turn. -/
def rozofs_warn_quota {A : Type} (env : collaborators A) (maildev : String) (st : scan_state A)
    (quota_ctx_p : rozofs_qt_export_t) (type : Nat) : scan_state A :=
  if quota_ctx_p.quota_super_enable type = 0 then st
  else (quota_ctx_p.quota_inode type).foldl (scan_file env maildev type) st

/-- The body of the `for (i = 0; i < fs_count; i++)` loop of `warn_quota` for the argument
`fs[i]`.  `Except.error c` is the process ending with `exit(c)` or `wc_exit(c)`. -/
def warn_quota_arg {A : Type} (env : collaborators A) (maildev : String) (flags : Nat)
    (st : scan_state A) (arg : String) : Except Int (scan_state A) :=
  let eid : Int := to_int (env.strtoul arg).1
  let errch : String := (env.strtoul arg).2
  -- `if (!*errch) if (errch != NULL) { if (*errch != 0) continue; }`
  if errch.data.head? = none ∧ errch.data.head? ≠ none then Except.ok st
  else
    match env.econfig_get_export_path eid with
    | none => Except.ok st
    | some pathname =>
      match env.rozofs_qt_alloc_context eid pathname with
      | none => Except.error (-1)
      | some quota_ctx_p =>
        let st1 : scan_state A :=
          if flags &&& FL_USER ≠ 0 then
            rozofs_warn_quota env maildev { st with maildev_handle := none } quota_ctx_p USRQUOTA
          else st
        if flags &&& FL_GROUP ≠ 0 then
          match env.get_groupadmins st1.admins with
          | none => Except.error 1
          | some admins =>
            Except.ok
              (rozofs_warn_quota env maildev
                { st1 with admins := admins, maildev_handle := none } quota_ctx_p USRQUOTA)
        else Except.ok st1

/-- The scan phase of the C `warn_quota`: the loop over the positional arguments. -/
def warn_quota_scan {A : Type} (env : collaborators A) (maildev : String) (flags : Nat) :
    scan_state A → List String → Except Int (scan_state A)
  | st, [] => Except.ok st
  | st, arg :: rest =>
    match warn_quota_arg env maildev flags st arg with
    | Except.error c => Except.error c
    | Except.ok st1 => warn_quota_scan env maildev flags st1 rest

/-- The records of a disk table, in file order, short reads left out. -/
def table_records (t : disk_table) : List rozofs_dquot_t :=
  t.flatten.filterMap id

/-! ## Observations on the registry -/

/-- The identity of an offender: its account type and account id. -/
def offender_key (o : offenderlist) : Int × Int := (o.offender_type, o.offender_id)

/-- The account of a record, `key.s.type` and `key.s.qid`: the identity the search loop of
`add_offence` looks for. -/
def dquot_key (dquot : rozofs_dquot_t) : Int × Int := ((dquot.key.type : Int), (dquot.key.qid : Int))

/-- The identity `add_offender` stores for a record that the search loop did not find: the two
key fields narrowed to `int`. -/
def stored_key (dquot : rozofs_dquot_t) : Int × Int :=
  (to_int dquot.key.type, to_int dquot.key.qid)

/-- The key fields `key.s.type` and `key.s.qid` of the record are below `2 ^ 31`: the narrowing
to `int` keeps them. -/
def fits_int (dquot : rozofs_dquot_t) : Prop := dquot.key.type < 2 ^ 31 ∧ dquot.key.qid < 2 ^ 31

instance (dquot : rozofs_dquot_t) : Decidable (fits_int dquot) := by
  unfold fits_int; infer_instance

/-- The value is in the range of `int`. -/
def in_int (i : Int) : Prop := -2 ^ 31 ≤ i ∧ i < 2 ^ 31

instance (i : Int) : Decidable (in_int i) := by
  unfold in_int; infer_instance

/-- The usage list of the first offender of the list with the given identity (the one the search
loop of `add_offence` stops at); empty when there is none. -/
def usage_of : List offenderlist → Int × Int → List usage
  | [], _ => []
  | o :: rest, k => if offender_key o = k then o.usage else usage_of rest k

/-- Condition `IsViolation` in the words of the specification: converted block usage at or above
a set block soft limit, or inode count at or above a set inode soft limit (0 means unset). -/
def IsViolation (toqb : Nat → Nat) (dquot : rozofs_dquot_t) : Prop :=
  (dquot.quota.dqb_bsoftlimit ≠ 0 ∧ dquot.quota.dqb_bsoftlimit ≤ toqb dquot.quota.dqb_curspace)
    ∨ (dquot.quota.dqb_isoftlimit ≠ 0 ∧ dquot.quota.dqb_isoftlimit ≤ dquot.quota.dqb_curinodes)

instance (toqb : Nat → Nat) (dquot : rozofs_dquot_t) : Decidable (IsViolation toqb dquot) := by
  unfold IsViolation; infer_instance

/-- One quota record as it reaches `check_offence`: the clock value read while it is checked, the
record, and the display name the caller supplies. -/
structure scanned where
  now : Int
  dquot : rozofs_dquot_t
  name : String
deriving DecidableEq, Repr

/-- Feeds the records of a list, first to last, through `check_offence`, each with its supplied
display name. -/
def check_offences (toqb : Nat → Nat) (id2name : Int → Int → Option String) (maildev : String)
    (maildev_handle : Option quota_handle) (offenders : List offenderlist)
    (records : List scanned) : List offenderlist :=
  records.foldl
    (fun reg r => check_offence toqb id2name maildev maildev_handle r.now reg r.dquot (some r.name))
    offenders

/-- One call on the registry: `add_offence`, or `check_offence` under the `maildev` setting,
device handle and clock value of that moment. -/
inductive registry_call where
  | add (dquot : rozofs_dquot_t) (name : Option String)
  | check (maildev : String) (maildev_handle : Option quota_handle) (now : Int)
      (dquot : rozofs_dquot_t) (name : Option String)

/-- Runs a sequence of registry calls, first to last. -/
def run_calls (toqb : Nat → Nat) (id2name : Int → Int → Option String) :
    List offenderlist → List registry_call → List offenderlist
  | offenders, [] => offenders
  | offenders, registry_call.add dquot name :: rest =>
    run_calls toqb id2name (add_offence id2name offenders dquot name) rest
  | offenders, registry_call.check maildev maildev_handle now dquot name :: rest =>
    run_calls toqb id2name
      (check_offence toqb id2name maildev maildev_handle now offenders dquot name) rest

/-- The record a registry call hands over. -/
def call_dquot : registry_call → rozofs_dquot_t
  | registry_call.add dquot _ => dquot
  | registry_call.check _ _ _ dquot _ => dquot

/-- The record is filed: the search loop finds its account in the registry, or a name is
supplied, or the name lookup `add_offender` does with its `int` parameters succeeds. -/
def is_registered (id2name : Int → Int → Option String) (reg : List offenderlist)
    (d : rozofs_dquot_t) (name : Option String) : Prop :=
  find_offender reg d ≠ none ∨ name ≠ none ∨ id2name (to_int d.key.qid) (to_int d.key.type) ≠ none

instance (id2name : Int → Int → Option String) (reg : List offenderlist) (d : rozofs_dquot_t)
    (name : Option String) : Decidable (is_registered id2name reg d name) := by
  unfold is_registered; infer_instance

/-- The number a string of decimal digits stands for. -/
def digits_value (cs : List Char) : Nat :=
  cs.foldl (fun a c => 10 * a + (c.toNat - 48)) 0

/-- The device labels of the usage entries of an offender, in list order. -/
def labels (o : offenderlist) : List String := o.usage.map (fun u => u.devicename)

/-- Invariant of the scan between two exports: every offender holds each label once, and every
label it holds is the label of an export id of `E`. -/
def one_entry_per_export (E : List Int) (reg : List offenderlist) : Prop :=
  ∀ o ∈ reg, (labels o).Nodup ∧ ∀ x ∈ labels o, ∃ n : Nat, (n : Int) ∈ E ∧ x = eid_label n

/-- Invariant of the scan inside export `e`: as `one_entry_per_export`, with `e` as a further
export id, and only the accounts of `K` hold the label of `e`. -/
def scanning_export (E : List Int) (e : Int) (K : List (Int × Int)) (reg : List offenderlist) :
    Prop :=
  ∀ o ∈ reg, (labels o).Nodup ∧
    (∀ x ∈ labels o, ∃ n : Nat, ((n : Int) ∈ E ∨ (n : Int) = e) ∧ x = eid_label n) ∧
    (∀ n : Nat, (n : Int) = e → eid_label n ∈ labels o → offender_key o ∈ K)

/-! ## Sample data -/

/-- A quota block over its block soft limit and under its hard limit: 120 blocks used, soft limit
100, hard limit 150, grace deadline 50; no inode limit. -/
def sample_quota : util_dqblk :=
  { dqb_ihardlimit := 0, dqb_isoftlimit := 0, dqb_curinodes := 5, dqb_bhardlimit := 150,
    dqb_bsoftlimit := 100, dqb_curspace := 120, dqb_btime := 50, dqb_itime := 0 }

/-- A record carrying `sample_quota` for the given export, account type and account id. -/
def sample_dquot (eid type qid : Nat) : rozofs_dquot_t :=
  { key := { eid := eid, type := type, qid := qid }, quota := sample_quota }

/-- A name lookup that knows nobody. -/
def sample_id2name : Int → Int → Option String := fun _ _ => none

/-- A quota context of export `eid` with quota enabled: its user table holds one record, of
user 1000, and its group table holds one record, of group 50, both over their block soft limit. -/
def sample_ctx (eid : Nat) : rozofs_qt_export_t :=
  { quota_super_enable := fun _ => 1
    quota_inode := fun type =>
      if type = USRQUOTA then [[some (sample_dquot eid USRQUOTA 1000)]]
      else [[some (sample_dquot eid GRPQUOTA 50)]] }

/-- What `strtoul` returns for the arguments used in the examples. -/
def sample_strtoul (s : String) : Nat × String :=
  if s = "3" then (3, "") else if s = "4" then (4, "") else (0, s)

/-- Collaborators for the examples: exports 3 and 4 exist, user 1000 is alice, group 50 is
staff, `rozofs_toqb` is taken as the identity and the clock stands at 0. -/
def sample_env : collaborators Unit :=
  { toqb := id
    id2name := sample_id2name
    clock := fun _ => 0
    getpwuid := fun uid => if uid = 1000 then some "alice" else none
    getgrgid := fun gid => if gid = 50 then some "staff" else none
    strtoul := sample_strtoul
    econfig_get_export_path := fun eid =>
      if eid = 3 then some "/srv/exp3" else if eid = 4 then some "/srv/exp4" else none
    rozofs_qt_alloc_context := fun eid _ => some (sample_ctx eid.toNat)
    get_groupadmins := fun _ => some () }

/-- The collaborators of the examples with another user table for every export: a record of user
4294968296 (`2 ^ 32 + 1000`, whom nobody can name) followed by a record of user 1000, both over
their block soft limit. -/
def sample_wide_env : collaborators Unit :=
  { toqb := sample_env.toqb
    id2name := sample_env.id2name
    clock := sample_env.clock
    getpwuid := sample_env.getpwuid
    getgrgid := sample_env.getgrgid
    strtoul := sample_env.strtoul
    econfig_get_export_path := sample_env.econfig_get_export_path
    rozofs_qt_alloc_context := fun eid _ =>
      some
        { quota_super_enable := fun _ => 1
          quota_inode := fun _ =>
            [[some (sample_dquot eid.toNat USRQUOTA 4294968296),
              some (sample_dquot eid.toNat USRQUOTA 1000)]] }
    get_groupadmins := sample_env.get_groupadmins }

/-- The state the scan phase starts from. -/
def sample_state : scan_state Unit :=
  { offenders := [], maildev_handle := none, admins := (), checked := 0 }

/-! ## Configuration and Cc policy -/

/-- The C `struct configparams` of the build without `USE_LDAP_MAIL_LOOKUP`.  The field `from` is
spelled `from_addr`; the four templates are `NULL` until the configuration file sets them. -/
structure configparams where
  mail_cmd : String
  from_addr : String
  subject : String
  cc_to : String
  support : String
  phone : String
  charset : String
  user_message : Option String
  user_signature : Option String
  group_message : Option String
  group_signature : Option String
  use_ldap_mail : Int
  cc_before : Int
deriving DecidableEq, Repr

/-- The `for (lptr = offender->usage; lptr; lptr = lptr->next)` loop of `should_cc`, with the
clock value `atime` read before it.  The two differences are `time_t` subtractions. -/
def should_cc_loop (toqb : Nat → Nat) (atime : Int) (cc_before : Int) : List usage → Int
  | [] => 0
  | lptr :: next =>
    if lptr.dq_dqb.dqb_bsoftlimit ≠ 0
        ∧ lptr.dq_dqb.dqb_bsoftlimit ≤ toqb lptr.dq_dqb.dqb_curspace
        ∧ time_sub lptr.dq_dqb.dqb_btime cc_before ≤ atime then 1
    else if lptr.dq_dqb.dqb_isoftlimit ≠ 0
        ∧ lptr.dq_dqb.dqb_isoftlimit ≤ lptr.dq_dqb.dqb_curinodes
        ∧ time_sub lptr.dq_dqb.dqb_itime cc_before ≤ atime then 1
    else should_cc_loop toqb atime cc_before next

/-- The C `should_cc`, with the clock value `atime` it reads; returns the C `int`. -/
def should_cc (toqb : Nat → Nat) (atime : Int) (offender : offenderlist)
    (config : configparams) : Int :=
  if config.cc_before = -1 then 1
  else should_cc_loop toqb atime config.cc_before offender.usage

/-- A configuration for the examples: the compiled-in defaults with `cc_before` set to the given
lead time. -/
def sample_config (cc_before : Int) : configparams :=
  { mail_cmd := "/usr/lib/sendmail -t", from_addr := "support@localhost",
    subject := "Disk Quota usage on system", cc_to := "john.doe@example.com",
    support := "support@localhost", phone := "(xxx) xxx-xxxx or (yyy) yyy-yyyy", charset := "",
    user_message := none, user_signature := none, group_message := none,
    group_signature := none, use_ldap_mail := 0, cc_before := cc_before }

/-- An offender holding one usage entry with the given block and inode grace deadlines, over its
block soft limit (120 used, limit 100) and with no inode limit. -/
def sample_offender (btime itime : Int) : offenderlist :=
  { offender_type := 0, offender_id := 1000, offender_name := "alice",
    usage := [{ devicename := "eid_3"
                dq_dqb := { sample_quota with dqb_btime := btime, dqb_itime := itime } }] }

/-! ## C strings as buffers -/

/-- The terminating byte of a C string. -/
def NUL : Char := Char.ofNat 0

/-- The byte at index `i` of the buffer that holds the characters `buf` and their terminating
NUL: a character of `buf`, the NUL at index `buf.length`, and `none` for an index past the
terminator (a read outside the string). -/
def byte_at (buf : List Char) (i : Nat) : Option Char :=
  if i < buf.length then buf[i]? else if i = buf.length then some NUL else none

/-- The libc `strchr(buf + i, c)` for a character `c` other than NUL and an index `i` inside the
string: the index of the first `c` at or after `i` and before the first NUL, `none` for `NULL`. -/
def strchr_from : List Char → Nat → Char → Option Nat
  | [], _, _ => none
  | x :: xs, 0, c =>
    if x = c then some 0 else if x = NUL then none else (strchr_from xs 0 c).map (· + 1)
  | _ :: xs, i + 1, c => (strchr_from xs i c).map (· + 1)

/-- The text `fputs(buf + i, fp)` writes: the characters from index `i` up to the first NUL. -/
def fputs_from (buf : List Char) (i : Nat) : List Char :=
  (buf.drop i).takeWhile (fun c => c ≠ NUL)

/-- The libc `isspace` in the C locale. -/
def isspace (c : Char) : Bool :=
  c = ' ' ∨ c = '\t' ∨ c = '\n' ∨ c = Char.ofNat 11 ∨ c = Char.ofNat 12 ∨ c = '\r'

/-! ## Templates -/

/-- The `case` labels of the `switch` of `verify_format`: `s`, `i`, `h`, `d` and `%`. -/
def is_format_char (c : Char) : Bool :=
  c = 's' ∨ c = 'i' ∨ c = 'h' ∨ c = 'd' ∨ c = '%'

/-- The `for (ch = strchr(fmt, '%'); ch; ch = strchr(ch+2, '%'))` loop of `verify_format`, with
the current value of `ch`.  `some (Except.error 1)` is `die(1, ...)`, `some (Except.ok ())` the
return; `none` stands for a read past the terminator or an exhausted iteration budget. -/
def verify_format_loop (fmt : List Char) : Nat → Option Nat → Option (Except Int Unit)
  | 0, _ => none
  | _ + 1, none => some (Except.ok ())
  | fuel + 1, some ch =>
    match byte_at fmt (ch + 1) with
    | none => none
    | some c =>
      if is_format_char c then verify_format_loop fmt fuel (strchr_from fmt (ch + 2) '%')
      else some (Except.error 1)

/-- The C `verify_format`; the loop runs at most once per character of the template. -/
def verify_format (fmt : List Char) : Option (Except Int Unit) :=
  verify_format_loop fmt (fmt.length + 1) (strchr_from fmt 0 '%')

/-- The text the `switch` of `format_print` writes for the character after a `%`. -/
def format_subst (name hostname domainname : List Char) (c : Char) : List Char :=
  if c = 's' ∨ c = 'i' then name
  else if c = 'h' then hostname
  else if c = 'd' then domainname
  else if c = '%' then ['%']
  else []

/-- The `for` loop of `format_print` and the closing `fputs(lastch, fp)`, with the current
template buffer, the current values of `lastch` and `ch`, and the text written so far.  Returns
the text written and the final content of the template buffer; `none` stands for a read past the
terminator or an exhausted iteration budget. -/
def format_print_loop (name hostname domainname : List Char) :
    Nat → List Char → Nat → Option Nat → List Char → Option (List Char × List Char)
  | 0, _, _, _, _ => none
  | _ + 1, fmt, lastch, none, out => some (out ++ fputs_from fmt lastch, fmt)
  | fuel + 1, fmt, lastch, some ch, out =>
    -- `*ch = 0; fputs(lastch, fp); *ch = '%';`
    let fmt0 := fmt.set ch NUL
    let out1 := out ++ fputs_from fmt0 lastch
    let fmt1 := fmt0.set ch '%'
    match byte_at fmt1 (ch + 1) with
    | none => none
    | some c =>
      let out2 := out1 ++ format_subst name hostname domainname c
      -- `lastch = ch+2, ch = strchr(ch+2, '%')`
      if ch + 2 ≤ fmt1.length then
        format_print_loop name hostname domainname fuel fmt1 (ch + 2)
          (strchr_from fmt1 (ch + 2) '%') out2
      else none

/-- The C `format_print` with the file-scope `hostname` and `domainname`: the text written to
`fp` and the content of the template buffer on return. -/
def format_print (hostname domainname : List Char) (fmt name : List Char) :
    Option (List Char × List Char) :=
  format_print_loop name hostname domainname (fmt.length + 1) fmt 0 (strchr_from fmt 0 '%') []

/-- Acceptance in the words of the specification: in a left-to-right scan that resumes two
characters after each `%`, every `%` met is immediately followed by `s`, `i`, `h`, `d` or `%`
(the end of the string is none of them). -/
def format_ok : List Char → Bool
  | [] => true
  | c :: rest =>
    if c = '%' then
      match rest with
      | [] => false
      | x :: rest2 => is_format_char x && format_ok rest2
    else format_ok rest

/-- Substitution in the words of the specification: `%s` and `%i` become the name, `%h` the host
name, `%d` the domain name, `%%` a single `%`, every other character is copied. -/
def substitute (name hostname domainname : List Char) : List Char → List Char
  | [] => []
  | c :: rest =>
    if c = '%' then
      match rest with
      | [] => []
      | x :: rest2 =>
        format_subst name hostname domainname x ++ substitute name hostname domainname rest2
    else c :: substitute name hostname domainname rest

/-! ## Configuration file -/

def MAIL_CMD : String := "/usr/lib/sendmail -t"
def FROM : String := "support@localhost"
def SUBJECT : String := "Disk Quota usage on system"
def CC_TO : String := "john.doe@example.com"
def SUPPORT : String := "support@localhost"
def PHONE : String := "(xxx) xxx-xxxx or (yyy) yyy-yyyy"
def CNF_BUFFER : Nat := 2048

/-- The characters `stripstring` wipes: white space, the double quote and the single quote. -/
def is_strip_char (c : Char) : Bool :=
  isspace c || c = Char.ofNat 34 || c = Char.ofNat 39

/-- The C `stripstring`: the first loop cuts the string after its last character that is not
wiped, the second loop moves the start past the leading wiped characters.  Returns the string
`*buff` points at on return. -/
def stripstring (buff : List Char) : List Char :=
  (buff.rdropWhile is_strip_char).dropWhile is_strip_char

/-- The C `create_eoln`: every `|` of the string becomes a newline. -/
def create_eoln (buf : List Char) : List Char :=
  buf.map (fun c => if c = '|' then '\n' else c)

/-- The helper `sstrncpy(d, s, len)` of the quota tools, declared outside the sources at hand:
taken to copy the string cut to `len - 1` characters. -/
def sstrncpy (s : List Char) (len : Nat) : String :=
  String.mk (s.take (len - 1))

/-- The "set default values" block of `readconfigfile`: the configuration and the `maildev`
setting before the first line of the file is read. -/
def readconfigfile_defaults : configparams × String :=
  ({ mail_cmd := sstrncpy MAIL_CMD.data CNF_BUFFER
     from_addr := sstrncpy FROM.data CNF_BUFFER
     subject := sstrncpy SUBJECT.data CNF_BUFFER
     cc_to := sstrncpy CC_TO.data CNF_BUFFER
     support := sstrncpy SUPPORT.data CNF_BUFFER
     phone := sstrncpy PHONE.data CNF_BUFFER
     charset := ""
     user_message := none
     user_signature := none
     group_message := none
     group_signature := none
     use_ldap_mail := 0
     cc_before := -1 }, "")

/-- The three statements `readconfigfile` runs for a template key: `sstrdup(value)`,
`create_eoln` and `verify_format`.  Returns the template stored, or the fatal exit. -/
def load_template (value : List Char) : Option (Except Int String) :=
  match verify_format (create_eoln value) with
  | none => none
  | some (Except.error c) => some (Except.error c)
  | some (Except.ok _) => some (Except.ok (String.mk (create_eoln value)))

/-- What `readconfigfile` does with one logical line `buff` (continuation lines joined, the
newline removed): the part of the loop body from `strchr(buff, '=')` on, in the build without
`USE_LDAP_MAIL_LOOKUP`.  Works on the configuration and the file-scope `maildev`.
`sscanf_d_s value` is the pair `sscanf(value, "%d%s", ...)` stores when it returns 2, and
`str2timeunits num unit` the seconds it stores when its result is not negative; both live
outside the sources at hand.  `Except.error 1` is `die(1, ...)`; diagnostics are not modelled. -/
def config_line (sscanf_d_s : List Char → Option (Int × List Char))
    (str2timeunits : Int → List Char → Option Int) (config : configparams) (maildev : String)
    (buff : List Char) : Option (Except Int (configparams × String)) :=
  match strchr_from buff 0 '=' with
  | none => some (Except.ok (config, maildev))
  | some pos =>
    let var := stripstring (buff.take pos)
    let value := stripstring (buff.drop (pos + 1))
    if var = "MAIL_CMD".data then
      some (Except.ok ({ config with mail_cmd := sstrncpy value CNF_BUFFER }, maildev))
    else if var = "FROM".data then
      some (Except.ok ({ config with from_addr := sstrncpy value CNF_BUFFER }, maildev))
    else if var = "SUBJECT".data then
      some (Except.ok ({ config with subject := sstrncpy value CNF_BUFFER }, maildev))
    else if var = "CC_TO".data then
      some (Except.ok ({ config with cc_to := sstrncpy value CNF_BUFFER }, maildev))
    else if var = "SUPPORT".data then
      some (Except.ok ({ config with support := sstrncpy value CNF_BUFFER }, maildev))
    else if var = "PHONE".data then
      some (Except.ok ({ config with phone := sstrncpy value CNF_BUFFER }, maildev))
    else if var = "CHARSET".data then
      some (Except.ok ({ config with charset := sstrncpy value CNF_BUFFER }, maildev))
    else if var = "MAILDEV".data then
      some (Except.ok (config, sstrncpy value CNF_BUFFER))
    else if var = "MESSAGE".data then
      match load_template value with
      | none => none
      | some (Except.error c) => some (Except.error c)
      | some (Except.ok t) => some (Except.ok ({ config with user_message := some t }, maildev))
    else if var = "SIGNATURE".data then
      match load_template value with
      | none => none
      | some (Except.error c) => some (Except.error c)
      | some (Except.ok t) => some (Except.ok ({ config with user_signature := some t }, maildev))
    else if var = "GROUP_MESSAGE".data then
      match load_template value with
      | none => none
      | some (Except.error c) => some (Except.error c)
      | some (Except.ok t) => some (Except.ok ({ config with group_message := some t }, maildev))
    else if var = "GROUP_SIGNATURE".data then
      match load_template value with
      | none => none
      | some (Except.error c) => some (Except.error c)
      | some (Except.ok t) =>
        some (Except.ok ({ config with group_signature := some t }, maildev))
    else if var = "LDAP_MAIL".data then
      if strcasecmp (String.mk value) "true" = 0 then
        some (Except.ok ({ config with use_ldap_mail := 1 }, maildev))
      else some (Except.ok ({ config with use_ldap_mail := 0 }, maildev))
    else if var = "CC_BEFORE".data then
      match sscanf_d_s value with
      | none => some (Except.error 1)
      | some (num, unit) =>
        match str2timeunits num unit with
        | none => some (Except.error 1)
        | some seconds => some (Except.ok ({ config with cc_before := seconds }, maildev))
    else some (Except.ok (config, maildev))

/-- A stand-in for `sscanf(value, "%d%s", ...)` and one for `str2timeunits` in the examples:
they know the value `7days` only. -/
def sample_sscanf (value : List Char) : Option (Int × List Char) :=
  if value = "7days".data then some (7, "days".data) else none

def sample_str2timeunits (num : Int) (unit : List Char) : Option Int :=
  if unit = "days".data then some (num * 86400) else none

/-! ## The libc `strtoul` -/

/-- The value of a digit character in bases up to 36. -/
def digit_value (c : Char) : Option Nat :=
  if '0' ≤ c ∧ c ≤ '9' then some (c.toNat - '0'.toNat)
  else if 'a' ≤ c ∧ c ≤ 'z' then some (c.toNat - 'a'.toNat + 10)
  else if 'A' ≤ c ∧ c ≤ 'Z' then some (c.toNat - 'A'.toNat + 10)
  else none

/-- The longest run of digits of the base at the head of the text: the number read so far, the
count of digits taken, and the text that follows. -/
def take_digits (base : Nat) : List Char → Nat → Nat → Nat × Nat × List Char
  | [], acc, n => (acc, n, [])
  | c :: rest, acc, n =>
    match digit_value c with
    | some d =>
      if d < base then take_digits base rest (acc * base + d) (n + 1) else (acc, n, c :: rest)
    | none => (acc, n, c :: rest)

/-- The libc `strtoul(nptr, &errch, 0)` on a 64-bit `unsigned long`: white space, an optional
sign, the prefix `0x` (hexadecimal) or `0` (octal), then the digits.  Returns the value and the
text left at `*errch`; with no digit at all the value is 0 and `*errch` is `nptr`. -/
def strtoul_base0 (nptr : List Char) : Nat × List Char :=
  let s1 := nptr.dropWhile isspace
  let negative : Bool := s1.head? = some '-'
  let s2 := if s1.head? = some '-' ∨ s1.head? = some '+' then s1.tail else s1
  let hex : Bool :=
    decide (s2.head? = some '0') &&
      (decide (s2.tail.head? = some 'x') || decide (s2.tail.head? = some 'X')) &&
      (match s2.tail.tail.head? with
        | some c => (match digit_value c with | some d => decide (d < 16) | none => false)
        | none => false)
  let base : Nat := if hex then 16 else if s2.head? = some '0' then 8 else 10
  let s3 := if hex then s2.tail.tail else s2
  match take_digits base s3 0 0 with
  | (v, n, rest) =>
    if n = 0 then (0, nptr)
    else if 2 ^ 64 ≤ v then (2 ^ 64 - 1, rest)
    else if negative then ((2 ^ 64 - v) % 2 ^ 64, rest)
    else (v, rest)

/-- The collaborators of the examples with the libc `strtoul` in place of the stand-in. -/
def sample_env_strtoul : collaborators Unit :=
  { sample_env with
    strtoul := fun s => ((strtoul_base0 s.data).1, String.mk (strtoul_base0 s.data).2) }

/-! ## Mail composition and dispatch -/

/-- The C `quotatable_t`. -/
structure quotatable_t where
  devname : String
  devdesc : String
deriving DecidableEq, Repr

/-- The C `struct adminstable`. -/
structure adminstable where
  grpname : String
  adminname : String
deriving DecidableEq, Repr

/-- The libc `strcmp`: the difference of the first pair of characters that differ (the
terminating NUL counts as 0). -/
def strcmp_chars : List Char → List Char → Int
  | [], [] => 0
  | [], b :: _ => - (b.toNat : Int)
  | a :: _, [] => (a.toNat : Int)
  | a :: l, b :: r => if a = b then strcmp_chars l r else (a.toNat : Int) - (b.toNat : Int)

/-- The libc `strcmp` on strings. -/
def strcmp (a b : String) : Int := strcmp_chars a.data b.data

/-- The C `admin_name_cmp`. -/
def admin_name_cmp (key : String) (mem : adminstable) : Int := strcmp key mem.grpname

/-- The loop of the libc `bsearch` over the table `base` with the comparison `admin_name_cmp`,
between the bounds `l` and `u`; `none` is `NULL`. -/
def bsearch_loop (key : String) (base : List adminstable) : Nat → Nat → Nat → Option adminstable
  | 0, _, _ => none
  | fuel + 1, l, u =>
    if l < u then
      match base[(l + u) / 2]? with
      | none => none
      | some p =>
        if admin_name_cmp key p < 0 then bsearch_loop key base fuel l ((l + u) / 2)
        else if admin_name_cmp key p > 0 then bsearch_loop key base fuel ((l + u) / 2 + 1) u
        else some p
    else none

/-- The call `bsearch(key, adminstable, adminscnt, sizeof(struct adminstable), admin_name_cmp)`;
the bounds close in at every step, so that one step per entry and one more are enough. -/
def bsearch (key : String) (base : List adminstable) : Option adminstable :=
  bsearch_loop key base (base.length + 1) 0 base.length

/-- The collaborators of the dispatch phase that live outside `rozofs_warnquota.c`, and the
outcome of `run_mailer`.  `time n` is the clock value `should_cc` reads during the call of
`mail_user` that follows `n` earlier calls, `run_mailer n command` tells whether `run_mailer`
returns a stream in that call; `difftime2str`, `space2str` and `number2str` are the formatting
helpers, the last two with their format argument. -/
structure mail_collab where
  toqb : Nat → Nat
  time : Nat → Int
  run_mailer : Nat → String → Bool
  difftime2str : Int → String
  space2str : Nat → Nat → String
  number2str : Nat → Nat → String

/-- The text `fputs(DEF_USER_MESSAGE, fp)` writes. -/
def DEF_USER_MESSAGE : String :=
  "Hi,\n\nWe noticed that you are in violation with the quotasystem\n" ++
  "used on this system. We have found the following violations:\n\n"

/-- The text `fprintf(fp, DEF_USER_SIGNATURE, support, phone)` writes. -/
def DEF_USER_SIGNATURE (support phone : String) : String :=
  "\nWe hope that you will cleanup before your grace period expires.\n" ++
  "\nBasically, this means that the system thinks you are using more disk space\n" ++
  "on the above partition(s) than you are allowed.  If you do not delete files\n" ++
  "and get below your quota before the grace period expires, the system will\n" ++
  "prevent you from creating new files.\n\n" ++
  "For additional assistance, please contact us at " ++ support ++ "\nor via " ++
  "phone at " ++ phone ++ ".\n"

/-- The text `fprintf(fp, DEF_GROUP_MESSAGE, name)` writes. -/
def DEF_GROUP_MESSAGE (name : String) : String :=
  "Hi,\n\nWe noticed that the group " ++ name ++
  " you are member of violates the quotasystem\n" ++
  "used on this system. We have found the following violations:\n\n"

/-- The text `fprintf(fp, DEF_GROUP_SIGNATURE, support, phone)` writes. -/
def DEF_GROUP_SIGNATURE (support phone : String) : String :=
  "\nPlease cleanup the group data before the grace period expires.\n" ++
  "\nBasically, this means that the system thinks group is using more disk space\n" ++
  "on the above partition(s) than it is allowed.  If you do not delete files\n" ++
  "and get below group quota before the grace period expires, the system will\n" ++
  "prevent you and other members of the group from creating new files owned by\n" ++
  "the group.\n\n" ++
  "For additional assistance, please contact us at " ++ support ++ "\nor via " ++
  "phone at " ++ phone ++ ".\n"

/-- The conversion `%<w>s` of `fprintf`: the string, right-justified in a field of `w`. -/
def pad_left (w : Nat) (s : String) : String :=
  String.mk (List.replicate (w - s.length) ' ') ++ s

/-- The conversion `%-<w>s` of `fprintf`: the string, left-justified in a field of `w`. -/
def pad_right (w : Nat) (s : String) : String :=
  s ++ String.mk (List.replicate (w - s.length) ' ')

/-- The recipient `mail_user` resolves into `to`, in the build without
`USE_LDAP_MAIL_LOOKUP`: the display name of a user, the administrator of a group found by
`bsearch`; `none` when the group has no administrator (the `return -1`). -/
def mail_recipient (admins : List adminstable) (offender : offenderlist) : Option String :=
  if offender.offender_type = (USRQUOTA : Int) then some offender.offender_name
  else
    match bsearch offender.offender_name admins with
    | none => none
    | some admin => some admin.adminname

/-- The header block `mail_user` writes, up to and with the empty line that ends it. -/
def mail_header (env : mail_collab) (call : Nat) (offender : offenderlist)
    (config : configparams) : String :=
  "From: " ++ config.from_addr ++ "\n" ++
  "Reply-To: " ++ config.support ++ "\n" ++
  "Subject: " ++ config.subject ++ "\n" ++
  "To: " ++ CC_TO ++ "\n" ++
  (if should_cc env.toqb (env.time call) offender config ≠ 0 then
    "Cc: " ++ config.cc_to ++ "\n" else "") ++
  (if config.charset.data.head? ≠ none then
    "Content-Type: text/plain; charset=" ++ config.charset ++ "\n" ++
    "Content-Disposition: inline\n" ++
    "Content-Transfer-Encoding: 8bit\n" else "") ++
  "\n"

/-- The call `format_print(fp, template, offender->offender_name)` on a template of the
configuration: the text written and the template left in the configuration. -/
def print_template (hostname domainname : String) (template name : String) :
    Option (String × String) :=
  match format_print hostname.data domainname.data template.data name.data with
  | none => none
  | some (out, buf) => some (String.mk out, String.mk buf)

/-- The opening text of the message and the configuration after it is written. -/
def mail_message (hostname domainname : String) (offender : offenderlist)
    (config : configparams) : Option (String × configparams) :=
  if offender.offender_type = (USRQUOTA : Int) then
    match config.user_message with
    | some template =>
      match print_template hostname domainname template offender.offender_name with
      | none => none
      | some (out, buf) => some (out, { config with user_message := some buf })
    | none => some (DEF_USER_MESSAGE, config)
  else
    match config.group_message with
    | some template =>
      match print_template hostname domainname template offender.offender_name with
      | none => none
      | some (out, buf) => some (out, { config with group_message := some buf })
    | none => some (DEF_GROUP_MESSAGE offender.offender_name, config)

/-- The text one turn of the details loop of `mail_user` writes for the usage entry `lptr`. -/
def mail_usage (env : mail_collab) (flags : Nat) (quotatable : List quotatable_t)
    (lptr : usage) : String :=
  (match quotatable.find? (fun q => strcmp q.devname lptr.devicename = 0) with
    | some q => "\n" ++ q.devdesc ++ " (" ++ q.devname ++ ")\n"
    | none => "\n" ++ lptr.devicename ++ "\n") ++
  "\n                        Block limits               File limits\n" ++
  "Filesystem           used    soft    hard  grace    used  soft  hard  grace\n" ++
  (if lptr.devicename.length > 15 then lptr.devicename ++ "\n" ++ pad_left 15 ""
    else pad_right 15 lptr.devicename) ++
  (if lptr.dq_dqb.dqb_bsoftlimit ≠ 0
      ∧ lptr.dq_dqb.dqb_bsoftlimit ≤ env.toqb lptr.dq_dqb.dqb_curspace then "+" else "-") ++
  (if lptr.dq_dqb.dqb_isoftlimit ≠ 0
      ∧ lptr.dq_dqb.dqb_isoftlimit ≤ lptr.dq_dqb.dqb_curinodes then "+" else "-") ++
  " " ++ pad_left 7 (env.space2str (env.toqb lptr.dq_dqb.dqb_curspace) (flags &&& FL_SHORTNUMS)) ++
  " " ++ pad_left 7 (env.space2str lptr.dq_dqb.dqb_bsoftlimit (flags &&& FL_SHORTNUMS)) ++
  " " ++ pad_left 7 (env.space2str lptr.dq_dqb.dqb_bhardlimit (flags &&& FL_SHORTNUMS)) ++
  " " ++ pad_left 6
    (if lptr.dq_dqb.dqb_bsoftlimit ≠ 0
        ∧ lptr.dq_dqb.dqb_bsoftlimit ≤ env.toqb lptr.dq_dqb.dqb_curspace then
      env.difftime2str lptr.dq_dqb.dqb_btime else "") ++
  " " ++ pad_left 7 (env.number2str lptr.dq_dqb.dqb_curinodes (flags &&& FL_SHORTNUMS)) ++
  " " ++ pad_left 5 (env.number2str lptr.dq_dqb.dqb_isoftlimit (flags &&& FL_SHORTNUMS)) ++
  " " ++ pad_left 5 (env.number2str lptr.dq_dqb.dqb_ihardlimit (flags &&& FL_SHORTNUMS)) ++
  " " ++ pad_left 6
    (if lptr.dq_dqb.dqb_isoftlimit ≠ 0
        ∧ lptr.dq_dqb.dqb_isoftlimit ≤ lptr.dq_dqb.dqb_curinodes then
      env.difftime2str lptr.dq_dqb.dqb_itime else "") ++
  "\n\n"

/-- The details `mail_user` writes: nothing under `FL_NODETAILS`, else the text of every usage
entry, from the head of the list on. -/
def mail_details (env : mail_collab) (flags : Nat) (quotatable : List quotatable_t)
    (offender : offenderlist) : String :=
  if flags &&& FL_NODETAILS ≠ 0 then ""
  else String.join (offender.usage.map (mail_usage env flags quotatable))

/-- The closing text of the message and the configuration after it is written. -/
def mail_signature (hostname domainname : String) (offender : offenderlist)
    (config : configparams) : Option (String × configparams) :=
  if offender.offender_type = (USRQUOTA : Int) then
    match config.user_signature with
    | some template =>
      match print_template hostname domainname template offender.offender_name with
      | none => none
      | some (out, buf) => some (out, { config with user_signature := some buf })
    | none => some (DEF_USER_SIGNATURE config.support config.phone, config)
  else
    match config.group_signature with
    | some template =>
      match print_template hostname domainname template offender.offender_name with
      | none => none
      | some (out, buf) => some (out, { config with group_signature := some buf })
    | none => some (DEF_GROUP_SIGNATURE config.support config.phone, config)

/-- What one call of `mail_user` leaves behind: its result, and the command of the mailer it
started with the message it wrote to it (`none` when no mailer was started). -/
structure mail_result where
  ret : Int
  sent : Option (String × String)
deriving DecidableEq, Repr

/-- The C `mail_user` in the build without `USE_LDAP_MAIL_LOOKUP`, as the call that follows
`call` earlier calls: the result and the configuration after the call.  The outcome of `wait`
only picks a diagnostic and is not modelled; `none` stands for a `format_print` that reads past
the terminator of its template. -/
def mail_user (env : mail_collab) (flags : Nat) (quotatable : List quotatable_t)
    (admins : List adminstable) (hostname domainname : String) (call : Nat)
    (offender : offenderlist) (config : configparams) : Option (mail_result × configparams) :=
  match mail_recipient admins offender with
  | none => some ({ ret := -1, sent := none }, config)
  | some _ =>
    if env.run_mailer call config.mail_cmd = false then some ({ ret := -1, sent := none }, config)
    else
      match mail_message hostname domainname offender config with
      | none => none
      | some (message, config1) =>
        match mail_signature hostname domainname offender config1 with
        | none => none
        | some (signature, config2) =>
          some ({ ret := 0
                  sent := some (config.mail_cmd,
                    mail_header env call offender config ++ message ++
                      mail_details env flags quotatable offender ++ signature) }, config2)

/-- The operator `|` on two C `int` values: the bitwise or of their 32-bit two's complement
representations. -/
def int_or (a b : Int) : Int :=
  to_int ((a % 2 ^ 32).toNat ||| (b % 2 ^ 32).toNat)

/-- The loop of the C `mail_to_offenders`, with the running value of `ret` and, as a record of
the run, the offender and the outcome of every call of `mail_user` made so far. -/
def mail_to_offenders_loop (env : mail_collab) (flags : Nat) (quotatable : List quotatable_t)
    (admins : List adminstable) (hostname domainname : String) :
    Nat → List offenderlist → configparams → Int → List (offenderlist × mail_result) →
      Option (Int × List (offenderlist × mail_result))
  | _, [], _, ret, log => some (ret, log)
  | call, lptr :: next, config, ret, log =>
    match mail_user env flags quotatable admins hostname domainname call lptr config with
    | none => none
    | some (r, config1) =>
      mail_to_offenders_loop env flags quotatable admins hostname domainname (call + 1) next
        config1 (int_or ret r.ret) (log ++ [(lptr, r)])

/-- The C `mail_to_offenders`: its result and the record of the calls of `mail_user`. -/
def mail_to_offenders (env : mail_collab) (flags : Nat) (quotatable : List quotatable_t)
    (admins : List adminstable) (hostname domainname : String) (offenders : List offenderlist)
    (config : configparams) : Option (Int × List (offenderlist × mail_result)) :=
  mail_to_offenders_loop env flags quotatable admins hostname domainname 0 offenders config 0 []

/-- The end of the C `warn_quota`: `if (mail_to_offenders(&config) < 0) wc_exit(1);`. -/
def warn_quota_dispatch (env : mail_collab) (flags : Nat) (quotatable : List quotatable_t)
    (admins : List adminstable) (hostname domainname : String) (offenders : List offenderlist)
    (config : configparams) : Option (Except Int (List (offenderlist × mail_result))) :=
  match mail_to_offenders env flags quotatable admins hostname domainname offenders config with
  | none => none
  | some (ret, log) => if ret < 0 then some (Except.error 1) else some (Except.ok log)

/-- The templates of a configuration are C strings that `verify_format` accepts, as they are
after `readconfigfile`. -/
def templates_verified (config : configparams) : Prop :=
  ∀ t, (config.user_message = some t ∨ config.user_signature = some t ∨
      config.group_message = some t ∨ config.group_signature = some t) →
    NUL ∉ t.data ∧ format_ok t.data = true

/-- Collaborators of the dispatch phase for the examples: `rozofs_toqb` and the number
formatting are plain, the clock stands at 1000000, every grace time reads `6days`, and the mailer
starts except in the call that follows two earlier calls. -/
def sample_mail_env : mail_collab :=
  { toqb := id
    time := fun _ => 1000000
    run_mailer := fun n _ => decide (n ≠ 2)
    difftime2str := fun _ => "6days"
    space2str := fun n _ => toString n
    number2str := fun n _ => toString n }

/-- The administrators table of the examples. -/
def sample_admins : List adminstable :=
  [{ grpname := "staff", adminname := "root@example.com" }]

/-! ## Disk thread request names (`storio_disk_thread_request_e2String.h`) -/

/-- The ten constants of `storio_disk_thread_request_e` named by the case labels of
`storio_disk_thread_request_e2String`, in the order of the labels. The enum itself is declared in
`storio_disk_thread_intf.h`; the numeric values of its constants are a parameter of the model. -/
inductive storio_disk_thread_request_e where
  | STORIO_DISK_THREAD_READ
  | STORIO_DISK_THREAD_RESIZE
  | STORIO_DISK_THREAD_WRITE
  | STORIO_DISK_THREAD_TRUNCATE
  | STORIO_DISK_THREAD_WRITE_REPAIR3
  | STORIO_DISK_THREAD_REMOVE
  | STORIO_DISK_THREAD_REMOVE_CHUNK
  | STORIO_DISK_THREAD_REBUILD_START
  | STORIO_DISK_THREAD_REBUILD_STOP
  | STORIO_DISK_THREAD_MAX_OPCODE
  deriving DecidableEq, Repr

open storio_disk_thread_request_e in
/-- The C `storio_disk_thread_request_e2String`: the `switch` on the integer value `x`, with
`value` giving the integer of each enum constant. The case labels are tried in the order of the
source; `default` is the last branch. -/
def storio_disk_thread_request_e2String (value : storio_disk_thread_request_e → Int) (x : Int) :
    String :=
  if x = value STORIO_DISK_THREAD_READ then "READ"
  else if x = value STORIO_DISK_THREAD_RESIZE then "RESIZE"
  else if x = value STORIO_DISK_THREAD_WRITE then "WRITE"
  else if x = value STORIO_DISK_THREAD_TRUNCATE then "TRUNCATE"
  else if x = value STORIO_DISK_THREAD_WRITE_REPAIR3 then "WRITE REPAIR3"
  else if x = value STORIO_DISK_THREAD_REMOVE then "REMOVE"
  else if x = value STORIO_DISK_THREAD_REMOVE_CHUNK then "REMOVE CHUNK"
  else if x = value STORIO_DISK_THREAD_REBUILD_START then "REBUILD START"
  else if x = value STORIO_DISK_THREAD_REBUILD_STOP then "REBUILD STOP"
  else if x = value STORIO_DISK_THREAD_MAX_OPCODE then "MAX OPCODE"
  else "??"

open storio_disk_thread_request_e in
/-- Sample numbering of the enum constants: consecutive values from 1, in declaration order. -/
def sample_request_value : storio_disk_thread_request_e → Int
  | STORIO_DISK_THREAD_READ => 1
  | STORIO_DISK_THREAD_RESIZE => 2
  | STORIO_DISK_THREAD_WRITE => 3
  | STORIO_DISK_THREAD_TRUNCATE => 4
  | STORIO_DISK_THREAD_WRITE_REPAIR3 => 5
  | STORIO_DISK_THREAD_REMOVE => 6
  | STORIO_DISK_THREAD_REMOVE_CHUNK => 7
  | STORIO_DISK_THREAD_REBUILD_START => 8
  | STORIO_DISK_THREAD_REBUILD_STOP => 9
  | STORIO_DISK_THREAD_MAX_OPCODE => 10

/-! ## Templates: the positions visited -/

/-- The loop of `verify_format` (`verify_format_loop`) together with the record of the values
`ch` had each time the `switch` read `*(ch+1)`, in the order of the visits. -/
def verify_format_traced (fmt : List Char) :
    Nat → Option Nat → List Nat → Option (Except Int Unit × List Nat)
  | 0, _, _ => none
  | _ + 1, none, visited => some (Except.ok (), visited)
  | fuel + 1, some ch, visited =>
    match byte_at fmt (ch + 1) with
    | none => none
    | some c =>
      if is_format_char c then
        verify_format_traced fmt fuel (strchr_from fmt (ch + 2) '%') (visited ++ [ch])
      else some (Except.error 1, visited ++ [ch])

/-- The loop of `format_print` (`format_print_loop`) together with the record of the values `ch`
had each time the `switch` read `*(ch+1)`, in the order of the visits: the text written, the
final template buffer and the positions visited. -/
def format_print_traced (name hostname domainname : List Char) :
    Nat → List Char → Nat → Option Nat → List Char → List Nat →
      Option (List Char × List Char × List Nat)
  | 0, _, _, _, _, _ => none
  | _ + 1, fmt, lastch, none, out, visited => some (out ++ fputs_from fmt lastch, fmt, visited)
  | fuel + 1, fmt, lastch, some ch, out, visited =>
    let fmt0 := fmt.set ch NUL
    let out1 := out ++ fputs_from fmt0 lastch
    let fmt1 := fmt0.set ch '%'
    match byte_at fmt1 (ch + 1) with
    | none => none
    | some c =>
      let out2 := out1 ++ format_subst name hostname domainname c
      if ch + 2 ≤ fmt1.length then
        format_print_traced name hostname domainname fuel fmt1 (ch + 2)
          (strchr_from fmt1 (ch + 2) '%') out2 (visited ++ [ch])
      else none

/-! ## Violation markers of the usage table -/

/-- The call is a `check_offence` call. -/
def is_check : registry_call → Bool
  | registry_call.check _ _ _ _ _ => true
  | registry_call.add _ _ => false

/-- The stored usage entry is over one of its own soft limits: converted block usage at or above
a set block soft limit, or inode count at or above a set inode soft limit (0 means unset). -/
def over_soft_limit (toqb : Nat → Nat) (lptr : usage) : Prop :=
  (lptr.dq_dqb.dqb_bsoftlimit ≠ 0 ∧ lptr.dq_dqb.dqb_bsoftlimit ≤ toqb lptr.dq_dqb.dqb_curspace)
    ∨ (lptr.dq_dqb.dqb_isoftlimit ≠ 0 ∧ lptr.dq_dqb.dqb_isoftlimit ≤ lptr.dq_dqb.dqb_curinodes)

instance (toqb : Nat → Nat) (lptr : usage) : Decidable (over_soft_limit toqb lptr) := by
  unfold over_soft_limit; infer_instance

/-- The two characters the `%c%c` of the usage table of `mail_user` prints for a usage entry:
the block marker and the inode marker, each `+` or `-`. -/
def violation_markers (toqb : Nat → Nat) (lptr : usage) : String :=
  (if lptr.dq_dqb.dqb_bsoftlimit ≠ 0
      ∧ lptr.dq_dqb.dqb_bsoftlimit ≤ toqb lptr.dq_dqb.dqb_curspace then "+" else "-") ++
  (if lptr.dq_dqb.dqb_isoftlimit ≠ 0
      ∧ lptr.dq_dqb.dqb_isoftlimit ≤ lptr.dq_dqb.dqb_curinodes then "+" else "-")

/-- The text `mail_user` writes for a usage entry before the two markers: the section header,
the two heading lines and the device name column. -/
def mail_usage_before (quotatable : List quotatable_t) (lptr : usage) : String :=
  (match quotatable.find? (fun q => strcmp q.devname lptr.devicename = 0) with
    | some q => "\n" ++ q.devdesc ++ " (" ++ q.devname ++ ")\n"
    | none => "\n" ++ lptr.devicename ++ "\n") ++
  "\n                        Block limits               File limits\n" ++
  "Filesystem           used    soft    hard  grace    used  soft  hard  grace\n" ++
  (if lptr.devicename.length > 15 then lptr.devicename ++ "\n" ++ pad_left 15 ""
    else pad_right 15 lptr.devicename)

/-- The text `mail_user` writes for a usage entry after the two markers: the numbers and grace
times of the block row and of the inode row. -/
def mail_usage_after (env : mail_collab) (flags : Nat) (lptr : usage) : String :=
  " " ++ pad_left 7 (env.space2str (env.toqb lptr.dq_dqb.dqb_curspace) (flags &&& FL_SHORTNUMS)) ++
  " " ++ pad_left 7 (env.space2str lptr.dq_dqb.dqb_bsoftlimit (flags &&& FL_SHORTNUMS)) ++
  " " ++ pad_left 7 (env.space2str lptr.dq_dqb.dqb_bhardlimit (flags &&& FL_SHORTNUMS)) ++
  " " ++ pad_left 6
    (if lptr.dq_dqb.dqb_bsoftlimit ≠ 0
        ∧ lptr.dq_dqb.dqb_bsoftlimit ≤ env.toqb lptr.dq_dqb.dqb_curspace then
      env.difftime2str lptr.dq_dqb.dqb_btime else "") ++
  " " ++ pad_left 7 (env.number2str lptr.dq_dqb.dqb_curinodes (flags &&& FL_SHORTNUMS)) ++
  " " ++ pad_left 5 (env.number2str lptr.dq_dqb.dqb_isoftlimit (flags &&& FL_SHORTNUMS)) ++
  " " ++ pad_left 5 (env.number2str lptr.dq_dqb.dqb_ihardlimit (flags &&& FL_SHORTNUMS)) ++
  " " ++ pad_left 6
    (if lptr.dq_dqb.dqb_isoftlimit ≠ 0
        ∧ lptr.dq_dqb.dqb_isoftlimit ≤ lptr.dq_dqb.dqb_curinodes then
      env.difftime2str lptr.dq_dqb.dqb_itime else "") ++
  "\n\n"

/-! ## Reading a file line by line -/

/-- Size of the line buffers of the configuration readers. -/
def IOBUF_SIZE : Nat := 16384

/-- What an `fgets` call moves from the unread content of a stream into its buffer when the
buffer has room for `k` characters and the terminator: the characters up to and with the first
newline, at most `k` of them, and the content left unread.  The files read hold no NUL byte. -/
def fgets_chars : List Char → Nat → List Char × List Char
  | [], _ => ([], [])
  | c :: s, k =>
    if k = 0 then ([], c :: s)
    else if c = '\n' then ([c], s)
    else (c :: (fgets_chars s (k - 1)).1, (fgets_chars s (k - 1)).2)

/-- The libc `fgets(s, n, fp)` for `n` at least 2: the string stored and the content left unread;
`none` is the `NULL` of the end of the file. -/
def fgets (n : Nat) : List Char → Option (List Char × List Char)
  | [] => none
  | c :: s => some (fgets_chars (c :: s) (n - 1))

/-- The strings the successive calls `fgets(buffer, n, fp)` of a `while (fgets(...))` loop store,
up to the call that returns `NULL`.  Every call takes at least one character, so that one call
per character of the file is enough. -/
def file_lines (n : Nat) : Nat → List Char → List (List Char)
  | 0, _ => []
  | fuel + 1, stream =>
    match fgets n stream with
    | none => []
    | some (line, rest) => line :: file_lines n fuel rest

/-! ## The device description table -/

/-- One turn of the loop of `get_quotatable` on the line `buffer`: the new values of `qtab_i`
and of the filled part of `quotatable`.  The diagnostics, `stat` included, are not modelled. -/
def get_quotatable_line (buffer : List Char) (qtab_i : Nat) (quotatable : List quotatable_t) :
    Nat × List quotatable_t :=
  if buffer.head? = some '#' ∨ buffer.head? = some ';' then (qtab_i, quotatable)
  else if (buffer.dropWhile isspace).head? = none then (qtab_i, quotatable)
  else
    match strchr_from buffer 0 ':' with
    | none => (qtab_i, quotatable)
    | some colpos =>
      let devname := stripstring (buffer.take colpos)
      let devdesc := stripstring (buffer.drop (colpos + 1))
      (qtab_i + 1,
        quotatable.take qtab_i ++
          [{ devname := String.mk devname, devdesc := String.mk (create_eoln devdesc) }])

/-- The C `get_quotatable` on the content of `quotatabfile` (`none` when `fopen` fails): the
value returned, `qtab_i` and the filled part of `quotatable`. -/
def get_quotatable (file : Option (List Char)) : Int × Nat × List quotatable_t :=
  match file with
  | none => (0, 0, [])
  | some content =>
    let r := (file_lines IOBUF_SIZE content.length content).foldl
      (fun st buffer => get_quotatable_line buffer st.1 st.2) (0, [])
    (0, r.1, r.2)

/-- A line of the description table in the words of the specification: not a comment (first
character `#` or `;`), not blank, and with a `:`. -/
def is_quotatab_entry (line : List Char) : Bool :=
  !(line.head? = some '#' || line.head? = some ';') && !(line.all isspace) && line.contains ':'

/-- The entry of a line of the description table in the words of the specification: the stripped
text before the first `:`, and the stripped text after it with every `|` made a newline. -/
def quotatab_entry (line : List Char) : quotatable_t :=
  { devname := String.mk (stripstring (line.takeWhile (fun c => c ≠ ':')))
    devdesc := String.mk
      ((stripstring ((line.dropWhile (fun c => c ≠ ':')).drop 1)).map
        (fun c => if c = '|' then '\n' else c)) }

/-! ## The administrators table -/

/-- A scan `for (; p(*pos); pos++);` that starts at index `i` of the buffer: the index it stops
at, `none` when it reads past the terminator. -/
def scan_forward (p : Char → Bool) (buf : List Char) : Nat → Nat → Option Nat
  | 0, _ => none
  | fuel + 1, i =>
    match byte_at buf i with
    | none => none
    | some c => if p c then scan_forward p buf fuel (i + 1) else some i

/-- A scan `for (; p(*pos); pos--);` that starts at index `i` of the buffer: the index it stops
at, `none` when it reads before the start of the buffer or past the terminator. -/
def scan_backward (p : Char → Bool) (buf : List Char) : Nat → Option Nat
  | 0 =>
    match byte_at buf 0 with
    | none => none
    | some c => if p c then none else some 0
  | i + 1 =>
    match byte_at buf (i + 1) with
    | none => none
    | some c => if p c then scan_backward p buf i else some (i + 1)

/-- The entry `get_groupadmins` stores: `sstrdup(grouppos)` and `sstrdup(adminpos)`, the strings
that start at the two indices of the buffer. -/
def admin_entry (buf : List Char) (grouppos adminpos : Nat) : adminstable :=
  { grpname := String.mk (fputs_from buf grouppos)
    adminname := String.mk (fputs_from buf adminpos) }

/-- The body of the loop of `get_groupadmins` on the line `buffer`: `some (some entry)` when an
entry is stored, `some none` when the line is passed over (comment, empty line or parse error),
`none` when a scan reads outside the string.  The diagnostics are not modelled. -/
def get_groupadmins_line (buffer : List Char) : Option (Option adminstable) :=
  let fuel := buffer.length + 2
  if byte_at buffer 0 = some ';' ∨ byte_at buffer 0 = some '#' then some none
  else
    -- Skip initial spaces
    match scan_forward isspace buffer fuel 0 with
    | none => none
    | some grouppos =>
      if byte_at buffer grouppos = some NUL then some none
      else
        -- Find splitting colon
        match scan_forward (fun c => c ≠ NUL && c ≠ ':') buffer fuel grouppos with
        | none => none
        | some colon =>
          if byte_at buffer colon = some NUL ∨ grouppos = colon then some none
          else
            -- Cut trailing spaces
            match scan_backward isspace buffer (colon - 1) with
            | none => none
            | some endname =>
              let buffer1 := buffer.set (endname + 1) NUL
              -- Skip initial spaces at admins name
              match scan_forward isspace buffer1 fuel (colon + 1) with
              | none => none
              | some adminpos =>
                if byte_at buffer1 adminpos = some NUL then some none
                else
                  -- Go through admins name
                  match scan_forward (fun c => !isspace c) buffer1 fuel adminpos with
                  | none => none
                  | some colpos =>
                    if byte_at buffer1 colpos ≠ some NUL then
                      let buffer2 := buffer1.set colpos NUL
                      -- Skip trailing spaces
                      match scan_forward isspace buffer2 fuel (colpos + 1) with
                      | none => none
                      | some last =>
                        if byte_at buffer2 last ≠ some NUL then some none
                        else some (some (admin_entry buffer2 grouppos adminpos))
                    else some (some (admin_entry buffer1 grouppos adminpos))

/-- The `while (fgets(...))` loop of `get_groupadmins` over the lines read, with the entries of
`adminstable` in use (`adminscnt` is their number); `none` when a scan reads outside a line. -/
def get_groupadmins_loop : List (List Char) → List adminstable → Option (List adminstable)
  | [], table => some table
  | buffer :: rest, table =>
    match get_groupadmins_line buffer with
    | none => none
    | some none => get_groupadmins_loop rest table
    | some (some entry) => get_groupadmins_loop rest (table ++ [entry])

/-- The C `admin_cmp` as an order: the first entry may stand before the second after `qsort`. -/
def admin_le (a b : adminstable) : Prop := strcmp a.grpname b.grpname ≤ 0

instance (a b : adminstable) : Decidable (admin_le a b) := by
  unfold admin_le; infer_instance

/-- The C `get_groupadmins` on the content of `adminsfile` (`none` when `fopen` fails) and the
entries `adminstable` holds at the call: the value returned and the entries it leaves.  `qsort`
is the libc sort with the comparison `admin_cmp`; `none` when a scan reads outside a line. -/
def get_groupadmins (qsort : List adminstable → List adminstable) (file : Option (List Char))
    (table : List adminstable) : Option (Int × List adminstable) :=
  match file with
  | none => some (-1, table)
  | some content =>
    match get_groupadmins_loop (file_lines IOBUF_SIZE content.length content) table with
    | none => none
    | some table1 => some (0, qsort table1)

/-- A sort for the examples: insertion in the order of `admin_cmp`. -/
def sample_qsort (table : List adminstable) : List adminstable :=
  table.insertionSort admin_le

/-- The collaborators of the examples with the administrators table as state: `get_groupadmins`
reads the given content of `adminsfile` and sorts with `sample_qsort`; a negative result and a
read outside a line both end the run. -/
def sample_admins_env (file : Option (List Char)) : collaborators (List adminstable) :=
  { toqb := sample_env.toqb
    id2name := sample_env.id2name
    clock := sample_env.clock
    getpwuid := sample_env.getpwuid
    getgrgid := sample_env.getgrgid
    strtoul := sample_env.strtoul
    econfig_get_export_path := sample_env.econfig_get_export_path
    rozofs_qt_alloc_context := sample_env.rozofs_qt_alloc_context
    get_groupadmins := fun table =>
      match get_groupadmins sample_qsort file table with
      | none => none
      | some (ret, table1) => if ret < 0 then none else some table1 }

/-! ## The configuration file -/

/-- The `while (fgets(buff + bufpos, sizeof(buff) - bufpos, fp))` loop of `readconfigfile`:
`joined` holds the characters kept at the head of `buff` by the continuation lines read so far
(`bufpos` is their number), `stream` the unread content of the file.  Every logical line goes
through `config_line`.  `Except.error 1` is `die(1, ...)`; `none` stands for a read past the
terminator of a template or an exhausted iteration budget; diagnostics are not modelled. -/
def readconfigfile_loop (sscanf_d_s : List Char → Option (Int × List Char))
    (str2timeunits : Int → List Char → Option Int) :
    Nat → List Char → List Char → configparams → String →
      Option (Except Int (configparams × String))
  | 0, _, _, _, _ => none
  | fuel + 1, joined, stream, config, maildev =>
    match fgets (IOBUF_SIZE - joined.length) stream with
    | none => some (Except.ok (config, maildev))
    | some (chunk, rest) =>
      -- `if (!bufpos)`: check for comments or empty lines
      if joined = [] ∧ (chunk.head? = some '#' ∨ chunk.head? = some ';') then
        readconfigfile_loop sscanf_d_s str2timeunits fuel [] rest config maildev
      else if joined = [] ∧ (chunk.dropWhile isspace).head? = none then
        readconfigfile_loop sscanf_d_s str2timeunits fuel [] rest config maildev
      else if (joined ++ chunk).getLast? ≠ some '\n' then
        -- line too long: truncating
        match config_line sscanf_d_s str2timeunits config maildev (joined ++ chunk) with
        | none => none
        | some (Except.error c) => some (Except.error c)
        | some (Except.ok (config1, maildev1)) =>
          readconfigfile_loop sscanf_d_s str2timeunits fuel [] rest config1 maildev1
      else if (joined ++ chunk).dropLast.getLast? = some '\\' then
        -- join with next line
        readconfigfile_loop sscanf_d_s str2timeunits fuel (joined ++ chunk).dropLast.dropLast rest
          config maildev
      else
        match config_line sscanf_d_s str2timeunits config maildev (joined ++ chunk).dropLast with
        | none => none
        | some (Except.error c) => some (Except.error c)
        | some (Except.ok (config1, maildev1)) =>
          readconfigfile_loop sscanf_d_s str2timeunits fuel [] rest config1 maildev1

/-- The C `readconfigfile` in the build without `USE_LDAP_MAIL_LOOKUP`, on the content of the
configuration file (`none` when `fopen` fails): the value returned, the configuration and the
`maildev` setting.  Every turn of the loop takes at least one character of the file, so that
one turn per character and one more are enough. -/
def readconfigfile (sscanf_d_s : List Char → Option (Int × List Char))
    (str2timeunits : Int → List Char → Option Int) (file : Option (List Char)) :
    Option (Except Int (Int × configparams × String)) :=
  match file with
  | none => some (Except.ok (-1, readconfigfile_defaults.1, readconfigfile_defaults.2))
  | some content =>
    match readconfigfile_loop sscanf_d_s str2timeunits (content.length + 1) [] content
        readconfigfile_defaults.1 readconfigfile_defaults.2 with
    | none => none
    | some (Except.error c) => some (Except.error c)
    | some (Except.ok (config, maildev)) => some (Except.ok (0, config, maildev))

/-- The keys `readconfigfile` compares the text before the `=` with, in the build without
`USE_LDAP_MAIL_LOOKUP`. -/
def recognized_keys : List (List Char) :=
  ["MAIL_CMD".data, "FROM".data, "SUBJECT".data, "CC_TO".data, "SUPPORT".data, "PHONE".data,
    "CHARSET".data, "MAILDEV".data, "MESSAGE".data, "SIGNATURE".data, "GROUP_MESSAGE".data,
    "GROUP_SIGNATURE".data, "LDAP_MAIL".data, "CC_BEFORE".data]

/-! ## The administrators table: the indices read -/

/-- The indices a forward scan `for (; p(*pos); pos++);` reads, in the order of the reads: the
last one is the index the scan stops at, or the first index past the terminator. -/
def scan_forward_reads (p : Char → Bool) (buf : List Char) : Nat → Nat → List Nat
  | 0, _ => []
  | fuel + 1, i =>
    match byte_at buf i with
    | none => [i]
    | some c => if p c then i :: scan_forward_reads p buf fuel (i + 1) else [i]

/-- The indices a backward scan `for (; p(*pos); pos--);` reads, in the order of the reads (a
read before the start of the buffer has no index and is left out). -/
def scan_backward_reads (p : Char → Bool) (buf : List Char) : Nat → List Nat
  | 0 => [0]
  | i + 1 =>
    match byte_at buf (i + 1) with
    | none => [i + 1]
    | some c => if p c then (i + 1) :: scan_backward_reads p buf i else [i + 1]

/-- The indices of the line that the scans of the loop body of `get_groupadmins` read, scan
after scan in the order of `get_groupadmins_line`: initial spaces, splitting colon, trailing
spaces of the group name, initial spaces of the administrator name, the administrator name, and
the spaces after it. -/
def get_groupadmins_reads (buffer : List Char) : List Nat :=
  let fuel := buffer.length + 2
  if byte_at buffer 0 = some ';' ∨ byte_at buffer 0 = some '#' then []
  else
    -- Skip initial spaces
    scan_forward_reads isspace buffer fuel 0 ++
    match scan_forward isspace buffer fuel 0 with
    | none => []
    | some grouppos =>
      if byte_at buffer grouppos = some NUL then []
      else
        -- Find splitting colon
        scan_forward_reads (fun c => c ≠ NUL && c ≠ ':') buffer fuel grouppos ++
        match scan_forward (fun c => c ≠ NUL && c ≠ ':') buffer fuel grouppos with
        | none => []
        | some colon =>
          if byte_at buffer colon = some NUL ∨ grouppos = colon then []
          else
            -- Cut trailing spaces
            scan_backward_reads isspace buffer (colon - 1) ++
            match scan_backward isspace buffer (colon - 1) with
            | none => []
            | some endname =>
              let buffer1 := buffer.set (endname + 1) NUL
              -- Skip initial spaces at admins name
              scan_forward_reads isspace buffer1 fuel (colon + 1) ++
              match scan_forward isspace buffer1 fuel (colon + 1) with
              | none => []
              | some adminpos =>
                if byte_at buffer1 adminpos = some NUL then []
                else
                  -- Go through admins name
                  scan_forward_reads (fun c => !isspace c) buffer1 fuel adminpos ++
                  match scan_forward (fun c => !isspace c) buffer1 fuel adminpos with
                  | none => []
                  | some colpos =>
                    if byte_at buffer1 colpos ≠ some NUL then
                      -- Skip trailing spaces
                      scan_forward_reads isspace (buffer1.set colpos NUL) fuel (colpos + 1)
                    else []

/-! ## Lemmas on the registry -/

theorem int_eq_unsigned_iff (i : Int) (u : Nat) : int_eq_unsigned i u ↔ i = (u : Int) := by
  unfold int_eq_unsigned
  constructor
  · rintro ⟨h1, h2⟩
    omega
  · intro h
    subst h
    exact ⟨by omega, by simp⟩

theorem find_offender_cons (o : offenderlist) (rest : List offenderlist) (d : rozofs_dquot_t) :
    find_offender (o :: rest) d =
      if (d.key.type : Int) = o.offender_type ∧ o.offender_id = (d.key.qid : Int) then some 0
      else (find_offender rest d).map (· + 1) := by
  by_cases h : (d.key.type : Int) = o.offender_type ∧ o.offender_id = (d.key.qid : Int)
  · have h1 : int_eq_unsigned o.offender_type d.key.type ∧
        int_eq_unsigned o.offender_id d.key.qid :=
      ⟨(int_eq_unsigned_iff _ _).2 h.1.symm, (int_eq_unsigned_iff _ _).2 h.2⟩
    rw [if_pos h]
    unfold find_offender
    rw [if_pos h1]
  · have h1 : ¬ (int_eq_unsigned o.offender_type d.key.type ∧
        int_eq_unsigned o.offender_id d.key.qid) := by
      intro h2
      exact h ⟨((int_eq_unsigned_iff _ _).1 h2.1).symm, (int_eq_unsigned_iff _ _).1 h2.2⟩
    rw [if_neg h]
    simp only [find_offender, h1, if_false]

theorem to_int_of_lt (v : Nat) (h : v < 2 ^ 31) : to_int v = (v : Int) := by
  have h1 : v % 2 ^ 32 = v := Nat.mod_eq_of_lt (by omega)
  unfold to_int
  rw [h1, if_pos h]

theorem to_int_in_int (v : Nat) : in_int (to_int v) := by
  have h1 : v % 2 ^ 32 < 2 ^ 32 := Nat.mod_lt _ (by norm_num)
  unfold to_int in_int
  split <;> constructor <;> omega

theorem to_int_eq_cast (v w : Nat) (h : (v : Int) = to_int w) : to_int v = to_int w := by
  have h1 := to_int_in_int w
  unfold in_int at h1
  rw [← h] at h1
  rw [to_int_of_lt v (by omega), h]

theorem stored_key_of_fits (d : rozofs_dquot_t) (h : fits_int d) : stored_key d = dquot_key d := by
  unfold fits_int at h
  simp [stored_key, dquot_key, to_int_of_lt _ h.1, to_int_of_lt _ h.2]

theorem stored_key_of_dquot_key_eq (d r : rozofs_dquot_t) (h : dquot_key d = stored_key r) :
    stored_key d = stored_key r := by
  simp only [dquot_key, stored_key, Prod.mk.injEq] at h ⊢
  exact ⟨to_int_eq_cast _ _ h.1, to_int_eq_cast _ _ h.2⟩

theorem dquot_key_ne_of_stored_key_ne (d r : rozofs_dquot_t) (h : stored_key d ≠ stored_key r) :
    dquot_key d ≠ dquot_key r := by
  intro he
  apply h
  simp only [dquot_key, stored_key, Prod.mk.injEq, Nat.cast_inj] at he ⊢
  rw [he.1, he.2]
  exact ⟨rfl, rfl⟩

theorem find_offender_eq_none_iff (reg : List offenderlist) (d : rozofs_dquot_t) :
    find_offender reg d = none ↔ dquot_key d ∉ reg.map offender_key := by
  induction reg with
  | nil => simp [find_offender]
  | cons o rest ih =>
    by_cases h : (d.key.type : Int) = o.offender_type ∧ o.offender_id = (d.key.qid : Int)
    · have hk : dquot_key d = offender_key o := by
        simp [dquot_key, offender_key, h.1, h.2]
      rw [find_offender_cons]
      simp [h, hk]
    · have hk : dquot_key d ≠ offender_key o := by
        intro hk
        simp only [dquot_key, offender_key, Prod.mk.injEq] at hk
        exact h ⟨hk.1, hk.2.symm⟩
      rw [find_offender_cons]
      simp [h, hk, ih]

theorem find_offender_some_get (reg : List offenderlist) (d : rozofs_dquot_t) (i : Nat)
    (h : find_offender reg d = some i) :
    ∃ o, reg[i]? = some o ∧ offender_key o = dquot_key d := by
  induction reg generalizing i with
  | nil => simp [find_offender] at h
  | cons o rest ih =>
    by_cases hc : (d.key.type : Int) = o.offender_type ∧ o.offender_id = (d.key.qid : Int)
    · rw [find_offender_cons] at h
      simp only [hc, and_self, if_true, Option.some.injEq] at h
      subst h
      exact ⟨o, by simp, by simp [dquot_key, offender_key, hc.1, hc.2]⟩
    · rw [find_offender_cons] at h
      simp only [hc, if_false, Option.map_eq_some'] at h
      obtain ⟨j, hj, rfl⟩ := h
      obtain ⟨o1, h1, h2⟩ := ih j hj
      exact ⟨o1, by simpa using h1, h2⟩

theorem map_key_stuff_in_front (u : usage) (reg : List offenderlist) (i : Nat) :
    (stuff_in_front u reg i).map offender_key = reg.map offender_key := by
  induction reg generalizing i with
  | nil => simp [stuff_in_front]
  | cons o rest ih =>
    cases i with
    | zero => simp [stuff_in_front, offender_key]
    | succ j => simp [stuff_in_front, ih]

theorem mem_stuff_in_front (u : usage) (reg : List offenderlist) (i : Nat) (o1 : offenderlist)
    (h : o1 ∈ stuff_in_front u reg i) :
    o1 ∈ reg ∨ ∃ o, reg[i]? = some o ∧ o1 = { o with usage := u :: o.usage } := by
  induction reg generalizing i with
  | nil => simp [stuff_in_front] at h
  | cons o rest ih =>
    cases i with
    | zero =>
      simp only [stuff_in_front, List.mem_cons] at h
      rcases h with h | h
      · exact Or.inr ⟨o, by simp, h⟩
      · exact Or.inl (List.mem_cons_of_mem _ h)
    | succ j =>
      simp only [stuff_in_front, List.mem_cons] at h
      rcases h with h | h
      · exact Or.inl (by simp [h])
      · rcases ih j h with h1 | ⟨o2, h2, h3⟩
        · exact Or.inl (List.mem_cons_of_mem _ h1)
        · exact Or.inr ⟨o2, by simpa using h2, h3⟩

theorem usage_of_eq_nil_of_not_mem (reg : List offenderlist) (k : Int × Int)
    (h : k ∉ reg.map offender_key) : usage_of reg k = [] := by
  induction reg with
  | nil => simp [usage_of]
  | cons o rest ih =>
    simp only [List.map_cons, List.mem_cons, not_or] at h
    have h1 : offender_key o ≠ k := fun e => h.1 e.symm
    simp [usage_of, h1, ih h.2]

theorem usage_of_stuff_in_front_found (u : usage) (reg : List offenderlist) (d : rozofs_dquot_t)
    (i : Nat) (h : find_offender reg d = some i) :
    usage_of (stuff_in_front u reg i) (dquot_key d) = u :: usage_of reg (dquot_key d) := by
  induction reg generalizing i with
  | nil => simp [find_offender] at h
  | cons o rest ih =>
    by_cases hc : (d.key.type : Int) = o.offender_type ∧ o.offender_id = (d.key.qid : Int)
    · rw [find_offender_cons] at h
      simp only [hc, and_self, if_true, Option.some.injEq] at h
      subst h
      have hk : offender_key o = dquot_key d := by simp [dquot_key, offender_key, hc.1, hc.2]
      have hk1 : offender_key { o with usage := u :: o.usage } = dquot_key d := hk
      simp [stuff_in_front, usage_of, hk, hk1]
    · rw [find_offender_cons] at h
      simp only [hc, if_false, Option.map_eq_some'] at h
      obtain ⟨j, hj, rfl⟩ := h
      have hk : offender_key o ≠ dquot_key d := by
        intro hk
        simp only [dquot_key, offender_key, Prod.mk.injEq] at hk
        exact hc ⟨hk.1.symm, hk.2⟩
      simp [stuff_in_front, usage_of, hk, ih j hj]

theorem usage_of_stuff_in_front_other (u : usage) (reg : List offenderlist) (d : rozofs_dquot_t)
    (i : Nat) (h : find_offender reg d = some i) (k : Int × Int) (hk : k ≠ dquot_key d) :
    usage_of (stuff_in_front u reg i) k = usage_of reg k := by
  induction reg generalizing i with
  | nil => simp [find_offender] at h
  | cons o rest ih =>
    by_cases hc : (d.key.type : Int) = o.offender_type ∧ o.offender_id = (d.key.qid : Int)
    · rw [find_offender_cons] at h
      simp only [hc, and_self, if_true, Option.some.injEq] at h
      subst h
      have hk0 : offender_key o = dquot_key d := by simp [dquot_key, offender_key, hc.1, hc.2]
      have hk1 : offender_key { o with usage := u :: o.usage } = dquot_key d := hk0
      have h2 : ¬ dquot_key d = k := fun e => hk e.symm
      simp [stuff_in_front, usage_of, hk0, hk1, h2]
    · rw [find_offender_cons] at h
      simp only [hc, if_false, Option.map_eq_some'] at h
      obtain ⟨j, hj, rfl⟩ := h
      simp [stuff_in_front, usage_of, ih j hj]

theorem add_offence_of_found (id2name : Int → Int → Option String) (reg : List offenderlist)
    (d : rozofs_dquot_t) (name : Option String) (i : Nat) (h : find_offender reg d = some i) :
    add_offence id2name reg d name = stuff_in_front (new_usage d) reg i := by
  simp [add_offence, h]

theorem add_offence_of_new (id2name : Int → Int → Option String) (reg : List offenderlist)
    (d : rozofs_dquot_t) (name : Option String) (n : String) (h : find_offender reg d = none)
    (hn : name = some n ∨
      (name = none ∧ id2name (to_int d.key.qid) (to_int d.key.type) = some n)) :
    add_offence id2name reg d name =
      { offender_type := to_int d.key.type, offender_id := to_int d.key.qid, offender_name := n,
        usage := [new_usage d] } :: reg := by
  rcases hn with hn | ⟨hn, hi⟩
  · simp [add_offence, h, add_offender, hn, stuff_in_front]
  · simp [add_offence, h, add_offender, hn, hi, stuff_in_front]

theorem add_offence_of_dropped (id2name : Int → Int → Option String) (reg : List offenderlist)
    (d : rozofs_dquot_t) (h : find_offender reg d = none)
    (hi : id2name (to_int d.key.qid) (to_int d.key.type) = none) :
    add_offence id2name reg d none = reg := by
  simp [add_offence, h, add_offender, hi]

/-! ## Decimal rendering -/

theorem digitChar_value : ∀ k, k < 10 → (Nat.digitChar k).toNat - 48 = k := by decide

theorem toDigitsCore_value (fuel : Nat) :
    ∀ (n : Nat) (ds : List Char), n < fuel →
      ∃ pre, Nat.toDigitsCore 10 fuel n ds = pre ++ ds ∧ digits_value pre = n := by
  induction fuel with
  | zero => intro n ds h; omega
  | succ f ih =>
    intro n ds h
    by_cases h0 : n / 10 = 0
    · refine ⟨[Nat.digitChar (n % 10)], ?_, ?_⟩
      · simp [Nat.toDigitsCore, h0]
      · have h1 : n % 10 = n := by omega
        have h2 := digitChar_value (n % 10) (by omega)
        rw [h1] at h2
        simp [digits_value, h1, h2]
    · obtain ⟨pre, hp, hv⟩ := ih (n / 10) (Nat.digitChar (n % 10) :: ds) (by omega)
      refine ⟨pre ++ [Nat.digitChar (n % 10)], ?_, ?_⟩
      · simp [Nat.toDigitsCore, h0, hp]
      · have hv1 : List.foldl (fun a c => 10 * a + (c.toNat - 48)) 0 pre = n / 10 := hv
        simp only [digits_value, List.foldl_append, List.foldl_cons, List.foldl_nil, hv1,
          digitChar_value (n % 10) (by omega)]
        omega

theorem toDigits_value (n : Nat) : digits_value (Nat.toDigits 10 n) = n := by
  obtain ⟨pre, hp, hv⟩ := toDigitsCore_value (n + 1) n [] (by omega)
  simp only [Nat.toDigits, hp, List.append_nil, hv]

theorem toString_nat_injective (a b : Nat) (h : toString a = toString b) : a = b := by
  have h1 : Nat.toDigits 10 a = Nat.toDigits 10 b := by
    have h2 : (Nat.toDigits 10 a).asString = (Nat.toDigits 10 b).asString := h
    exact congrArg String.data h2
  have h3 := congrArg digits_value h1
  simpa [toDigits_value] using h3

theorem eid_label_injective (a b : Nat) (h : eid_label a = eid_label b) : a = b := by
  apply toString_nat_injective
  have h1 := congrArg String.data h
  simp only [eid_label, String.data_append, List.append_cancel_left_eq] at h1
  exact String.ext h1

/-! ## How `add_offence` and `check_offence` change the registry -/

theorem is_registered_name (id2name : Int → Int → Option String) (reg : List offenderlist)
    (d : rozofs_dquot_t) (name : Option String) (h : is_registered id2name reg d name)
    (hf : find_offender reg d = none) :
    ∃ n, name = some n ∨
      (name = none ∧ id2name (to_int d.key.qid) (to_int d.key.type) = some n) := by
  rcases h with h | h | h
  · exact absurd hf h
  · cases name with
    | none => exact absurd rfl h
    | some n => exact ⟨n, Or.inl rfl⟩
  · cases name with
    | some n => exact ⟨n, Or.inl rfl⟩
    | none =>
      cases hi : id2name (to_int d.key.qid) (to_int d.key.type) with
      | none => exact absurd hi h
      | some n => exact ⟨n, Or.inr ⟨rfl, rfl⟩⟩

theorem add_offence_cases (id2name : Int → Int → Option String) (reg : List offenderlist)
    (d : rozofs_dquot_t) (name : Option String) :
    (∃ i, find_offender reg d = some i ∧
        add_offence id2name reg d name = stuff_in_front (new_usage d) reg i) ∨
      (find_offender reg d = none ∧ ∃ n,
        add_offence id2name reg d name =
          { offender_type := to_int d.key.type, offender_id := to_int d.key.qid,
            offender_name := n, usage := [new_usage d] } :: reg) ∨
      (find_offender reg d = none ∧ add_offence id2name reg d name = reg
        ∧ ¬ is_registered id2name reg d name) := by
  cases hf : find_offender reg d with
  | some i => exact Or.inl ⟨i, rfl, add_offence_of_found id2name reg d name i hf⟩
  | none =>
    right
    cases name with
    | some n =>
      exact Or.inl ⟨rfl, n, add_offence_of_new id2name reg d (some n) n hf (Or.inl rfl)⟩
    | none =>
      cases hi : id2name (to_int d.key.qid) (to_int d.key.type) with
      | none =>
        refine Or.inr ⟨rfl, add_offence_of_dropped id2name reg d hf hi, ?_⟩
        rintro (h | h | h)
        · exact h hf
        · exact h rfl
        · exact h hi
      | some n =>
        exact Or.inl ⟨rfl, n, add_offence_of_new id2name reg d none n hf (Or.inr ⟨rfl, hi⟩)⟩

theorem map_key_add_offence (id2name : Int → Int → Option String) (reg : List offenderlist)
    (d : rozofs_dquot_t) (name : Option String) :
    (add_offence id2name reg d name).map offender_key = reg.map offender_key ∨
      (dquot_key d ∉ reg.map offender_key ∧
        (add_offence id2name reg d name).map offender_key =
          stored_key d :: reg.map offender_key) := by
  rcases add_offence_cases id2name reg d name with ⟨i, _, h⟩ | ⟨hf, n, h⟩ | ⟨_, h, _⟩
  · left
    rw [h, map_key_stuff_in_front]
  · right
    refine ⟨(find_offender_eq_none_iff reg d).1 hf, ?_⟩
    rw [h]
    simp [offender_key, stored_key]
  · left
    rw [h]

theorem mem_keys_add_offence_named (id2name : Int → Int → Option String)
    (reg : List offenderlist) (d : rozofs_dquot_t) (n : String) (k : Int × Int)
    (hfit : fits_int d) :
    k ∈ (add_offence id2name reg d (some n)).map offender_key ↔
      k ∈ reg.map offender_key ∨ k = dquot_key d := by
  cases hf : find_offender reg d with
  | some i =>
    rw [add_offence_of_found id2name reg d (some n) i hf, map_key_stuff_in_front]
    obtain ⟨o, ho, hk⟩ := find_offender_some_get reg d i hf
    have hmem : dquot_key d ∈ reg.map offender_key := by
      rw [← hk]
      exact List.mem_map_of_mem _ (List.getElem?_mem ho)
    constructor
    · intro h; exact Or.inl h
    · rintro (h | h)
      · exact h
      · rw [h]; exact hmem
  | none =>
    rw [add_offence_of_new id2name reg d (some n) n hf (Or.inl rfl), ← stored_key_of_fits d hfit]
    simp only [List.map_cons, List.mem_cons, offender_key, stored_key]
    tauto

theorem nodup_keys_add_offence (id2name : Int → Int → Option String) (reg : List offenderlist)
    (d : rozofs_dquot_t) (name : Option String) (hfit : fits_int d)
    (h : (reg.map offender_key).Nodup) :
    ((add_offence id2name reg d name).map offender_key).Nodup := by
  rcases map_key_add_offence id2name reg d name with h1 | ⟨h1, h2⟩
  · rw [h1]; exact h
  · rw [h2, stored_key_of_fits d hfit]; exact List.nodup_cons.2 ⟨h1, h⟩

theorem check_offence_eq (toqb : Nat → Nat) (id2name : Int → Int → Option String)
    (maildev : String) (maildev_handle : Option quota_handle) (now : Int)
    (reg : List offenderlist) (d : rozofs_dquot_t) (name : Option String) :
    check_offence toqb id2name maildev maildev_handle now reg d name =
      if IsViolation toqb d ∧ deliverable toqb maildev maildev_handle now d ≠ 0 then
        add_offence id2name reg d name
      else reg := by
  unfold check_offence IsViolation
  by_cases hv : (d.quota.dqb_bsoftlimit ≠ 0 ∧ toqb d.quota.dqb_curspace ≥ d.quota.dqb_bsoftlimit)
      ∨ (d.quota.dqb_isoftlimit ≠ 0 ∧ d.quota.dqb_curinodes ≥ d.quota.dqb_isoftlimit)
  · by_cases hd : deliverable toqb maildev maildev_handle now d ≠ 0
    · rw [if_pos hv, if_pos hd, if_pos ⟨hv, hd⟩]
    · rw [if_pos hv, if_neg hd, if_neg (fun h => hd h.2)]
  · rw [if_neg hv, if_neg (fun h => hv h.1)]

theorem nodup_keys_check_offence (toqb : Nat → Nat) (id2name : Int → Int → Option String)
    (maildev : String) (maildev_handle : Option quota_handle) (now : Int)
    (reg : List offenderlist) (d : rozofs_dquot_t) (name : Option String) (hfit : fits_int d)
    (h : (reg.map offender_key).Nodup) :
    ((check_offence toqb id2name maildev maildev_handle now reg d name).map offender_key).Nodup := by
  rw [check_offence_eq]
  split
  · exact nodup_keys_add_offence id2name reg d name hfit h
  · exact h

theorem mem_keys_check_offence (toqb : Nat → Nat) (id2name : Int → Int → Option String)
    (maildev : String) (maildev_handle : Option quota_handle) (now : Int)
    (reg : List offenderlist) (d : rozofs_dquot_t) (n : String) (k : Int × Int)
    (hfit : fits_int d) :
    k ∈ (check_offence toqb id2name maildev maildev_handle now reg d (some n)).map offender_key ↔
      k ∈ reg.map offender_key ∨
        (k = dquot_key d ∧ IsViolation toqb d ∧
          deliverable toqb maildev maildev_handle now d ≠ 0) := by
  rw [check_offence_eq]
  by_cases hc : IsViolation toqb d ∧ deliverable toqb maildev maildev_handle now d ≠ 0
  · rw [if_pos hc, mem_keys_add_offence_named _ _ _ _ _ hfit]
    tauto
  · rw [if_neg hc]
    tauto

theorem mem_keys_check_offences (toqb : Nat → Nat) (id2name : Int → Int → Option String)
    (maildev : String) (maildev_handle : Option quota_handle) (records : List scanned)
    (reg : List offenderlist) (k : Int × Int) (hfit : ∀ r ∈ records, fits_int r.dquot) :
    k ∈ (check_offences toqb id2name maildev maildev_handle reg records).map offender_key ↔
      k ∈ reg.map offender_key ∨
        ∃ r ∈ records, k = dquot_key r.dquot ∧ IsViolation toqb r.dquot ∧
          deliverable toqb maildev maildev_handle r.now r.dquot ≠ 0 := by
  induction records generalizing reg with
  | nil => simp [check_offences]
  | cons r rest ih =>
    have hstep : check_offences toqb id2name maildev maildev_handle reg (r :: rest) =
        check_offences toqb id2name maildev maildev_handle
          (check_offence toqb id2name maildev maildev_handle r.now reg r.dquot (some r.name))
          rest := rfl
    rw [hstep, ih _ (fun x hx => hfit x (List.mem_cons_of_mem _ hx)),
      mem_keys_check_offence _ _ _ _ _ _ _ _ _ (hfit r (List.mem_cons_self _ _))]
    simp only [List.mem_cons, exists_eq_or_imp]
    tauto

theorem mem_keys_iff (reg : List offenderlist) (t i : Int) :
    (t, i) ∈ reg.map offender_key ↔ ∃ o ∈ reg, o.offender_type = t ∧ o.offender_id = i := by
  simp [offender_key]

theorem usage_of_add_offence (id2name : Int → Int → Option String) (reg : List offenderlist)
    (d : rozofs_dquot_t) (name : Option String) (h : is_registered id2name reg d name)
    (hfit : fits_int d) :
    usage_of (add_offence id2name reg d name) (dquot_key d) =
      new_usage d :: usage_of reg (dquot_key d) := by
  cases hf : find_offender reg d with
  | some i =>
    rw [add_offence_of_found id2name reg d name i hf, usage_of_stuff_in_front_found _ _ _ _ hf]
  | none =>
    have hnot := (find_offender_eq_none_iff reg d).1 hf
    have hnil := usage_of_eq_nil_of_not_mem reg (dquot_key d) hnot
    obtain ⟨n, hn⟩ := is_registered_name id2name reg d name h hf
    rw [add_offence_of_new id2name reg d name n hf hn, hnil, ← stored_key_of_fits d hfit]
    simp [usage_of, offender_key, stored_key]

theorem stuff_in_front_split (u : usage) (reg : List offenderlist) (d : rozofs_dquot_t) (i : Nat)
    (h : find_offender reg d = some i) :
    ∃ pre o post, reg = pre ++ o :: post ∧ (∀ p ∈ pre, offender_key p ≠ dquot_key d) ∧
      offender_key o = dquot_key d ∧
      stuff_in_front u reg i = pre ++ { o with usage := u :: o.usage } :: post := by
  induction reg generalizing i with
  | nil => simp [find_offender] at h
  | cons o rest ih =>
    by_cases hc : (d.key.type : Int) = o.offender_type ∧ o.offender_id = (d.key.qid : Int)
    · rw [find_offender_cons] at h
      simp only [hc, and_self, if_true, Option.some.injEq] at h
      subst h
      refine ⟨[], o, rest, rfl, ?_, ?_, rfl⟩
      · intro p hp
        exact absurd hp (List.not_mem_nil _)
      · simp [dquot_key, offender_key, hc.1, hc.2]
    · rw [find_offender_cons] at h
      simp only [hc, if_false, Option.map_eq_some'] at h
      obtain ⟨j, hj, rfl⟩ := h
      obtain ⟨pre, o1, post, h1, h2, h3, h4⟩ := ih j hj
      have hk : offender_key o ≠ dquot_key d := by
        intro hk
        simp only [dquot_key, offender_key, Prod.mk.injEq] at hk
        exact hc ⟨hk.1.symm, hk.2⟩
      refine ⟨o :: pre, o1, post, by simp [h1], ?_, h3, ?_⟩
      · intro p hp
        rcases List.mem_cons.1 hp with hp | hp
        · rw [hp]; exact hk
        · exact h2 p hp
      · simp [stuff_in_front, h4]

/-- The node that receives the usage entry of a filed record: an offender of the registry, found
by the search loop, or a new offender with no usage linked in front of the registry; its usage
list gets the new entry in front and the rest of the registry is left as it was. -/
theorem add_offence_receiver (id2name : Int → Int → Option String) (reg : List offenderlist)
    (d : rozofs_dquot_t) (name : Option String) (h : is_registered id2name reg d name) :
    ∃ pre o post,
      ((reg = pre ++ o :: post ∧ (∀ p ∈ pre, offender_key p ≠ dquot_key d) ∧
            offender_key o = dquot_key d) ∨
          (pre = [] ∧ reg = post ∧ o.usage = [] ∧ offender_key o = stored_key d ∧
            dquot_key d ∉ reg.map offender_key)) ∧
        add_offence id2name reg d name =
          pre ++ { o with usage := new_usage d :: o.usage } :: post := by
  rcases add_offence_cases id2name reg d name with ⟨i, hf, ha⟩ | ⟨hf, n, ha⟩ | ⟨_, _, hn⟩
  · obtain ⟨pre, o, post, h1, h2, h3, h4⟩ := stuff_in_front_split (new_usage d) reg d i hf
    exact ⟨pre, o, post, Or.inl ⟨h1, h2, h3⟩, by rw [ha, h4]⟩
  · refine ⟨[], ⟨to_int d.key.type, to_int d.key.qid, n, []⟩, reg,
      Or.inr ⟨rfl, rfl, rfl, rfl, (find_offender_eq_none_iff reg d).1 hf⟩, ?_⟩
    rw [ha]
    rfl
  · exact absurd h hn

theorem add_offence_ne_self (id2name : Int → Int → Option String) (reg : List offenderlist)
    (d : rozofs_dquot_t) (name : Option String) (h : is_registered id2name reg d name) :
    add_offence id2name reg d name ≠ reg := by
  intro he
  obtain ⟨pre, o, post, h1 | h1, h2⟩ := add_offence_receiver id2name reg d name h
  · rw [he] at h2
    rw [h1.1] at h2
    have h3 := List.append_cancel_left h2
    have h4 := congrArg (fun x : offenderlist => x.usage.length) (List.cons.inj h3).1
    simp at h4
  · rw [he] at h2
    obtain ⟨hp, hr, _⟩ := h1
    rw [hp, hr] at h2
    have h3 := congrArg List.length h2
    simp at h3

/-! ## Lemmas on the policy and the scan -/

theorem head_ne_none_of_any (maildev : String) (h : strcasecmp maildev "any" = 0) :
    maildev.data.head? ≠ none := by
  intro hn
  have hd : maildev.data = [] := by
    cases hdata : maildev.data with
    | nil => rfl
    | cons c cs => rw [hdata] at hn; simp at hn
  have h1 : strcasecmp_chars maildev.data "any".data = 0 := h
  rw [hd] at h1
  revert h1
  decide

theorem scan_file_maildev_handle {A : Type} (env : collaborators A) (maildev : String)
    (type : Nat) (file : List (Option rozofs_dquot_t)) (st : scan_state A) :
    (scan_file env maildev type st file).maildev_handle = st.maildev_handle := by
  induction file generalizing st with
  | nil => rfl
  | cons r rest ih =>
    cases r with
    | none => rfl
    | some data =>
      simp only [scan_file]
      rw [ih]

theorem rozofs_warn_quota_maildev_handle {A : Type} (env : collaborators A) (maildev : String)
    (st : scan_state A) (ctx : rozofs_qt_export_t) (type : Nat) :
    (rozofs_warn_quota env maildev st ctx type).maildev_handle = st.maildev_handle := by
  unfold rozofs_warn_quota
  split
  · rfl
  · generalize ctx.quota_inode type = files
    induction files generalizing st with
    | nil => rfl
    | cons f rest ih =>
      simp only [List.foldl_cons]
      rw [ih, scan_file_maildev_handle]

theorem warn_quota_arg_maildev_handle {A : Type} (env : collaborators A) (maildev : String)
    (flags : Nat) (st st1 : scan_state A) (arg : String)
    (h : warn_quota_arg env maildev flags st arg = Except.ok st1)
    (h0 : st.maildev_handle = none) : st1.maildev_handle = none := by
  unfold warn_quota_arg at h
  simp only at h
  split at h
  · cases h; exact h0
  · split at h
    · cases h; exact h0
    · split at h
      · cases h
      · rename_i ctx _
        split at h
        · split at h
          · cases h
          · cases h
            rw [rozofs_warn_quota_maildev_handle]
        · cases h
          split
          · rw [rozofs_warn_quota_maildev_handle]
          · exact h0

theorem warn_quota_scan_maildev_handle {A : Type} (env : collaborators A) (maildev : String)
    (flags : Nat) (args : List String) (st st1 : scan_state A)
    (h : warn_quota_scan env maildev flags st args = Except.ok st1)
    (h0 : st.maildev_handle = none) : st1.maildev_handle = none := by
  induction args generalizing st with
  | nil =>
    simp only [warn_quota_scan] at h
    cases h
    exact h0
  | cons a rest ih =>
    simp only [warn_quota_scan] at h
    cases ha : warn_quota_arg env maildev flags st a with
    | error c => rw [ha] at h; cases h
    | ok st2 =>
      rw [ha] at h
      exact ih st2 h (warn_quota_arg_maildev_handle env maildev flags st st2 a ha h0)

/-! ## Threshold and exemption policy: the claims -/

/-- For records whose key fields fit `int`: starting from the empty registry and feeding any
finite list of records, each with a supplied display name, through `check_offence`, an offender
with key `(type, id)` exists afterwards if and only if some record of the list with that key was
a violation and deliverable when it was checked; and an account all of whose records are strictly
under both soft limits has no offender. -/
theorem check_offences_int_ids_offender_iff (toqb : Nat → Nat)
    (id2name : Int → Int → Option String)
    (maildev : String) (maildev_handle : Option quota_handle) (records : List scanned)
    (type id : Nat) (hfit : ∀ r ∈ records, fits_int r.dquot) :
    ((∃ o ∈ check_offences toqb id2name maildev maildev_handle [] records,
          o.offender_type = (type : Int) ∧ o.offender_id = (id : Int)) ↔
        ∃ r ∈ records, r.dquot.key.type = type ∧ r.dquot.key.qid = id ∧
          IsViolation toqb r.dquot ∧
          deliverable toqb maildev maildev_handle r.now r.dquot ≠ 0) ∧
      ((∀ r ∈ records, r.dquot.key.type = type → r.dquot.key.qid = id →
            toqb r.dquot.quota.dqb_curspace < r.dquot.quota.dqb_bsoftlimit ∧
              r.dquot.quota.dqb_curinodes < r.dquot.quota.dqb_isoftlimit) →
        ¬ ∃ o ∈ check_offences toqb id2name maildev maildev_handle [] records,
          o.offender_type = (type : Int) ∧ o.offender_id = (id : Int)) := by
  have main : (∃ o ∈ check_offences toqb id2name maildev maildev_handle [] records,
          o.offender_type = (type : Int) ∧ o.offender_id = (id : Int)) ↔
        ∃ r ∈ records, r.dquot.key.type = type ∧ r.dquot.key.qid = id ∧
          IsViolation toqb r.dquot ∧
          deliverable toqb maildev maildev_handle r.now r.dquot ≠ 0 := by
    rw [← mem_keys_iff, mem_keys_check_offences _ _ _ _ _ _ _ hfit]
    simp only [List.map_nil, List.not_mem_nil, false_or, dquot_key, Prod.mk.injEq, Nat.cast_inj]
    constructor
    · rintro ⟨r, hr, ⟨h1, h2⟩, h3, h4⟩
      exact ⟨r, hr, h1.symm, h2.symm, h3, h4⟩
    · rintro ⟨r, hr, h1, h2, h3, h4⟩
      exact ⟨r, hr, ⟨h1.symm, h2.symm⟩, h3, h4⟩
  refine ⟨main, ?_⟩
  intro hunder hex
  obtain ⟨r, hr, h1, h2, hv, _⟩ := main.1 hex
  obtain ⟨hb, hi⟩ := hunder r hr h1 h2
  rcases hv with ⟨_, hv⟩ | ⟨_, hv⟩
  · omega
  · omega

/-- C2: `check_offence` treats a record as a violation exactly when `IsViolation` holds, that is
when the converted block usage is at or above a set block soft limit or the inode count is at or
above a set inode soft limit: a record that is no violation leaves the registry as it is, a
deliverable named record changes the registry if and only if it is a violation, and a record
whose two soft limits are 0 is never a violation. -/
theorem check_offence_violation_iff (toqb : Nat → Nat) (id2name : Int → Int → Option String)
    (maildev : String) (maildev_handle : Option quota_handle) (now : Int)
    (reg : List offenderlist) (d : rozofs_dquot_t) (name : Option String) (n : String) :
    (check_offence toqb id2name maildev maildev_handle now reg d name =
        if IsViolation toqb d then
          (if deliverable toqb maildev maildev_handle now d ≠ 0 then
            add_offence id2name reg d name
          else reg)
        else reg) ∧
      (deliverable toqb maildev maildev_handle now d ≠ 0 →
        (check_offence toqb id2name maildev maildev_handle now reg d (some n) ≠ reg ↔
          IsViolation toqb d)) ∧
      (d.quota.dqb_bsoftlimit = 0 → d.quota.dqb_isoftlimit = 0 →
        ¬ IsViolation toqb d ∧
          check_offence toqb id2name maildev maildev_handle now reg d name = reg) := by
  refine ⟨?_, ?_, ?_⟩
  · rw [check_offence_eq]
    by_cases hv : IsViolation toqb d
    · by_cases hd : deliverable toqb maildev maildev_handle now d ≠ 0
      · rw [if_pos ⟨hv, hd⟩, if_pos hv, if_pos hd]
      · rw [if_neg (fun h => hd h.2), if_pos hv, if_neg hd]
    · rw [if_neg (fun h => hv h.1), if_neg hv]
  · intro hd
    rw [check_offence_eq]
    by_cases hv : IsViolation toqb d
    · rw [if_pos ⟨hv, hd⟩]
      exact ⟨fun _ => hv, fun _ =>
        add_offence_ne_self id2name reg d (some n) (Or.inr (Or.inl (by simp)))⟩
    · rw [if_neg (fun h => hv h.1)]
      exact ⟨fun h => absurd rfl h, fun h => absurd h hv⟩
  · intro hb hi
    have hv : ¬ IsViolation toqb d := by
      unfold IsViolation
      rintro (⟨h, _⟩ | ⟨h, _⟩)
      · exact h hb
      · exact h hi
    refine ⟨hv, ?_⟩
    rw [check_offence_eq, if_neg (fun h => hv h.1)]

/-- Witness of C2: a record with no soft limit at all leaves the registry empty, whatever its
usage. -/
theorem check_offence_violation_iff_witness :
    ¬ IsViolation id
        { key := { eid := 1, type := 0, qid := 7 }
          quota := { sample_quota with dqb_bsoftlimit := 0, dqb_curspace := 1000000 } } ∧
      check_offence id sample_id2name "" none 0 []
        { key := { eid := 1, type := 0, qid := 7 }
          quota := { sample_quota with dqb_bsoftlimit := 0, dqb_curspace := 1000000 } }
        (some "bob") = [] :=
  (check_offence_violation_iff id sample_id2name "" none 0 []
    { key := { eid := 1, type := 0, qid := 7 }
      quota := { sample_quota with dqb_bsoftlimit := 0, dqb_curspace := 1000000 } }
    (some "bob") "bob").2.2 rfl rfl

/-- C3: when `maildev` compares equal to "any" under `strcasecmp`, `deliverable` returns 0 if and
only if the record has a set hard block limit with converted block usage at or above it, or a set
soft block limit with converted block usage at or above it and a set block grace deadline that
is at or before the current time; for every other record it returns 1. -/
theorem deliverable_any_iff (toqb : Nat → Nat) (maildev : String)
    (maildev_handle : Option quota_handle) (now : Int) (d : rozofs_dquot_t)
    (hany : strcasecmp maildev "any" = 0) :
    (deliverable toqb maildev maildev_handle now d = 0 ↔
        (d.quota.dqb_bhardlimit ≠ 0 ∧ d.quota.dqb_bhardlimit ≤ toqb d.quota.dqb_curspace) ∨
          (d.quota.dqb_bsoftlimit ≠ 0 ∧ d.quota.dqb_bsoftlimit ≤ toqb d.quota.dqb_curspace ∧
            d.quota.dqb_btime ≠ 0 ∧ d.quota.dqb_btime ≤ now)) ∧
      (¬ ((d.quota.dqb_bhardlimit ≠ 0 ∧ d.quota.dqb_bhardlimit ≤ toqb d.quota.dqb_curspace) ∨
            (d.quota.dqb_bsoftlimit ≠ 0 ∧ d.quota.dqb_bsoftlimit ≤ toqb d.quota.dqb_curspace ∧
              d.quota.dqb_btime ≠ 0 ∧ d.quota.dqb_btime ≤ now)) →
        deliverable toqb maildev maildev_handle now d = 1) := by
  have hhead := head_ne_none_of_any maildev hany
  unfold deliverable
  rw [if_neg hhead]
  by_cases hc : (d.quota.dqb_bhardlimit ≠ 0 ∧ d.quota.dqb_bhardlimit ≤ toqb d.quota.dqb_curspace) ∨
      (d.quota.dqb_bsoftlimit ≠ 0 ∧ d.quota.dqb_bsoftlimit ≤ toqb d.quota.dqb_curspace ∧
        d.quota.dqb_btime ≠ 0 ∧ d.quota.dqb_btime ≤ now)
  · have hc1 : strcasecmp maildev "any" = 0 ∧
        ((d.quota.dqb_bhardlimit ≠ 0 ∧ toqb d.quota.dqb_curspace ≥ d.quota.dqb_bhardlimit)
          ∨ ((d.quota.dqb_bsoftlimit ≠ 0
                ∧ toqb d.quota.dqb_curspace ≥ d.quota.dqb_bsoftlimit)
              ∧ (d.quota.dqb_btime ≠ 0 ∧ d.quota.dqb_btime ≤ now))) := by
      refine ⟨hany, ?_⟩
      rcases hc with h | ⟨h1, h2, h3, h4⟩
      · exact Or.inl h
      · exact Or.inr ⟨⟨h1, h2⟩, h3, h4⟩
    rw [if_pos hc1]
    exact ⟨⟨fun _ => hc, fun _ => rfl⟩, fun h => absurd hc h⟩
  · have hc1 : ¬ (strcasecmp maildev "any" = 0 ∧
        ((d.quota.dqb_bhardlimit ≠ 0 ∧ toqb d.quota.dqb_curspace ≥ d.quota.dqb_bhardlimit)
          ∨ ((d.quota.dqb_bsoftlimit ≠ 0
                ∧ toqb d.quota.dqb_curspace ≥ d.quota.dqb_bsoftlimit)
              ∧ (d.quota.dqb_btime ≠ 0 ∧ d.quota.dqb_btime ≤ now)))) := by
      rintro ⟨_, h | ⟨⟨h1, h2⟩, h3, h4⟩⟩
      · exact hc (Or.inl h)
      · exact hc (Or.inr ⟨h1, h2, h3, h4⟩)
    rw [if_neg hc1]
    have h1 : (if maildev_handle = none then (1 : Int) else 1) = 1 := by split <;> rfl
    rw [h1]
    exact ⟨⟨fun h => absurd h (by decide), fun h => absurd h hc⟩, fun _ => rfl⟩

/-- Witness of C3: with `maildev` set to "Any", the sample record (over its soft limit, grace
deadline 50) is not deliverable at time 60. -/
theorem deliverable_any_iff_witness :
    deliverable id "Any" none 60 (sample_dquot 3 0 1000) = 0 :=
  (deliverable_any_iff id "Any" none 60 (sample_dquot 3 0 1000) (by decide)).1.2
    (Or.inr (by decide))

/-- C4: `deliverable` returns 1 for every record and every current time when `maildev` is empty,
and also when `maildev` does not compare equal to "any" and `maildev_handle` is `NULL`; the scan
phase of `warn_quota`, entered with `maildev_handle` `NULL`, leaves it `NULL`. -/
theorem deliverable_unset_or_unresolved (toqb : Nat → Nat) (maildev : String) (now : Int)
    (d : rozofs_dquot_t) :
    (maildev = "" → ∀ maildev_handle, deliverable toqb maildev maildev_handle now d = 1) ∧
      (strcasecmp maildev "any" ≠ 0 → deliverable toqb maildev none now d = 1) ∧
      (∀ (A : Type) (env : collaborators A) (flags : Nat) (args : List String)
          (st st1 : scan_state A),
        st.maildev_handle = none →
          warn_quota_scan env maildev flags st args = Except.ok st1 →
            st1.maildev_handle = none) := by
  refine ⟨?_, ?_, ?_⟩
  · intro h handle
    subst h
    rfl
  · intro h
    unfold deliverable
    split
    · rfl
    · rw [if_neg (fun hc => h hc.1)]
      rfl
  · intro A env flags args st st1 h0 h
    exact warn_quota_scan_maildev_handle env maildev flags args st st1 h h0

/-- Witness of C4: with `maildev` naming the device "/dev/sda1" and no handle, the sample record
is deliverable although its grace deadline has passed. -/
theorem deliverable_unset_or_unresolved_witness :
    deliverable id "/dev/sda1" none 60 (sample_dquot 3 0 1000) = 1 :=
  (deliverable_unset_or_unresolved id "/dev/sda1" 60 (sample_dquot 3 0 1000)).2.1 (by decide)

/-! ## Offender registry: the claims -/

theorem nodup_keys_run_calls (toqb : Nat → Nat) (id2name : Int → Int → Option String)
    (calls : List registry_call) (reg : List offenderlist)
    (hfit : ∀ c ∈ calls, fits_int (call_dquot c))
    (h : (reg.map offender_key).Nodup) :
    ((run_calls toqb id2name reg calls).map offender_key).Nodup := by
  induction calls generalizing reg with
  | nil => exact h
  | cons c rest ih =>
    have hc := hfit c (List.mem_cons_self _ _)
    have hrest : ∀ x ∈ rest, fits_int (call_dquot x) :=
      fun x hx => hfit x (List.mem_cons_of_mem _ hx)
    cases c with
    | add d name =>
      exact ih _ hrest (nodup_keys_add_offence id2name reg d name hc h)
    | check maildev handle now d name =>
      exact ih _ hrest
        (nodup_keys_check_offence toqb id2name maildev handle now reg d name hc h)

/-- For records whose key fields fit `int`: after any finite sequence of `add_offence` and
`check_offence` calls starting from the empty registry, no two offenders of the registry have the
same account type and account id. -/
theorem run_calls_int_ids_unique_offender (toqb : Nat → Nat)
    (id2name : Int → Int → Option String) (calls : List registry_call)
    (hfit : ∀ c ∈ calls, fits_int (call_dquot c)) :
    (run_calls toqb id2name [] calls).Pairwise
      (fun a b => ¬ (a.offender_type = b.offender_type ∧ a.offender_id = b.offender_id)) := by
  have h := nodup_keys_run_calls toqb id2name calls [] hfit (by simp)
  rw [List.Nodup, List.pairwise_map] at h
  refine h.imp ?_
  intro a b hab hc
  exact hab (by simp [offender_key, hc.1, hc.2])

/-- C5, evaluated at the failing input: two `add_offence` calls for user 3000000000, for exports
3 and 4, from the empty registry.  The first call stores the offender with id -1294967296; the
search loop of the second call compares that `int` with the key field 3000000000 and finds
nothing, so a second offender is linked: the registry ends with two offenders of type 0 and id
-1294967296. -/
theorem run_calls_wrapped_id_two_offenders :
    run_calls id sample_id2name []
        [registry_call.add (sample_dquot 3 0 3000000000) (some "#3000000000"),
         registry_call.add (sample_dquot 4 0 3000000000) (some "#3000000000")] =
      [{ offender_type := 0, offender_id := -1294967296, offender_name := "#3000000000",
         usage := [{ devicename := "eid_4", dq_dqb := sample_quota }] },
       { offender_type := 0, offender_id := -1294967296, offender_name := "#3000000000",
         usage := [{ devicename := "eid_3", dq_dqb := sample_quota }] }] ∧
      ¬ (run_calls id sample_id2name []
          [registry_call.add (sample_dquot 3 0 3000000000) (some "#3000000000"),
           registry_call.add (sample_dquot 4 0 3000000000) (some "#3000000000")]).Pairwise
        (fun a b => ¬ (a.offender_type = b.offender_type ∧ a.offender_id = b.offender_id)) := by
  refine ⟨by rfl, by decide⟩

/-- For an account whose type and id fit `int` and every two distinct export ids `a` and `b`:
checking a violating, deliverable record of the account for export `a` and then one for export
`b`, from the empty registry, leaves exactly one offender: the account, under the first name
supplied, with exactly two usage entries, labelled `eid_b` and `eid_a`, two different labels. -/
theorem two_exports_int_ids_one_offender (toqb : Nat → Nat)
    (id2name : Int → Int → Option String)
    (maildev : String) (maildev_handle : Option quota_handle) (type id a b : Nat)
    (qa qb : util_dqblk) (na nb : String) (now_a now_b : Int) (hab : a ≠ b)
    (htype : type < 2 ^ 31) (hid : id < 2 ^ 31)
    (hva : IsViolation toqb { key := { eid := a, type := type, qid := id }, quota := qa })
    (hda : deliverable toqb maildev maildev_handle now_a
      { key := { eid := a, type := type, qid := id }, quota := qa } ≠ 0)
    (hvb : IsViolation toqb { key := { eid := b, type := type, qid := id }, quota := qb })
    (hdb : deliverable toqb maildev maildev_handle now_b
      { key := { eid := b, type := type, qid := id }, quota := qb } ≠ 0) :
    ∃ o : offenderlist,
      check_offence toqb id2name maildev maildev_handle now_b
          (check_offence toqb id2name maildev maildev_handle now_a []
            { key := { eid := a, type := type, qid := id }, quota := qa } (some na))
          { key := { eid := b, type := type, qid := id }, quota := qb } (some nb) = [o] ∧
        o.offender_type = (type : Int) ∧ o.offender_id = (id : Int) ∧ o.offender_name = na ∧
        o.usage.length = 2 ∧
        o.usage.map (fun u => u.devicename) = ["eid_" ++ toString b, "eid_" ++ toString a] ∧
        "eid_" ++ toString a ≠ "eid_" ++ toString b := by
  refine ⟨{ offender_type := type, offender_id := id, offender_name := na,
            usage := [new_usage { key := { eid := b, type := type, qid := id }, quota := qb },
                      new_usage { key := { eid := a, type := type, qid := id }, quota := qa }] },
    ?_, rfl, rfl, rfl, rfl, rfl, ?_⟩
  · rw [check_offence_eq, if_pos ⟨hvb, hdb⟩, check_offence_eq, if_pos ⟨hva, hda⟩]
    simp [add_offence, find_offender, add_offender, stuff_in_front, to_int_of_lt _ htype,
      to_int_of_lt _ hid, int_eq_unsigned_iff]
  · intro h
    exact hab (eid_label_injective a b h)

/-- C6, evaluated at the failing input: a violating, deliverable record of user 3000000000 is
checked for export 3 and then one for export 4, from the empty registry.  The registry ends with
two offenders, each holding one usage entry, both stored with id -1294967296: the search loop
does not find the offender the first record created. -/
theorem two_exports_wrapped_id_two_offenders :
    check_offence id sample_id2name "" none 0
        (check_offence id sample_id2name "" none 0 [] (sample_dquot 3 0 3000000000)
          (some "#3000000000"))
        (sample_dquot 4 0 3000000000) (some "#3000000000") =
      [{ offender_type := 0, offender_id := -1294967296, offender_name := "#3000000000",
         usage := [{ devicename := "eid_4", dq_dqb := sample_quota }] },
       { offender_type := 0, offender_id := -1294967296, offender_name := "#3000000000",
         usage := [{ devicename := "eid_3", dq_dqb := sample_quota }] }] ∧
      IsViolation id (sample_dquot 3 0 3000000000) ∧
      deliverable id "" none 0 (sample_dquot 3 0 3000000000) ≠ 0 ∧
      IsViolation id (sample_dquot 4 0 3000000000) ∧
      deliverable id "" none 0 (sample_dquot 4 0 3000000000) ≠ 0 ∧
      ¬ ∃ o : offenderlist,
        check_offence id sample_id2name "" none 0
            (check_offence id sample_id2name "" none 0 [] (sample_dquot 3 0 3000000000)
              (some "#3000000000"))
            (sample_dquot 4 0 3000000000) (some "#3000000000") = [o] := by
  have hrun : check_offence id sample_id2name "" none 0
        (check_offence id sample_id2name "" none 0 [] (sample_dquot 3 0 3000000000)
          (some "#3000000000"))
        (sample_dquot 4 0 3000000000) (some "#3000000000") =
      [{ offender_type := 0, offender_id := -1294967296, offender_name := "#3000000000",
         usage := [{ devicename := "eid_4", dq_dqb := sample_quota }] },
       { offender_type := 0, offender_id := -1294967296, offender_name := "#3000000000",
         usage := [{ devicename := "eid_3", dq_dqb := sample_quota }] }] := by rfl
  refine ⟨hrun, by decide, by decide, by decide, by decide, ?_⟩
  rintro ⟨o, ho⟩
  rw [hrun] at ho
  simp at ho

/-- C9: when `add_offence` files a record (the search loop finds its account in the registry, or
a name is supplied, or the name lookup succeeds), the usage entry put on the offender that
receives the record copies the eight fields of the record unchanged (inode hard limit, inode soft
limit, current inodes, block hard limit, block soft limit, current space, block grace time, inode
grace time) and its device label is "eid_" followed by the decimal rendering of the record's
export id; the offender's earlier entries follow it.  The receiving offender is an offender `o`
of the registry, or a new offender `o` with no usage linked in front of the registry, and the
rest of the registry is left as it was.  When the key fields of the record fit `int`, the
receiving offender is the one the search loop finds under the record's `(type, id)`. -/
theorem add_offence_usage_entry (id2name : Int → Int → Option String) (reg : List offenderlist)
    (d : rozofs_dquot_t) (name : Option String) (h : is_registered id2name reg d name) :
    (∃ pre o post,
        (reg = pre ++ o :: post ∨ (pre = [] ∧ reg = post ∧ o.usage = [])) ∧
          add_offence id2name reg d name =
            pre ++
              { offender_type := o.offender_type
                offender_id := o.offender_id
                offender_name := o.offender_name
                usage :=
                  { devicename := "eid_" ++ toString d.key.eid
                    dq_dqb :=
                      { dqb_ihardlimit := d.quota.dqb_ihardlimit
                        dqb_isoftlimit := d.quota.dqb_isoftlimit
                        dqb_curinodes := d.quota.dqb_curinodes
                        dqb_bhardlimit := d.quota.dqb_bhardlimit
                        dqb_bsoftlimit := d.quota.dqb_bsoftlimit
                        dqb_curspace := d.quota.dqb_curspace
                        dqb_btime := d.quota.dqb_btime
                        dqb_itime := d.quota.dqb_itime } } :: o.usage } :: post) ∧
      (d.key.type < 2 ^ 31 → d.key.qid < 2 ^ 31 →
        usage_of (add_offence id2name reg d name) ((d.key.type : Int), (d.key.qid : Int)) =
          { devicename := "eid_" ++ toString d.key.eid
            dq_dqb :=
              { dqb_ihardlimit := d.quota.dqb_ihardlimit
                dqb_isoftlimit := d.quota.dqb_isoftlimit
                dqb_curinodes := d.quota.dqb_curinodes
                dqb_bhardlimit := d.quota.dqb_bhardlimit
                dqb_bsoftlimit := d.quota.dqb_bsoftlimit
                dqb_curspace := d.quota.dqb_curspace
                dqb_btime := d.quota.dqb_btime
                dqb_itime := d.quota.dqb_itime } } ::
            usage_of reg ((d.key.type : Int), (d.key.qid : Int))) := by
  refine ⟨?_, fun h1 h2 => usage_of_add_offence id2name reg d name h ⟨h1, h2⟩⟩
  obtain ⟨pre, o, post, h1, h2⟩ := add_offence_receiver id2name reg d name h
  refine ⟨pre, o, post, ?_, h2⟩
  rcases h1 with h1 | h1
  · exact Or.inl h1.1
  · exact Or.inr ⟨h1.1, h1.2.1, h1.2.2.1⟩

/-- Witness of C9: the entry filed for the sample record of export 12. -/
theorem add_offence_usage_entry_witness :
    usage_of (add_offence sample_id2name [] (sample_dquot 12 0 1000) (some "alice"))
        (((0 : Nat) : Int), ((1000 : Nat) : Int)) =
      [{ devicename := "eid_12", dq_dqb := sample_quota }] :=
  (add_offence_usage_entry sample_id2name [] (sample_dquot 12 0 1000) (some "alice")
    (Or.inr (Or.inl (by simp)))).2 (by decide) (by decide)

/-- Counterexample to C10 as stated: filing a record of export 2 for an offender that already
holds the entry of export 1 does not put the new entry after the old one. -/
theorem add_offence_appends_counterexample :
    ¬ (usage_of
          (add_offence sample_id2name
            (add_offence sample_id2name [] (sample_dquot 1 0 1000) (some "alice"))
            (sample_dquot 2 0 1000) (some "alice")) (0, 1000) =
        usage_of (add_offence sample_id2name [] (sample_dquot 1 0 1000) (some "alice")) (0, 1000)
          ++ [new_usage (sample_dquot 2 0 1000)]) := by
  decide

theorem usage_of_foldl_add_offence (id2name : Int → Int → Option String) (k : Int × Int)
    (n : String) (ds : List rozofs_dquot_t) (hk : ∀ d ∈ ds, dquot_key d = k)
    (hfit : ∀ d ∈ ds, fits_int d) (reg : List offenderlist) :
    usage_of (ds.foldl (fun r d => add_offence id2name r d (some n)) reg) k =
      (ds.map new_usage).reverse ++ usage_of reg k := by
  induction ds generalizing reg with
  | nil => simp
  | cons d rest ih =>
    have hd : dquot_key d = k := hk d (by simp)
    have hrest : ∀ x ∈ rest, dquot_key x = k := fun x hx => hk x (by simp [hx])
    have hfrest : ∀ x ∈ rest, fits_int x := fun x hx => hfit x (by simp [hx])
    simp only [List.foldl_cons, List.map_cons, List.reverse_cons, List.append_assoc,
      List.singleton_append]
    rw [ih hrest hfrest, ← hd,
      usage_of_add_offence id2name reg d (some n) (Or.inr (Or.inl (by simp))) (hfit d (by simp))]

/-- C10, amended: `add_offence` puts the new usage entry in front of the entries the receiving
offender already holds (an offender `o` of the registry, or a new offender `o` with no usage
linked in front of it; for a record whose key fields fit `int`, the offender the search loop
finds under the record's account), so that after filing the records of one account whose type
and id fit `int`, first to last, from the empty registry, the account's entries are held in
reverse discovery order, last-recorded entry first. -/
theorem add_offence_stuffs_in_front (id2name : Int → Int → Option String) :
    (∀ (reg : List offenderlist) (d : rozofs_dquot_t) (name : Option String),
        is_registered id2name reg d name →
          (∃ pre o post,
            (reg = pre ++ o :: post ∨ (pre = [] ∧ reg = post ∧ o.usage = [])) ∧
              add_offence id2name reg d name =
                pre ++ { o with usage := new_usage d :: o.usage } :: post) ∧
          (fits_int d →
            usage_of (add_offence id2name reg d name) (dquot_key d) =
              new_usage d :: usage_of reg (dquot_key d))) ∧
      (∀ (type id : Nat) (n : String) (ds : List rozofs_dquot_t),
        type < 2 ^ 31 → id < 2 ^ 31 →
        (∀ d ∈ ds, d.key.type = type ∧ d.key.qid = id) →
          usage_of (ds.foldl (fun r d => add_offence id2name r d (some n)) [])
              ((type : Int), (id : Int)) = (ds.map new_usage).reverse) := by
  refine ⟨fun reg d name h => ⟨?_, fun hfit => usage_of_add_offence id2name reg d name h hfit⟩,
    ?_⟩
  · obtain ⟨pre, o, post, h1, h2⟩ := add_offence_receiver id2name reg d name h
    refine ⟨pre, o, post, ?_, h2⟩
    rcases h1 with h1 | h1
    · exact Or.inl h1.1
    · exact Or.inr ⟨h1.1, h1.2.1, h1.2.2.1⟩
  intro type id n ds htype hid hds
  have hk : ∀ d ∈ ds, dquot_key d = ((type : Int), (id : Int)) := by
    intro d hd
    obtain ⟨h1, h2⟩ := hds d hd
    simp [dquot_key, h1, h2]
  have hfit : ∀ d ∈ ds, fits_int d := by
    intro d hd
    obtain ⟨h1, h2⟩ := hds d hd
    exact ⟨by rw [h1]; exact htype, by rw [h2]; exact hid⟩
  rw [usage_of_foldl_add_offence id2name _ n ds hk hfit []]
  simp [usage_of]

/-- Witness of C10, amended: records of exports 1, 2, 3 for user 1000 are held as 3, 2, 1. -/
theorem add_offence_stuffs_in_front_witness :
    (usage_of
        ([sample_dquot 1 0 1000, sample_dquot 2 0 1000, sample_dquot 3 0 1000].foldl
          (fun r d => add_offence sample_id2name r d (some "alice")) [])
        (((0 : Nat) : Int), ((1000 : Nat) : Int))).map (fun u => u.devicename) =
      ["eid_3", "eid_2", "eid_1"] := by
  rw [(add_offence_stuffs_in_front sample_id2name).2 0 1000 "alice"
    [sample_dquot 1 0 1000, sample_dquot 2 0 1000, sample_dquot 3 0 1000] (by decide)
    (by decide) (by decide)]
  decide

/-! ## One usage entry per export: the invariant of the scan -/

theorem mem_add_offence (id2name : Int → Int → Option String) (reg : List offenderlist)
    (d : rozofs_dquot_t) (name : Option String) (o1 : offenderlist)
    (h : o1 ∈ add_offence id2name reg d name) :
    o1 ∈ reg ∨
      ((∃ o ∈ reg, offender_key o = dquot_key d ∧ offender_key o1 = dquot_key d ∧
          o1.usage = new_usage d :: o.usage) ∨
        (offender_key o1 = stored_key d ∧ o1.usage = [new_usage d])) := by
  rcases add_offence_cases id2name reg d name with ⟨i, hf, ha⟩ | ⟨hf, n, ha⟩ | ⟨_, ha, _⟩
  · rw [ha] at h
    obtain ⟨o, ho, hk⟩ := find_offender_some_get reg d i hf
    rcases mem_stuff_in_front _ _ _ _ h with h1 | ⟨o2, h2, h3⟩
    · exact Or.inl h1
    · have h4 : o2 = o := by
        rw [ho] at h2
        exact (Option.some.inj h2).symm
      subst h4
      refine Or.inr (Or.inl ⟨o2, List.getElem?_mem ho, hk, ?_, ?_⟩)
      · rw [h3]; exact hk
      · rw [h3]
  · rw [ha] at h
    rcases List.mem_cons.1 h with h1 | h1
    · exact Or.inr (Or.inr ⟨by rw [h1]; rfl, by rw [h1]⟩)
    · exact Or.inl h1
  · rw [ha] at h
    exact Or.inl h

theorem scanning_export_mono (E : List Int) (e : Int) (K K1 : List (Int × Int))
    (reg : List offenderlist) (hK : ∀ k ∈ K, k ∈ K1) (h : scanning_export E e K reg) :
    scanning_export E e K1 reg := by
  intro o ho
  obtain ⟨h1, h2, h3⟩ := h o ho
  exact ⟨h1, h2, fun n hn hl => hK _ (h3 n hn hl)⟩

theorem scanning_export_add_offence (id2name : Int → Int → Option String) (E : List Int)
    (e : Int) (K : List (Int × Int)) (reg : List offenderlist) (d : rozofs_dquot_t)
    (name : Option String) (h : scanning_export E e K reg) (he : (d.key.eid : Int) = e)
    (hK : dquot_key d ∉ K) :
    scanning_export E e (dquot_key d :: stored_key d :: K) (add_offence id2name reg d name) := by
  intro o1 ho1
  have hlab : (new_usage d).devicename = eid_label d.key.eid := rfl
  rcases mem_add_offence id2name reg d name o1 ho1 with h1 | h1 | h1
  · obtain ⟨a, b, c⟩ := h o1 h1
    exact ⟨a, b, fun n hn hl =>
      List.mem_cons_of_mem _ (List.mem_cons_of_mem _ (c n hn hl))⟩
  · obtain ⟨o, ho, hko, hk1, hu⟩ := h1
    obtain ⟨a, b, c⟩ := h o ho
    have hl1 : labels o1 = eid_label d.key.eid :: labels o := by
      simp [labels, hu, hlab]
    have hnot : eid_label d.key.eid ∉ labels o := by
      intro hmem
      exact hK (hko ▸ c d.key.eid he hmem)
    refine ⟨?_, ?_, ?_⟩
    · rw [hl1]; exact List.nodup_cons.2 ⟨hnot, a⟩
    · intro x hx
      rw [hl1] at hx
      rcases List.mem_cons.1 hx with hx | hx
      · exact ⟨d.key.eid, Or.inr he, hx⟩
      · exact b x hx
    · intro n _ _
      rw [hk1]; exact List.mem_cons_self _ _
  · obtain ⟨hk1, h1⟩ := h1
    have hl1 : labels o1 = [eid_label d.key.eid] := by
      simp [labels, h1, hlab]
    refine ⟨?_, ?_, ?_⟩
    · rw [hl1]; simp
    · intro x hx
      rw [hl1] at hx
      exact ⟨d.key.eid, Or.inr he, by simpa using hx⟩
    · intro n _ _
      rw [hk1]; exact List.mem_cons_of_mem _ (List.mem_cons_self _ _)

theorem scanning_export_check_offence (toqb : Nat → Nat) (id2name : Int → Int → Option String)
    (maildev : String) (maildev_handle : Option quota_handle) (now : Int) (E : List Int)
    (e : Int) (K : List (Int × Int)) (reg : List offenderlist) (d : rozofs_dquot_t)
    (name : Option String) (h : scanning_export E e K reg) (he : (d.key.eid : Int) = e)
    (hK : dquot_key d ∉ K) :
    scanning_export E e (dquot_key d :: stored_key d :: K)
      (check_offence toqb id2name maildev maildev_handle now reg d name) := by
  rw [check_offence_eq]
  split
  · exact scanning_export_add_offence id2name E e K reg d name h he hK
  · exact scanning_export_mono E e K _ reg
      (fun k hk => List.mem_cons_of_mem _ (List.mem_cons_of_mem _ hk)) h

theorem scanning_export_scan_file {A : Type} (env : collaborators A) (maildev : String)
    (type : Nat) (E : List Int) (e : Int) (file : List (Option rozofs_dquot_t))
    (K : List (Int × Int)) (st : scan_state A)
    (h : scanning_export E e K st.offenders)
    (he : ∀ r ∈ file.filterMap id, (r.key.eid : Int) = e)
    (hnd : ((file.filterMap id).map stored_key).Nodup)
    (hK : ∀ r ∈ file.filterMap id, dquot_key r ∉ K) :
    ∃ K1, scanning_export E e K1 (scan_file env maildev type st file).offenders ∧
      ∀ k ∈ K1, k ∈ K ∨ ∃ r ∈ file.filterMap id, k = dquot_key r ∨ k = stored_key r := by
  induction file generalizing K st with
  | nil => exact ⟨K, by simpa [scan_file] using h, fun k hk => Or.inl hk⟩
  | cons r rest ih =>
    cases r with
    | none =>
      simp only [scan_file]
      exact ⟨K, h, fun k hk => Or.inl hk⟩
    | some d =>
      simp only [List.filterMap_cons_some (f := id) (a := some d) (b := d) rfl, List.map_cons,
        List.mem_cons, forall_eq_or_imp, List.nodup_cons, List.mem_map, not_exists,
        not_and] at he hnd hK ⊢
      simp only [scan_file]
      have hstep := scanning_export_check_offence env.toqb env.id2name maildev st.maildev_handle
        (env.clock st.checked) E e K st.offenders d (some (record_name env type d)) h he.1 hK.1
      have hK1 : ∀ r ∈ rest.filterMap id, dquot_key r ∉ dquot_key d :: stored_key d :: K := by
        intro r hr hmem
        have hne : stored_key r ≠ stored_key d := hnd.1 r hr
        rcases List.mem_cons.1 hmem with h1 | h1
        · exact dquot_key_ne_of_stored_key_ne r d hne h1
        · rcases List.mem_cons.1 h1 with h1 | h1
          · exact hne (stored_key_of_dquot_key_eq r d h1)
          · exact hK.2 r hr h1
      obtain ⟨K2, hres, hchar⟩ := ih (dquot_key d :: stored_key d :: K)
        { st with
          offenders :=
            check_offence env.toqb env.id2name maildev st.maildev_handle (env.clock st.checked)
              st.offenders d (some (record_name env type d))
          checked := st.checked + 1 }
        hstep he.2 hnd.2 hK1
      refine ⟨K2, hres, ?_⟩
      intro k hk
      rcases hchar k hk with h1 | ⟨r, hr, h1⟩
      · rcases List.mem_cons.1 h1 with h1 | h1
        · exact Or.inr ⟨d, Or.inl rfl, Or.inl h1⟩
        · rcases List.mem_cons.1 h1 with h1 | h1
          · exact Or.inr ⟨d, Or.inl rfl, Or.inr h1⟩
          · exact Or.inl h1
      · exact Or.inr ⟨r, Or.inr hr, h1⟩

theorem table_records_cons (f : List (Option rozofs_dquot_t)) (files : disk_table) :
    table_records (f :: files) = f.filterMap id ++ table_records files := by
  simp [table_records, List.filterMap_append]

theorem scanning_export_table {A : Type} (env : collaborators A) (maildev : String)
    (type : Nat) (E : List Int) (e : Int) (files : disk_table)
    (K : List (Int × Int)) (st : scan_state A)
    (h : scanning_export E e K st.offenders)
    (he : ∀ r ∈ table_records files, (r.key.eid : Int) = e)
    (hnd : ((table_records files).map stored_key).Nodup)
    (hK : ∀ r ∈ table_records files, dquot_key r ∉ K) :
    ∃ K1, scanning_export E e K1 (files.foldl (scan_file env maildev type) st).offenders := by
  induction files generalizing K st with
  | nil => exact ⟨K, h⟩
  | cons f rest ih =>
    rw [table_records_cons] at he hnd hK
    rw [List.map_append, List.nodup_append] at hnd
    obtain ⟨hnd1, hnd2, hdis⟩ := hnd
    obtain ⟨K1, hf, hchar⟩ := scanning_export_scan_file env maildev type E e f K st h
      (fun r hr => he r (List.mem_append_left _ hr)) hnd1
      (fun r hr => hK r (List.mem_append_left _ hr))
    simp only [List.foldl_cons]
    refine ih K1 _ hf (fun r hr => he r (List.mem_append_right _ hr)) hnd2 ?_
    intro r hr hmem
    have hne : ∀ r0 ∈ f.filterMap id, stored_key r0 ≠ stored_key r := by
      intro r0 hr0 heq
      exact hdis (List.mem_map_of_mem _ hr0) (heq ▸ List.mem_map_of_mem _ hr)
    rcases hchar _ hmem with h1 | ⟨r0, hr0, h1 | h1⟩
    · exact hK r (List.mem_append_right _ hr) h1
    · exact dquot_key_ne_of_stored_key_ne r r0 (fun h2 => hne r0 hr0 h2.symm) h1
    · exact hne r0 hr0 (stored_key_of_dquot_key_eq r r0 h1).symm

theorem scanning_export_of_between (E : List Int) (e : Int) (reg : List offenderlist)
    (h : one_entry_per_export E reg) (he : e ∉ E) : scanning_export E e [] reg := by
  intro o ho
  obtain ⟨h1, h2⟩ := h o ho
  refine ⟨h1, ?_, ?_⟩
  · intro x hx
    obtain ⟨n, hn, hxn⟩ := h2 x hx
    exact ⟨n, Or.inl hn, hxn⟩
  · intro n hn hl
    obtain ⟨m, hm, hxm⟩ := h2 _ hl
    have hnm : n = m := eid_label_injective n m hxm
    subst hnm
    rw [hn] at hm
    exact absurd hm he

theorem between_of_scanning_export (E : List Int) (e : Int) (K : List (Int × Int))
    (reg : List offenderlist) (h : scanning_export E e K reg) :
    one_entry_per_export (e :: E) reg := by
  intro o ho
  obtain ⟨h1, h2, _⟩ := h o ho
  refine ⟨h1, ?_⟩
  intro x hx
  obtain ⟨n, hn, hxn⟩ := h2 x hx
  refine ⟨n, ?_, hxn⟩
  rcases hn with hn | hn
  · exact List.mem_cons_of_mem _ hn
  · rw [hn]; exact List.mem_cons_self _ _

theorem one_entry_per_export_cons (E : List Int) (e : Int) (reg : List offenderlist)
    (h : one_entry_per_export E reg) : one_entry_per_export (e :: E) reg := by
  intro o ho
  obtain ⟨h1, h2⟩ := h o ho
  refine ⟨h1, ?_⟩
  intro x hx
  obtain ⟨n, hn, hxn⟩ := h2 x hx
  exact ⟨n, List.mem_cons_of_mem _ hn, hxn⟩

theorem one_entry_per_export_rozofs_warn_quota {A : Type} (env : collaborators A)
    (maildev : String) (E : List Int) (e : Int) (st : scan_state A) (ctx : rozofs_qt_export_t)
    (type : Nat) (h : one_entry_per_export E st.offenders) (he : e ∉ E)
    (hrec : ∀ r ∈ table_records (ctx.quota_inode type), (r.key.eid : Int) = e)
    (hnd : ((table_records (ctx.quota_inode type)).map stored_key).Nodup) :
    one_entry_per_export (e :: E) (rozofs_warn_quota env maildev st ctx type).offenders := by
  unfold rozofs_warn_quota
  split
  · exact one_entry_per_export_cons E e _ h
  · obtain ⟨K1, hK1⟩ := scanning_export_table env maildev type E e (ctx.quota_inode type) [] st
      (scanning_export_of_between E e _ h he) hrec hnd (fun _ _ => List.not_mem_nil _)
    exact between_of_scanning_export E e K1 _ hK1

theorem one_entry_per_export_warn_quota_arg {A : Type} (env : collaborators A)
    (maildev : String) (flags : Nat) (E : List Int) (st st1 : scan_state A) (arg : String)
    (hflags : flags &&& FL_GROUP = 0)
    (h : one_entry_per_export E st.offenders) (he : to_int (env.strtoul arg).1 ∉ E)
    (hstore : ∀ path ctx, env.econfig_get_export_path (to_int (env.strtoul arg).1) = some path →
      env.rozofs_qt_alloc_context (to_int (env.strtoul arg).1) path = some ctx →
      (∀ r ∈ table_records (ctx.quota_inode USRQUOTA),
          (r.key.eid : Int) = to_int (env.strtoul arg).1) ∧
        ((table_records (ctx.quota_inode USRQUOTA)).map stored_key).Nodup)
    (hrun : warn_quota_arg env maildev flags st arg = Except.ok st1) :
    one_entry_per_export (to_int (env.strtoul arg).1 :: E) st1.offenders := by
  unfold warn_quota_arg at hrun
  simp only at hrun
  split at hrun
  · cases hrun
    exact one_entry_per_export_cons E _ _ h
  · split at hrun
    · cases hrun
      exact one_entry_per_export_cons E _ _ h
    · rename_i pathname hpath
      split at hrun
      · cases hrun
      · rename_i ctx hctx
        obtain ⟨hrec, hnd⟩ := hstore pathname ctx hpath hctx
        rw [if_neg (by simp [hflags])] at hrun
        cases hrun
        split
        · exact one_entry_per_export_rozofs_warn_quota env maildev E _
            { st with maildev_handle := none } ctx USRQUOTA h he hrec hnd
        · exact one_entry_per_export_cons E _ _ h

theorem one_entry_per_export_warn_quota_scan {A : Type} (env : collaborators A)
    (maildev : String) (flags : Nat) (args : List String) (E : List Int)
    (st st1 : scan_state A) (hflags : flags &&& FL_GROUP = 0)
    (h : one_entry_per_export E st.offenders)
    (hE : ∀ a ∈ args, to_int (env.strtoul a).1 ∉ E)
    (hargs : (args.map (fun a => to_int (env.strtoul a).1)).Nodup)
    (hstore : ∀ a ∈ args, ∀ path ctx,
      env.econfig_get_export_path (to_int (env.strtoul a).1) = some path →
      env.rozofs_qt_alloc_context (to_int (env.strtoul a).1) path = some ctx →
      (∀ r ∈ table_records (ctx.quota_inode USRQUOTA),
          (r.key.eid : Int) = to_int (env.strtoul a).1) ∧
        ((table_records (ctx.quota_inode USRQUOTA)).map stored_key).Nodup)
    (hrun : warn_quota_scan env maildev flags st args = Except.ok st1) :
    ∃ E1, one_entry_per_export E1 st1.offenders := by
  induction args generalizing E st with
  | nil =>
    simp only [warn_quota_scan] at hrun
    cases hrun
    exact ⟨E, h⟩
  | cons a rest ih =>
    simp only [warn_quota_scan] at hrun
    cases ha : warn_quota_arg env maildev flags st a with
    | error c => rw [ha] at hrun; cases hrun
    | ok st2 =>
      rw [ha] at hrun
      simp only [List.map_cons, List.nodup_cons, List.mem_map, not_exists, not_and] at hargs
      have h2 := one_entry_per_export_warn_quota_arg env maildev flags E st st2 a hflags h
        (hE a (List.mem_cons_self _ _)) (hstore a (List.mem_cons_self _ _)) ha
      refine ih (to_int (env.strtoul a).1 :: E) st2 h2 ?_ hargs.2
        (fun b hb => hstore b (List.mem_cons_of_mem _ hb)) hrun
      intro b hb hmem
      rcases List.mem_cons.1 hmem with h1 | h1
      · exact hargs.1 b hb h1
      · exact hE b (List.mem_cons_of_mem _ hb) h1

/-! ## Scan phase: the claims -/

/-- Counterexample to C7 as stated: with the user flag alone and export 3 given twice, the
offender of user 1000 holds two usage entries labelled `eid_3`. -/
theorem warn_quota_scan_repeated_export_counterexample :
    ∃ st, warn_quota_scan sample_env "" FL_USER sample_state ["3", "3"] = Except.ok st ∧
      ¬ ∀ o ∈ st.offenders, (o.usage.map (fun u => u.devicename)).Nodup := by
  refine ⟨{ offenders :=
              [{ offender_type := 0, offender_id := 1000, offender_name := "alice",
                 usage := [{ devicename := "eid_3", dq_dqb := sample_quota },
                           { devicename := "eid_3", dq_dqb := sample_quota }] }]
            maildev_handle := none, admins := (), checked := 2 }, ?_, ?_⟩
  · rfl
  · decide

/-- Two accounts that `add_offender` stores under one id: with the user flag alone and export 3
given once, whose user table holds a record of user 4294968296 and then a record of user 1000,
the first record is stored under the id 1000 (the low 32 bits of its id), the search loop finds
that offender for the second record, and the offender ends with two usage entries labelled
`eid_3`. -/
theorem warn_quota_scan_narrowed_accounts_collide :
    warn_quota_scan sample_wide_env "" FL_USER sample_state ["3"] =
      Except.ok
        { offenders :=
            [{ offender_type := 0, offender_id := 1000, offender_name := "#4294968296",
               usage := [{ devicename := "eid_3", dq_dqb := sample_quota },
                         { devicename := "eid_3", dq_dqb := sample_quota }] }]
          maildev_handle := none, admins := (), checked := 2 } := by
  rfl

/-- C7, amended: after the scan phase of `warn_quota` run with the group flag clear from an
empty registry, when the export arguments convert to pairwise distinct export ids and the user
quota table of every scanned export yields records that carry that export's id and accounts that
are pairwise distinct as `add_offender` stores them (type and id narrowed to `int`), each
offender holds at most one usage entry per export label. -/
theorem warn_quota_scan_one_entry_per_export {A : Type} (env : collaborators A)
    (maildev : String) (flags : Nat) (args : List String) (st st1 : scan_state A)
    (hflags : flags &&& FL_GROUP = 0)
    (hempty : st.offenders = [])
    (hargs : (args.map (fun a => to_int (env.strtoul a).1)).Nodup)
    (hstore : ∀ a ∈ args, ∀ path ctx,
      env.econfig_get_export_path (to_int (env.strtoul a).1) = some path →
      env.rozofs_qt_alloc_context (to_int (env.strtoul a).1) path = some ctx →
      (∀ r ∈ table_records (ctx.quota_inode USRQUOTA),
          (r.key.eid : Int) = to_int (env.strtoul a).1) ∧
        ((table_records (ctx.quota_inode USRQUOTA)).map
          (fun r => (to_int r.key.type, to_int r.key.qid))).Nodup)
    (hrun : warn_quota_scan env maildev flags st args = Except.ok st1) :
    ∀ o ∈ st1.offenders, (o.usage.map (fun u => u.devicename)).Nodup := by
  have h0 : one_entry_per_export [] st.offenders := by
    rw [hempty]
    intro o ho
    exact absurd ho (List.not_mem_nil _)
  obtain ⟨E1, hE1⟩ := one_entry_per_export_warn_quota_scan env maildev flags args [] st st1
    hflags h0 (fun _ _ => List.not_mem_nil _) hargs hstore hrun
  intro o ho
  exact (hE1 o ho).1

/-- Witness of C7, amended: the user flag alone and the exports 3 and 4; user 1000 ends with one
entry `eid_4` and one entry `eid_3`. -/
theorem warn_quota_scan_one_entry_per_export_witness :
    warn_quota_scan sample_env "" FL_USER sample_state ["3", "4"] =
        Except.ok
          { offenders :=
              [{ offender_type := 0, offender_id := 1000, offender_name := "alice",
                 usage := [{ devicename := "eid_4", dq_dqb := sample_quota },
                           { devicename := "eid_3", dq_dqb := sample_quota }] }]
            maildev_handle := none, admins := (), checked := 2 } ∧
      (([{ devicename := "eid_4", dq_dqb := sample_quota },
         { devicename := "eid_3", dq_dqb := sample_quota }] : List usage).map
        (fun u => u.devicename)).Nodup :=
  ⟨rfl, warn_quota_scan_one_entry_per_export sample_env "" FL_USER ["3", "4"] sample_state
    { offenders :=
        [{ offender_type := 0, offender_id := 1000, offender_name := "alice",
           usage := [{ devicename := "eid_4", dq_dqb := sample_quota },
                     { devicename := "eid_3", dq_dqb := sample_quota }] }]
      maildev_handle := none, admins := (), checked := 2 }
    (by decide) rfl (by decide)
    (by
      intro a ha path ctx _ hctx
      simp only [List.mem_cons, List.mem_singleton, List.not_mem_nil, or_false] at ha
      rcases ha with rfl | rfl
      · have hc : ctx = sample_ctx 3 := (Option.some.inj hctx).symm
        subst hc
        decide
      · have hc : ctx = sample_ctx 4 := (Option.some.inj hctx).symm
        subst hc
        decide)
    rfl
    { offender_type := 0, offender_id := 1000, offender_name := "alice",
      usage := [{ devicename := "eid_4", dq_dqb := sample_quota },
                { devicename := "eid_3", dq_dqb := sample_quota }] }
    (List.mem_singleton.2 rfl)⟩

/-- C8, evaluated at the failing input: with the group flag alone, the scan of export 3, whose
user table holds a record of user 1000 and whose group table holds a record of group 50, files
user 1000 (account type `USRQUOTA`, named from the passwd database) and never reads the record of
group 50: the group pass calls `rozofs_warn_quota` with `USRQUOTA`. -/
theorem warn_quota_scan_group_pass_reads_user_table :
    warn_quota_scan sample_env "" FL_GROUP sample_state ["3"] =
      Except.ok
        { offenders :=
            [{ offender_type := 0, offender_id := 1000, offender_name := "alice",
               usage := [{ devicename := "eid_3", dq_dqb := sample_quota }] }]
          maildev_handle := none, admins := (), checked := 1 } := by
  rfl

/-! ## Frame effect of `add_offence` -/

/-- For a record whose key fields fit `int`: a successful `add_offence` (account already present,
name supplied, or name lookup succeeding) changes only the offender of the record's
`(type, id)`.  Either that offender is in the registry, and the first such offender gets the new
usage entry in front of its earlier entries, keeping type, id and display name, while every
offender before and after it is left as it was; or no offender has that key, and one new offender
holding the single new entry is linked in front of the unchanged registry.  No offender is
removed and the usage of every other account is what it was. -/
theorem add_offence_int_ids_frame (id2name : Int → Int → Option String)
    (reg : List offenderlist)
    (d : rozofs_dquot_t) (name : Option String) (h : is_registered id2name reg d name)
    (hfit : fits_int d) :
    ((∃ pre o post, reg = pre ++ o :: post ∧ (∀ p ∈ pre, offender_key p ≠ dquot_key d) ∧
          offender_key o = dquot_key d ∧
          add_offence id2name reg d name =
            pre ++ { offender_type := o.offender_type, offender_id := o.offender_id,
                     offender_name := o.offender_name,
                     usage := new_usage d :: o.usage } :: post) ∨
        (dquot_key d ∉ reg.map offender_key ∧
          ∃ n, add_offence id2name reg d name =
            { offender_type := d.key.type, offender_id := d.key.qid, offender_name := n,
              usage := [new_usage d] } :: reg)) ∧
      (∀ o ∈ reg, ∃ o1 ∈ add_offence id2name reg d name,
        o1.offender_type = o.offender_type ∧ o1.offender_id = o.offender_id ∧
          o1.offender_name = o.offender_name ∧
          (o1.usage = o.usage ∨ o1.usage = new_usage d :: o.usage)) ∧
      (∀ k, k ≠ dquot_key d →
        usage_of (add_offence id2name reg d name) k = usage_of reg k) := by
  have hmain : (∃ pre o post, reg = pre ++ o :: post ∧
          (∀ p ∈ pre, offender_key p ≠ dquot_key d) ∧ offender_key o = dquot_key d ∧
          add_offence id2name reg d name =
            pre ++ { offender_type := o.offender_type, offender_id := o.offender_id,
                     offender_name := o.offender_name,
                     usage := new_usage d :: o.usage } :: post) ∨
        (dquot_key d ∉ reg.map offender_key ∧
          ∃ n, add_offence id2name reg d name =
            { offender_type := d.key.type, offender_id := d.key.qid, offender_name := n,
              usage := [new_usage d] } :: reg) := by
    cases hf : find_offender reg d with
    | some i =>
      left
      obtain ⟨pre, o, post, h1, h2, h3, h4⟩ := stuff_in_front_split (new_usage d) reg d i hf
      exact ⟨pre, o, post, h1, h2, h3, by rw [add_offence_of_found id2name reg d name i hf, h4]⟩
    | none =>
      right
      refine ⟨(find_offender_eq_none_iff reg d).1 hf, ?_⟩
      obtain ⟨n, hn⟩ := is_registered_name id2name reg d name h hf
      refine ⟨n, ?_⟩
      rw [add_offence_of_new id2name reg d name n hf hn, to_int_of_lt _ hfit.1,
        to_int_of_lt _ hfit.2]
  refine ⟨hmain, ?_, ?_⟩
  · intro o ho
    rcases hmain with ⟨pre, o2, post, h1, _, _, h4⟩ | ⟨_, n, hn⟩
    · rw [h4]
      rw [h1] at ho
      rcases List.mem_append.1 ho with hp | hp
      · exact ⟨o, List.mem_append_left _ hp, rfl, rfl, rfl, Or.inl rfl⟩
      · rcases List.mem_cons.1 hp with hp | hp
        · subst hp
          exact ⟨_, List.mem_append_right _ (List.mem_cons_self _ _), rfl, rfl, rfl,
            Or.inr rfl⟩
        · exact ⟨o, List.mem_append_right _ (List.mem_cons_of_mem _ hp), rfl, rfl, rfl,
            Or.inl rfl⟩
    · rw [hn]
      exact ⟨o, List.mem_cons_of_mem _ ho, rfl, rfl, rfl, Or.inl rfl⟩
  · intro k hk
    cases hf : find_offender reg d with
    | some i =>
      rw [add_offence_of_found id2name reg d name i hf,
        usage_of_stuff_in_front_other _ _ _ _ hf k hk]
    | none =>
      rcases hmain with ⟨pre, o2, post, h1, _, h3, _⟩ | ⟨_, n, hn⟩
      · exfalso
        have hnot := (find_offender_eq_none_iff reg d).1 hf
        apply hnot
        rw [h1, ← h3]
        simp
      · rw [hn]
        have hne : ¬ (((d.key.type : Int), (d.key.qid : Int)) = k) := fun e => hk e.symm
        simp [usage_of, offender_key, hne]

/-- C11, evaluated at the failing input: the registry holds the offender of user 3000000000 as
the program itself stored it after a record of export 3 (id -1294967296), and `add_offence`
files a record of the same user for export 4.  The account's offender gains nothing: the search
loop compares its `int` id with the key field 3000000000 and runs off the end, and a second
offender, holding the new entry alone, is linked in front of the registry. -/
theorem add_offence_wrapped_id_second_offender :
    add_offence sample_id2name [] (sample_dquot 3 0 3000000000) (some "#3000000000") =
        [{ offender_type := 0, offender_id := -1294967296, offender_name := "#3000000000",
           usage := [{ devicename := "eid_3", dq_dqb := sample_quota }] }] ∧
      find_offender
          [{ offender_type := 0, offender_id := -1294967296, offender_name := "#3000000000",
             usage := [{ devicename := "eid_3", dq_dqb := sample_quota }] }]
          (sample_dquot 4 0 3000000000) = none ∧
      add_offence sample_id2name
          [{ offender_type := 0, offender_id := -1294967296, offender_name := "#3000000000",
             usage := [{ devicename := "eid_3", dq_dqb := sample_quota }] }]
          (sample_dquot 4 0 3000000000) (some "#3000000000") =
        [{ offender_type := 0, offender_id := -1294967296, offender_name := "#3000000000",
           usage := [{ devicename := "eid_4", dq_dqb := sample_quota }] },
         { offender_type := 0, offender_id := -1294967296, offender_name := "#3000000000",
           usage := [{ devicename := "eid_3", dq_dqb := sample_quota }] }] := by
  refine ⟨by rfl, by rfl, by rfl⟩

/-! ## Cc policy: the claims -/

theorem time_sub_of_fits (a b : Int) (h : time_fits a b) : time_sub a b = a - b := by
  unfold time_fits at h
  unfold time_sub
  omega

theorem should_cc_loop_eq_one_iff (toqb : Nat → Nat) (atime cc_before : Int) (us : List usage) :
    should_cc_loop toqb atime cc_before us = 1 ↔
      ∃ u ∈ us,
        (u.dq_dqb.dqb_bsoftlimit ≠ 0 ∧ u.dq_dqb.dqb_bsoftlimit ≤ toqb u.dq_dqb.dqb_curspace ∧
            time_sub u.dq_dqb.dqb_btime cc_before ≤ atime) ∨
          (u.dq_dqb.dqb_isoftlimit ≠ 0 ∧ u.dq_dqb.dqb_isoftlimit ≤ u.dq_dqb.dqb_curinodes ∧
            time_sub u.dq_dqb.dqb_itime cc_before ≤ atime) := by
  induction us with
  | nil => simp [should_cc_loop]
  | cons u rest ih =>
    simp only [should_cc_loop, List.mem_cons, exists_eq_or_imp]
    split
    · rename_i hb
      exact ⟨fun _ => Or.inl (Or.inl hb), fun _ => rfl⟩
    · rename_i hb
      split
      · rename_i hi
        exact ⟨fun _ => Or.inl (Or.inr hi), fun _ => rfl⟩
      · rename_i hi
        rw [ih]
        constructor
        · intro h
          exact Or.inr h
        · rintro (h | h)
          · rcases h with h | h
            · exact absurd h hb
            · exact absurd h hi
          · exact h

theorem should_cc_loop_zero_or_one (toqb : Nat → Nat) (atime cc_before : Int)
    (us : List usage) :
    should_cc_loop toqb atime cc_before us = 0 ∨ should_cc_loop toqb atime cc_before us = 1 := by
  induction us with
  | nil => exact Or.inl rfl
  | cons u rest ih =>
    simp only [should_cc_loop]
    split
    · exact Or.inr rfl
    · split
      · exact Or.inr rfl
      · exact ih

/-- Counterexample to C12 as stated: with a lead time of 7 days, at time 1000000, an offender
whose only entry is over its block soft limit with a block grace deadline at 2000000 and has no
inode limit (inode grace deadline 0) gets no Cc, although its inode grace deadline minus the lead
time is before the current time. -/
theorem should_cc_deadline_only_counterexample :
    ¬ (should_cc id 1000000 (sample_offender 2000000 0) (sample_config 604800) = 1 ↔
        ∃ u ∈ (sample_offender 2000000 0).usage,
          u.dq_dqb.dqb_btime - (sample_config 604800).cc_before ≤ 1000000 ∨
            u.dq_dqb.dqb_itime - (sample_config 604800).cc_before ≤ 1000000) := by
  decide

/-- C12, amended: when `cc_before` is set (not -1) and the difference deadline - `cc_before` is
a `time_t` value for every deadline the code subtracts from (the block grace deadline of an
entry at or over a set block soft limit, the inode grace deadline of an entry at or over a set
inode soft limit), `should_cc` returns 1 if and only if some usage entry of the offender is at
or over a set block soft limit with (block grace deadline - `cc_before`) at or before the
current time, or at or over a set inode soft limit with (inode grace deadline - `cc_before`) at
or before the current time; otherwise it returns 0. -/
theorem should_cc_set_iff (toqb : Nat → Nat) (atime : Int) (offender : offenderlist)
    (config : configparams) (hset : config.cc_before ≠ -1)
    (hfits : ∀ u ∈ offender.usage,
      (u.dq_dqb.dqb_bsoftlimit ≠ 0 ∧ u.dq_dqb.dqb_bsoftlimit ≤ toqb u.dq_dqb.dqb_curspace →
          time_fits u.dq_dqb.dqb_btime config.cc_before) ∧
        (u.dq_dqb.dqb_isoftlimit ≠ 0 ∧ u.dq_dqb.dqb_isoftlimit ≤ u.dq_dqb.dqb_curinodes →
          time_fits u.dq_dqb.dqb_itime config.cc_before)) :
    (should_cc toqb atime offender config = 1 ↔
        ∃ u ∈ offender.usage,
          (u.dq_dqb.dqb_bsoftlimit ≠ 0 ∧
              u.dq_dqb.dqb_bsoftlimit ≤ toqb u.dq_dqb.dqb_curspace ∧
              u.dq_dqb.dqb_btime - config.cc_before ≤ atime) ∨
            (u.dq_dqb.dqb_isoftlimit ≠ 0 ∧
              u.dq_dqb.dqb_isoftlimit ≤ u.dq_dqb.dqb_curinodes ∧
              u.dq_dqb.dqb_itime - config.cc_before ≤ atime)) ∧
      (should_cc toqb atime offender config = 0 ∨ should_cc toqb atime offender config = 1) := by
  unfold should_cc
  rw [if_neg hset]
  refine ⟨?_, should_cc_loop_zero_or_one toqb atime config.cc_before offender.usage⟩
  rw [should_cc_loop_eq_one_iff]
  constructor
  · rintro ⟨u, hu, h | h⟩
    · refine ⟨u, hu, Or.inl ⟨h.1, h.2.1, ?_⟩⟩
      rw [← time_sub_of_fits _ _ ((hfits u hu).1 ⟨h.1, h.2.1⟩)]
      exact h.2.2
    · refine ⟨u, hu, Or.inr ⟨h.1, h.2.1, ?_⟩⟩
      rw [← time_sub_of_fits _ _ ((hfits u hu).2 ⟨h.1, h.2.1⟩)]
      exact h.2.2
  · rintro ⟨u, hu, h | h⟩
    · refine ⟨u, hu, Or.inl ⟨h.1, h.2.1, ?_⟩⟩
      rw [time_sub_of_fits _ _ ((hfits u hu).1 ⟨h.1, h.2.1⟩)]
      exact h.2.2
    · refine ⟨u, hu, Or.inr ⟨h.1, h.2.1, ?_⟩⟩
      rw [time_sub_of_fits _ _ ((hfits u hu).2 ⟨h.1, h.2.1⟩)]
      exact h.2.2

/-- Witness of C12, amended: the offender of the counterexample gets no Cc at time 1000000 and
gets one at time 1500000, when its block grace deadline is less than 7 days ahead. -/
theorem should_cc_set_iff_witness :
    should_cc id 1000000 (sample_offender 2000000 0) (sample_config 604800) = 0 ∧
      should_cc id 1500000 (sample_offender 2000000 0) (sample_config 604800) = 1 :=
  ⟨by decide,
    (should_cc_set_iff id 1500000 (sample_offender 2000000 0) (sample_config 604800)
      (by decide) (by decide)).1.2 ⟨_, List.mem_singleton.2 rfl, Or.inl (by decide)⟩⟩

/-- For a block grace deadline from which the lead time can be subtracted in `time_t`: for every
set lead time `d` and every offender whose single usage entry is at or over its set block soft
limit and not at or over a set inode soft limit, `should_cc` returns 0 when the block grace
deadline is more than `d` after the current time and returns 1 when the deadline is at most `d`
after the current time, or already past. -/
theorem should_cc_lead_time_in_range (toqb : Nat → Nat) (atime d : Int) (offender : offenderlist)
    (config : configparams) (u : usage) (hd : config.cc_before = d) (hset : d ≠ -1)
    (hsingle : offender.usage = [u])
    (hblock : u.dq_dqb.dqb_bsoftlimit ≠ 0 ∧
      u.dq_dqb.dqb_bsoftlimit ≤ toqb u.dq_dqb.dqb_curspace)
    (hinode : ¬ (u.dq_dqb.dqb_isoftlimit ≠ 0 ∧
      u.dq_dqb.dqb_isoftlimit ≤ u.dq_dqb.dqb_curinodes))
    (hfits : time_fits u.dq_dqb.dqb_btime d) :
    (atime + d < u.dq_dqb.dqb_btime → should_cc toqb atime offender config = 0) ∧
      (u.dq_dqb.dqb_btime ≤ atime + d → should_cc toqb atime offender config = 1) := by
  subst hd
  unfold should_cc
  rw [if_neg hset, hsingle]
  simp only [should_cc_loop, time_sub_of_fits _ _ hfits]
  constructor
  · intro hlt
    rw [if_neg (by
      rintro ⟨_, _, h3⟩
      omega)]
    rw [if_neg (fun h => hinode ⟨h.1, h.2.1⟩)]
  · intro hle
    rw [if_pos ⟨hblock.1, hblock.2, by omega⟩]

theorem strchr_from_drop (buf : List Char) (i : Nat) (c : Char) :
    strchr_from buf i c = (strchr_from (buf.drop i) 0 c).map (· + i) := by
  induction buf generalizing i with
  | nil => simp [strchr_from]
  | cons x xs ih =>
    cases i with
    | zero => simp
    | succ j =>
      simp only [strchr_from, List.drop_succ_cons]
      rw [ih j]
      cases strchr_from (List.drop j xs) 0 c with
      | none => rfl
      | some q => simp [Nat.add_assoc]

theorem strchr_from_append (pre s : List Char) (c : Char) :
    strchr_from (pre ++ s) pre.length c = (strchr_from s 0 c).map (· + pre.length) := by
  rw [strchr_from_drop, List.drop_left]

theorem strchr_zero_none (s : List Char) (c : Char) (hnul : NUL ∉ s)
    (h : strchr_from s 0 c = none) : c ∉ s := by
  induction s with
  | nil => simp
  | cons x xs ih =>
    simp only [List.mem_cons, not_or] at hnul
    simp only [strchr_from] at h
    by_cases hx : x = c
    · simp [hx] at h
    · have hx0 : ¬ x = NUL := fun e => hnul.1 e.symm
      simp only [hx, hx0, if_false, Option.map_eq_none'] at h
      simp only [List.mem_cons, not_or]
      exact ⟨fun e => hx e.symm, ih hnul.2 h⟩

theorem strchr_zero_some (s : List Char) (c : Char) (q : Nat)
    (h : strchr_from s 0 c = some q) :
    ∃ b t, s = b ++ c :: t ∧ c ∉ b ∧ NUL ∉ b ∧ q = b.length := by
  induction s generalizing q with
  | nil => simp [strchr_from] at h
  | cons x xs ih =>
    simp only [strchr_from] at h
    by_cases hx : x = c
    · simp only [hx, if_true, Option.some.injEq] at h
      subst h
      exact ⟨[], xs, by simp [hx], by simp, by simp, rfl⟩
    · by_cases hx0 : x = NUL
      · rw [if_neg hx, if_pos hx0] at h
        cases h
      · simp only [hx, hx0, if_false, Option.map_eq_some'] at h
        obtain ⟨j, hj, rfl⟩ := h
        obtain ⟨b, t, h1, h2, h3, h4⟩ := ih j hj
        refine ⟨x :: b, t, by simp [h1], ?_, ?_, by simp [h4]⟩
        · simp only [List.mem_cons, not_or]
          exact ⟨fun e => hx e.symm, h2⟩
        · simp only [List.mem_cons, not_or]
          exact ⟨fun e => hx0 e.symm, h3⟩

theorem getElem?_append_cons (pre : List Char) (x : Char) (t : List Char) :
    (pre ++ x :: t)[pre.length]? = some x := by
  induction pre with
  | nil => simp
  | cons a pre ih => simpa using ih

theorem byte_at_append_cons (pre : List Char) (x : Char) (t : List Char) :
    byte_at (pre ++ x :: t) pre.length = some x := by
  unfold byte_at
  rw [if_pos (by simp), getElem?_append_cons]

theorem byte_at_length (buf : List Char) : byte_at buf buf.length = some NUL := by
  simp [byte_at]

theorem set_append_cons (pre : List Char) (x y : Char) (t : List Char) :
    (pre ++ x :: t).set pre.length y = pre ++ y :: t := by
  induction pre with
  | nil => rfl
  | cons a pre ih => simp [ih]

theorem takeWhile_ne_nul (b : List Char) (hnul : NUL ∉ b) :
    b.takeWhile (fun c => c ≠ NUL) = b := by
  induction b with
  | nil => rfl
  | cons x xs ih =>
    simp only [List.mem_cons, not_or] at hnul
    have hx : decide (x ≠ NUL) = true := decide_eq_true (fun e => hnul.1 e.symm)
    rw [List.takeWhile_cons]
    simp only [hx, if_true]
    rw [ih hnul.2]

theorem takeWhile_ne_nul_append (b t : List Char) (hnul : NUL ∉ b) :
    (b ++ NUL :: t).takeWhile (fun c => c ≠ NUL) = b := by
  induction b with
  | nil => simp [List.takeWhile]
  | cons x xs ih =>
    simp only [List.mem_cons, not_or] at hnul
    have hx : decide (x ≠ NUL) = true := decide_eq_true (fun e => hnul.1 e.symm)
    rw [List.cons_append, List.takeWhile_cons]
    simp only [hx, if_true]
    rw [ih hnul.2]

theorem fputs_from_append (pre s : List Char) (hnul : NUL ∉ s) :
    fputs_from (pre ++ s) pre.length = s := by
  simp only [fputs_from, List.drop_left]
  exact takeWhile_ne_nul s hnul

theorem fputs_from_append_nul (pre b t : List Char) (hnul : NUL ∉ b) :
    fputs_from (pre ++ (b ++ NUL :: t)) pre.length = b := by
  simp only [fputs_from, List.drop_left]
  exact takeWhile_ne_nul_append b t hnul

/-! ## Lemmas on templates -/

theorem format_ok_cons_ne (c : Char) (rest : List Char) (h : ¬ c = '%') :
    format_ok (c :: rest) = format_ok rest := by
  cases rest <;> simp [format_ok, h]

theorem format_ok_percent_cons (x : Char) (rest : List Char) :
    format_ok ('%' :: x :: rest) = (is_format_char x && format_ok rest) := by
  simp [format_ok]

theorem substitute_cons_ne (name hostname domainname : List Char) (c : Char)
    (rest : List Char) (hc : ¬ c = '%') :
    substitute name hostname domainname (c :: rest) =
      c :: substitute name hostname domainname rest := by
  cases rest <;> simp [substitute, hc]

theorem substitute_percent_cons (name hostname domainname : List Char) (x : Char)
    (rest : List Char) :
    substitute name hostname domainname ('%' :: x :: rest) =
      format_subst name hostname domainname x ++ substitute name hostname domainname rest := by
  simp [substitute]

theorem format_ok_of_not_mem (s : List Char) (h : '%' ∉ s) : format_ok s = true := by
  induction s with
  | nil => rfl
  | cons x xs ih =>
    simp only [List.mem_cons, not_or] at h
    have hx : ¬ x = '%' := fun e => h.1 e.symm
    rw [format_ok_cons_ne x xs hx]
    exact ih h.2

theorem format_ok_append (b t : List Char) (h : '%' ∉ b) :
    format_ok (b ++ t) = format_ok t := by
  induction b with
  | nil => rfl
  | cons x xs ih =>
    simp only [List.mem_cons, not_or] at h
    have hx : ¬ x = '%' := fun e => h.1 e.symm
    rw [List.cons_append, format_ok_cons_ne x _ hx]
    exact ih h.2

theorem substitute_of_not_mem (name hostname domainname s : List Char) (h : '%' ∉ s) :
    substitute name hostname domainname s = s := by
  induction s with
  | nil => rfl
  | cons x xs ih =>
    simp only [List.mem_cons, not_or] at h
    have hx : ¬ x = '%' := fun e => h.1 e.symm
    rw [substitute_cons_ne name hostname domainname x xs hx, ih h.2]

theorem substitute_append (name hostname domainname b t : List Char) (h : '%' ∉ b) :
    substitute name hostname domainname (b ++ t) = b ++ substitute name hostname domainname t := by
  induction b with
  | nil => rfl
  | cons x xs ih =>
    simp only [List.mem_cons, not_or] at h
    have hx : ¬ x = '%' := fun e => h.1 e.symm
    rw [List.cons_append, substitute_cons_ne name hostname domainname x _ hx, ih h.2,
      List.cons_append]

theorem is_format_char_ne_nul (x : Char) (h : is_format_char x = true) : x ≠ NUL := by
  intro e
  subst e
  revert h
  decide

theorem is_format_char_nul : is_format_char NUL = false := by decide

theorem verify_format_loop_eq (fuel : Nat) :
    ∀ (pre s : List Char), NUL ∉ s → s.length < fuel →
      verify_format_loop (pre ++ s) fuel (strchr_from (pre ++ s) pre.length '%') =
        some (if format_ok s = true then Except.ok () else Except.error 1) := by
  induction fuel with
  | zero => intro pre s _ h; omega
  | succ f ih =>
    intro pre s hnul hlen
    rw [strchr_from_append]
    cases hq : strchr_from s 0 '%' with
    | none =>
      have hnot := strchr_zero_none s '%' hnul hq
      simp [verify_format_loop, format_ok_of_not_mem s hnot]
    | some q =>
      obtain ⟨b, t, hs, hb, _, hqb⟩ := strchr_zero_some s '%' q hq
      subst hs
      subst hqb
      simp only [Option.map_some', verify_format_loop]
      rw [format_ok_append b _ hb]
      cases t with
      | nil =>
        have hidx : b.length + pre.length + 1 = (pre ++ (b ++ ['%'])).length := by
          simp only [List.length_append, List.length_singleton]; omega
        rw [hidx, byte_at_length]
        simp only [is_format_char_nul]
        simp [format_ok]
      | cons x t2 =>
        have hfmt : pre ++ (b ++ '%' :: x :: t2) = (pre ++ b ++ ['%']) ++ x :: t2 := by simp
        have hidx : b.length + pre.length + 1 = (pre ++ b ++ ['%']).length := by
          simp only [List.length_append, List.length_singleton]; omega
        rw [hfmt, hidx, byte_at_append_cons]
        simp only
        by_cases hx : is_format_char x = true
        · rw [if_pos hx]
          have hfmt2 : (pre ++ b ++ ['%']) ++ x :: t2 = (pre ++ b ++ ['%', x]) ++ t2 := by simp
          have hidx2 : (pre ++ b ++ ['%']).length + 1 = (pre ++ b ++ ['%', x]).length := by
            simp only [List.length_append, List.length_singleton, List.length_cons,
              List.length_nil]
          have hidx3 : b.length + pre.length + 2 = (pre ++ b ++ ['%', x]).length := by
            simp only [List.length_append, List.length_cons, List.length_nil]; omega
          rw [hfmt2, hidx3]
          have hnul2 : NUL ∉ t2 := by
            intro hm
            apply hnul
            simp [hm]
          have hlen2 : t2.length < f := by
            simp only [List.length_append, List.length_cons] at hlen
            omega
          rw [ih (pre ++ b ++ ['%', x]) t2 hnul2 hlen2, format_ok_percent_cons, hx]
          simp
        · rw [if_neg hx, format_ok_percent_cons]
          simp [hx]

theorem verify_format_eq (fmt : List Char) (hnul : NUL ∉ fmt) :
    verify_format fmt = some (if format_ok fmt = true then Except.ok () else Except.error 1) := by
  have h := verify_format_loop_eq (fmt.length + 1) [] fmt hnul (by omega)
  simpa [verify_format] using h

theorem format_print_loop_step (name hostname domainname : List Char) (f : Nat)
    (pre b : List Char) (x : Char) (t2 out : List Char) (hb : NUL ∉ b) :
    format_print_loop name hostname domainname (f + 1) (pre ++ b ++ '%' :: x :: t2) pre.length
        (some (pre ++ b).length) out =
      format_print_loop name hostname domainname f (pre ++ b ++ '%' :: x :: t2)
        ((pre ++ b).length + 2)
        (strchr_from (pre ++ b ++ '%' :: x :: t2) ((pre ++ b).length + 2) '%')
        (out ++ b ++ format_subst name hostname domainname x) := by
  have hset1 : (pre ++ b ++ '%' :: x :: t2).set (pre ++ b).length NUL =
      pre ++ b ++ NUL :: x :: t2 := set_append_cons (pre ++ b) '%' NUL (x :: t2)
  have hset2 : (pre ++ b ++ NUL :: x :: t2).set (pre ++ b).length '%' =
      pre ++ b ++ '%' :: x :: t2 := set_append_cons (pre ++ b) NUL '%' (x :: t2)
  have hput : fputs_from (pre ++ b ++ NUL :: x :: t2) pre.length = b := by
    rw [List.append_assoc]
    exact fputs_from_append_nul pre b (x :: t2) hb
  have hbyte : byte_at (pre ++ b ++ '%' :: x :: t2) ((pre ++ b).length + 1) = some x := by
    have h1 : pre ++ b ++ '%' :: x :: t2 = (pre ++ b ++ ['%']) ++ x :: t2 := by simp
    have h2 : (pre ++ b).length + 1 = (pre ++ b ++ ['%']).length := by
      simp only [List.length_append, List.length_singleton]
    rw [h1, h2, byte_at_append_cons]
  have hlen : (pre ++ b).length + 2 ≤ (pre ++ b ++ '%' :: x :: t2).length := by
    simp only [List.length_append, List.length_cons]
    omega
  simp only [format_print_loop, hset1, hset2, hput, hbyte, if_pos hlen]

theorem format_print_loop_eq (name hostname domainname : List Char) (fuel : Nat) :
    ∀ (pre s out : List Char), NUL ∉ s → format_ok s = true → s.length < fuel →
      format_print_loop name hostname domainname fuel (pre ++ s) pre.length
          (strchr_from (pre ++ s) pre.length '%') out =
        some (out ++ substitute name hostname domainname s, pre ++ s) := by
  induction fuel with
  | zero => intro pre s out _ _ h; omega
  | succ f ih =>
    intro pre s out hnul hok hlen
    rw [strchr_from_append]
    cases hq : strchr_from s 0 '%' with
    | none =>
      have hnot := strchr_zero_none s '%' hnul hq
      simp only [Option.map_none', format_print_loop]
      rw [fputs_from_append pre s hnul, substitute_of_not_mem name hostname domainname s hnot]
    | some q =>
      obtain ⟨b, t, hs, hb, hbnul, hqb⟩ := strchr_zero_some s '%' q hq
      subst hs
      subst hqb
      rw [format_ok_append b _ hb] at hok
      cases t with
      | nil => simp [format_ok] at hok
      | cons x t2 =>
        rw [format_ok_percent_cons, Bool.and_eq_true] at hok
        have hidx : b.length + pre.length = (pre ++ b).length := by
          simp only [List.length_append]; omega
        have hfmt : pre ++ (b ++ '%' :: x :: t2) = pre ++ b ++ '%' :: x :: t2 := by simp
        simp only [Option.map_some']
        rw [hidx, hfmt, format_print_loop_step name hostname domainname f pre b x t2 out hbnul]
        have hfmt2 : pre ++ b ++ '%' :: x :: t2 = (pre ++ b ++ ['%', x]) ++ t2 := by simp
        have hidx2 : (pre ++ b).length + 2 = (pre ++ b ++ ['%', x]).length := by
          simp only [List.length_append, List.length_cons, List.length_nil]
        have hnul2 : NUL ∉ t2 := by
          intro hm
          apply hnul
          simp [hm]
        have hlen2 : t2.length < f := by
          simp only [List.length_append, List.length_cons] at hlen
          omega
        rw [hfmt2, hidx2, ih (pre ++ b ++ ['%', x]) t2 _ hnul2 hok.2 hlen2,
          substitute_append name hostname domainname b _ hb, substitute_percent_cons]
        simp

theorem format_print_eq (name hostname domainname fmt : List Char) (hnul : NUL ∉ fmt)
    (hok : format_ok fmt = true) :
    format_print hostname domainname fmt name =
      some (substitute name hostname domainname fmt, fmt) := by
  have h := format_print_loop_eq name hostname domainname (fmt.length + 1) [] fmt [] hnul hok
    (by omega)
  simpa [format_print] using h

/-! ## Templates: the claims -/

/-- C15: for every template accepted by `verify_format` and every name, host name and domain
name, `format_print` writes the template with each `%s` and each `%i` replaced by the name, each
`%h` by the host name, each `%d` by the domain name and each `%%` by a single `%`, every other
character copied unchanged and in order (the text `substitute` gives), and it returns with the
template as it was. -/
theorem format_print_substitutes (name hostname domainname fmt : List Char) (hnul : NUL ∉ fmt)
    (haccepted : verify_format fmt = some (Except.ok ())) :
    format_print hostname domainname fmt name =
      some (substitute name hostname domainname fmt, fmt) := by
  have hok : format_ok fmt = true := by
    rw [verify_format_eq fmt hnul] at haccepted
    by_cases h : format_ok fmt = true
    · exact h
    · rw [if_neg h] at haccepted
      cases haccepted
  exact format_print_eq name hostname domainname fmt hnul hok

/-- Witness of C15: the template of the specification with alice, srv1 and example.com. -/
theorem format_print_substitutes_witness :
    format_print "srv1".data "example.com".data
        "Hi %s, host %h, domain %d, literal %%".data "alice".data =
      some (substitute "alice".data "srv1".data "example.com".data
          "Hi %s, host %h, domain %d, literal %%".data,
        "Hi %s, host %h, domain %d, literal %%".data) ∧
    substitute "alice".data "srv1".data "example.com".data
        "Hi %s, host %h, domain %d, literal %%".data =
      "Hi alice, host srv1, domain example.com, literal %".data :=
  ⟨format_print_substitutes "alice".data "srv1".data "example.com".data
      "Hi %s, host %h, domain %d, literal %%".data (by decide) rfl,
    by decide⟩

theorem mem_stripstring (s : List Char) (c : Char) (h : c ∈ stripstring s) : c ∈ s :=
  ( List.rdropWhile_prefix is_strip_char s).subset
    ((List.dropWhile_suffix is_strip_char).subset h)

theorem nul_not_mem_create_eoln (s : List Char) (h : NUL ∉ s) : NUL ∉ create_eoln s := by
  intro hm
  simp only [create_eoln, List.mem_map] at hm
  obtain ⟨c, hc, he⟩ := hm
  by_cases hbar : c = '|'
  · rw [if_pos hbar] at he
    revert he
    decide
  · rw [if_neg hbar] at he
    exact h (he ▸ hc)

theorem load_template_eq (value : List Char) (hnul : NUL ∉ value) :
    load_template value =
      some (if format_ok (create_eoln value) = true then
        Except.ok (String.mk (create_eoln value)) else Except.error 1) := by
  unfold load_template
  rw [verify_format_eq _ (nul_not_mem_create_eoln value hnul)]
  by_cases h : format_ok (create_eoln value) = true
  · simp [h]
  · simp [h]

/-- C16: `verify_format` accepts a template if and only if, in its left-to-right scan that
resumes two characters after each `%`, every `%` met is immediately followed by `s`, `i`, `h`,
`d` or `%` (`format_ok`), and otherwise dies with status 1, the end of the string after a `%`
included; and `readconfigfile` dies on a line whose key is `MESSAGE`, `SIGNATURE`,
`GROUP_MESSAGE` or `GROUP_SIGNATURE` exactly when the value, stripped and with `|` expanded, is
not accepted, while an accepted value is stored. -/
theorem verify_format_accepts_iff (fmt : List Char) (hnul : NUL ∉ fmt) :
    (verify_format fmt = some (Except.ok ()) ↔ format_ok fmt = true) ∧
      (verify_format fmt = some (Except.error 1) ↔ format_ok fmt = false) ∧
      (∀ (sscanf_d_s : List Char → Option (Int × List Char))
          (str2timeunits : Int → List Char → Option Int) (config : configparams)
          (maildev : String) (pre value : List Char),
        NUL ∉ value →
          strchr_from (pre ++ '=' :: value) 0 '=' = some pre.length →
          (stripstring pre = "MESSAGE".data ∨ stripstring pre = "SIGNATURE".data ∨
            stripstring pre = "GROUP_MESSAGE".data ∨
            stripstring pre = "GROUP_SIGNATURE".data) →
          (config_line sscanf_d_s str2timeunits config maildev (pre ++ '=' :: value) =
              some (Except.error 1) ↔
            format_ok (create_eoln (stripstring value)) = false) ∧
          (format_ok (create_eoln (stripstring value)) = true →
            ∃ config1,
              config_line sscanf_d_s str2timeunits config maildev (pre ++ '=' :: value) =
                some (Except.ok (config1, maildev)))) := by
  refine ⟨?_, ?_, ?_⟩
  · rw [verify_format_eq fmt hnul]
    by_cases h : format_ok fmt = true
    · simp [h]
    · simp [h]
  · rw [verify_format_eq fmt hnul]
    by_cases h : format_ok fmt = true
    · simp [h]
    · simp [h]
  · intro sscanf_d_s str2timeunits config maildev pre value hnulv hpos hkey
    have hnul2 : NUL ∉ stripstring value := fun hm => hnulv (mem_stripstring value NUL hm)
    have hload := load_template_eq (stripstring value) hnul2
    have htake : List.take pre.length (pre ++ '=' :: value) = pre := by simp
    have hdrop : List.drop (pre.length + 1) (pre ++ '=' :: value) = value := by
      rw [← List.drop_drop, List.drop_left]
      rfl
    unfold config_line
    rw [hpos]
    simp only [htake, hdrop, hload]
    by_cases hok : format_ok (create_eoln (stripstring value)) = true
    · rcases hkey with hk | hk | hk | hk <;> rw [hk] <;> simp [hok]
    · rcases hkey with hk | hk | hk | hk <;> rw [hk] <;> simp [hok]

/-- Witness of C16: `%q` is rejected, also when it is the value of a `MESSAGE` line; a `%` at the
end of the string is rejected; `%s` followed by `%%` is accepted. -/
theorem verify_format_accepts_iff_witness :
    verify_format "Hello %q".data = some (Except.error 1) ∧
      verify_format "Hello %".data = some (Except.error 1) ∧
      verify_format "Hello %s%%".data = some (Except.ok ()) ∧
      config_line sample_sscanf sample_str2timeunits readconfigfile_defaults.1 ""
        ("MESSAGE ".data ++ '=' :: " Hello %q".data) = some (Except.error 1) :=
  ⟨(verify_format_accepts_iff "Hello %q".data (by decide)).2.1.2 (by decide),
    rfl, rfl, rfl⟩

/-! ## Configuration file: the claims -/

theorem config_line_cc_before (sscanf_d_s : List Char → Option (Int × List Char))
    (str2timeunits : Int → List Char → Option Int) (config config1 : configparams)
    (maildev maildev1 : String) (buff : List Char)
    (hkey : ∀ pos, strchr_from buff 0 '=' = some pos →
      stripstring (buff.take pos) ≠ "CC_BEFORE".data)
    (h : config_line sscanf_d_s str2timeunits config maildev buff =
      some (Except.ok (config1, maildev1))) :
    config1.cc_before = config.cc_before := by
  have key : match config_line sscanf_d_s str2timeunits config maildev buff with
      | some (Except.ok (c, _)) => c.cc_before = config.cc_before
      | _ => True := by
    unfold config_line
    cases hq : strchr_from buff 0 '=' with
    | none => rfl
    | some pos =>
      have hk := hkey pos hq
      dsimp only
      generalize stripstring (buff.take pos) = var at hk ⊢
      generalize stripstring (buff.drop (pos + 1)) = value
      generalize load_template value = lt
      by_cases h0 : var = ['M', 'A', 'I', 'L', '_', 'C', 'M', 'D']
      · rw [if_pos h0]
      rw [if_neg h0]
      by_cases h1 : var = ['F', 'R', 'O', 'M']
      · rw [if_pos h1]
      rw [if_neg h1]
      by_cases h2 : var = ['S', 'U', 'B', 'J', 'E', 'C', 'T']
      · rw [if_pos h2]
      rw [if_neg h2]
      by_cases h3 : var = ['C', 'C', '_', 'T', 'O']
      · rw [if_pos h3]
      rw [if_neg h3]
      by_cases h4 : var = ['S', 'U', 'P', 'P', 'O', 'R', 'T']
      · rw [if_pos h4]
      rw [if_neg h4]
      by_cases h5 : var = ['P', 'H', 'O', 'N', 'E']
      · rw [if_pos h5]
      rw [if_neg h5]
      by_cases h6 : var = ['C', 'H', 'A', 'R', 'S', 'E', 'T']
      · rw [if_pos h6]
      rw [if_neg h6]
      by_cases h7 : var = ['M', 'A', 'I', 'L', 'D', 'E', 'V']
      · rw [if_pos h7]
      rw [if_neg h7]
      by_cases h8 : var = ['M', 'E', 'S', 'S', 'A', 'G', 'E']
      · rw [if_pos h8]
        rcases lt with _ | (_ | _) <;> trivial
      rw [if_neg h8]
      by_cases h9 : var = ['S', 'I', 'G', 'N', 'A', 'T', 'U', 'R', 'E']
      · rw [if_pos h9]
        rcases lt with _ | (_ | _) <;> trivial
      rw [if_neg h9]
      by_cases h10 : var = ['G', 'R', 'O', 'U', 'P', '_', 'M', 'E', 'S', 'S', 'A', 'G', 'E']
      · rw [if_pos h10]
        rcases lt with _ | (_ | _) <;> trivial
      rw [if_neg h10]
      by_cases h11 : var = ['G', 'R', 'O', 'U', 'P', '_', 'S', 'I', 'G', 'N', 'A', 'T', 'U', 'R', 'E']
      · rw [if_pos h11]
        rcases lt with _ | (_ | _) <;> trivial
      rw [if_neg h11]
      by_cases h12 : var = ['L', 'D', 'A', 'P', '_', 'M', 'A', 'I', 'L']
      · rw [if_pos h12]
        by_cases hl : strcasecmp (String.mk value) "true" = 0
        · rw [if_pos hl]
        · rw [if_neg hl]
      rw [if_neg h12]
      by_cases h13 : var = ['C', 'C', '_', 'B', 'E', 'F', 'O', 'R', 'E']
      · exact absurd h13 hk
      rw [if_neg h13]
  rw [h] at key
  exact key

/-- C13: when `cc_before` is the unset sentinel -1, `should_cc` returns 1 for every offender, one
without usage entries included, and for every current time; -1 is the value `readconfigfile`
starts from, and a configuration line whose key is not `CC_BEFORE` leaves `cc_before` as it
is. -/
theorem should_cc_unset (toqb : Nat → Nat) (atime : Int) (offender : offenderlist)
    (config : configparams) (hunset : config.cc_before = -1) :
    should_cc toqb atime offender config = 1 ∧
      readconfigfile_defaults.1.cc_before = -1 ∧
      (∀ (sscanf_d_s : List Char → Option (Int × List Char))
          (str2timeunits : Int → List Char → Option Int) (config1 : configparams)
          (maildev maildev1 : String) (buff : List Char),
        (∀ pos, strchr_from buff 0 '=' = some pos →
          stripstring (buff.take pos) ≠ "CC_BEFORE".data) →
        config_line sscanf_d_s str2timeunits config maildev buff =
          some (Except.ok (config1, maildev1)) →
        config1.cc_before = -1) := by
  refine ⟨?_, rfl, ?_⟩
  · unfold should_cc
    rw [if_pos hunset]
  · intro sscanf_d_s str2timeunits config1 maildev maildev1 buff hkey h
    rw [config_line_cc_before sscanf_d_s str2timeunits config config1 maildev maildev1 buff
      hkey h]
    exact hunset

/-- Witness of C13: with the configuration `readconfigfile` starts from, an offender without any
usage entry gets a Cc. -/
theorem should_cc_unset_witness :
    should_cc id 0
        { offender_type := 0, offender_id := 1000, offender_name := "alice", usage := [] }
        readconfigfile_defaults.1 = 1 :=
  (should_cc_unset id 0
    { offender_type := 0, offender_id := 1000, offender_name := "alice", usage := [] }
    readconfigfile_defaults.1 rfl).1

/-- C20: for every string, `stripstring` yields the string left between a prefix and a suffix
made only of white space, double quotes and single quotes, and these are the longest such prefix
and suffix: what is left starts and ends with a character that is none of these, or is empty,
which it is when the string has no other character.  Hence the configuration line
`FROM = "a@b.com"` followed by white space sets `from` to `a@b.com`. -/
theorem stripstring_spec (s : List Char) :
    (∃ pre suf, s = pre ++ stripstring s ++ suf ∧ (∀ c ∈ pre, is_strip_char c = true) ∧
        (∀ c ∈ suf, is_strip_char c = true)) ∧
      (∀ c, (stripstring s).head? = some c → is_strip_char c = false) ∧
      (∀ c, (stripstring s).getLast? = some c → is_strip_char c = false) ∧
      ((∀ c ∈ s, is_strip_char c = true) → stripstring s = []) ∧
      (∀ (sscanf_d_s : List Char → Option (Int × List Char))
          (str2timeunits : Int → List Char → Option Int) (config : configparams)
          (maildev : String),
        config_line sscanf_d_s str2timeunits config maildev
            "FROM = \"a@b.com\" \t ".data =
          some (Except.ok ({ config with from_addr := "a@b.com" }, maildev))) := by
  refine ⟨?_, ?_, ?_, ?_, ?_⟩
  · refine ⟨(s.rdropWhile is_strip_char).takeWhile is_strip_char,
      (s.reverse.takeWhile is_strip_char).reverse, ?_, ?_, ?_⟩
    · unfold stripstring
      rw [List.takeWhile_append_dropWhile]
      unfold List.rdropWhile
      rw [← List.reverse_append, List.takeWhile_append_dropWhile, List.reverse_reverse]
    · intro c hc
      exact List.mem_takeWhile_imp hc
    · intro c hc
      exact List.mem_takeWhile_imp (List.mem_reverse.1 hc)
  · intro c hc
    have h := List.head?_dropWhile_not is_strip_char (s.rdropWhile is_strip_char)
    unfold stripstring at hc
    rw [hc] at h
    exact h
  · intro c hc
    have hne : stripstring s ≠ [] := by
      intro he
      rw [he] at hc
      cases hc
    have hsuf : stripstring s <:+ s.rdropWhile is_strip_char :=
      List.dropWhile_suffix is_strip_char
    have hne2 : s.rdropWhile is_strip_char ≠ [] := by
      intro he
      rw [he] at hsuf
      exact hne (List.eq_nil_of_suffix_nil hsuf)
    have hlast := List.rdropWhile_last_not is_strip_char s hne2
    rw [← hsuf.getLast hne] at hlast
    rw [List.getLast?_eq_getLast _ hne] at hc
    cases hc
    simpa using hlast
  · intro hall
    unfold stripstring
    rw [(List.rdropWhile_eq_nil_iff (p := is_strip_char)).2 hall]
    rfl
  · intro sscanf_d_s str2timeunits config maildev
    rfl

/-- Witness of C20: a value between quotes and white space, and a value made of quotes and white
space only. -/
theorem stripstring_spec_witness :
    stripstring " \"a@b.com\" \t ".data = "a@b.com".data ∧ stripstring " \" \t".data = [] :=
  ⟨by decide, (stripstring_spec " \" \t".data).2.2.2.1 (by decide)⟩

/-! ## Positional arguments: the claim -/

/-- C19, evaluated at the failing input: with the user flag, the argument `3x`, which `strtoul`
converts to 3 leaving `x` unparsed, is not skipped: the path of export 3 is looked up, its quota
context is built and its user table is scanned, so that user 1000 is filed for export 3.  The
`continue` of the check is under `if (!*errch)` and is never reached. -/
theorem warn_quota_scan_unparsed_argument_not_skipped :
    sample_env_strtoul.strtoul "3x" = (3, "x") ∧
      warn_quota_scan sample_env_strtoul "" FL_USER sample_state ["3x"] =
        Except.ok
          { offenders :=
              [{ offender_type := 0, offender_id := 1000, offender_name := "alice",
                 usage := [{ devicename := "eid_3", dq_dqb := sample_quota }] }]
            maildev_handle := none, admins := (), checked := 1 } := by
  exact ⟨rfl, rfl⟩

/-! ## Mail composition and dispatch: the claims -/

/-- C17, evaluated at the failing input: for the user offender alice (recipient resolved to
`alice`) and for the group offender staff (recipient resolved to its administrator
`root@example.com`), the header `mail_user` writes says `To: john.doe@example.com`, the
compiled-in `CC_TO`: the resolved recipient is never written. -/
theorem mail_user_to_header_is_cc_to :
    mail_recipient sample_admins (sample_offender 2000000 0) = some "alice" ∧
      mail_header sample_mail_env 0 (sample_offender 2000000 0) (sample_config 604800) =
        "From: support@localhost\nReply-To: support@localhost\n" ++
        "Subject: Disk Quota usage on system\nTo: john.doe@example.com\n\n" ∧
      mail_recipient sample_admins
          { offender_type := 1, offender_id := 50, offender_name := "staff", usage := [] } =
        some "root@example.com" ∧
      mail_header sample_mail_env 0
          { offender_type := 1, offender_id := 50, offender_name := "staff", usage := [] }
          (sample_config 604800) =
        "From: support@localhost\nReply-To: support@localhost\n" ++
        "Subject: Disk Quota usage on system\nTo: john.doe@example.com\n\n" ∧
      (mail_user sample_mail_env 0 [] sample_admins "srv1" "example.com" 0
          (sample_offender 2000000 0) (sample_config 604800)).map (fun r => r.1) =
        some
          { ret := 0
            sent := some ("/usr/lib/sendmail -t",
              "From: support@localhost\nReply-To: support@localhost\n" ++
              "Subject: Disk Quota usage on system\nTo: john.doe@example.com\n\n" ++
              DEF_USER_MESSAGE ++
              mail_details sample_mail_env 0 [] (sample_offender 2000000 0) ++
              DEF_USER_SIGNATURE "support@localhost" PHONE) } := by
  refine ⟨?_, ?_, ?_, ?_, ?_⟩
  · decide
  · decide
  · decide
  · decide
  · rfl

theorem print_template_verified (hostname domainname template name : String)
    (hnul : NUL ∉ template.data) (hok : format_ok template.data = true) :
    print_template hostname domainname template name =
      some (String.mk (substitute name.data hostname.data domainname.data template.data),
        template) := by
  unfold print_template
  rw [format_print_eq name.data hostname.data domainname.data template.data hnul hok]

theorem mail_message_verified (hostname domainname : String) (offender : offenderlist)
    (config : configparams) (hver : templates_verified config) :
    ∃ out, mail_message hostname domainname offender config = some (out, config) := by
  unfold mail_message
  split
  · cases hm : config.user_message with
    | none => exact ⟨_, rfl⟩
    | some t =>
      obtain ⟨hnul, hok⟩ := hver t (Or.inl hm)
      simp only [print_template_verified hostname domainname t offender.offender_name hnul hok]
      refine ⟨String.mk (substitute offender.offender_name.data hostname.data domainname.data
        t.data), ?_⟩
      rw [← hm]
  · cases hm : config.group_message with
    | none => exact ⟨_, rfl⟩
    | some t =>
      obtain ⟨hnul, hok⟩ := hver t (Or.inr (Or.inr (Or.inl hm)))
      simp only [print_template_verified hostname domainname t offender.offender_name hnul hok]
      refine ⟨String.mk (substitute offender.offender_name.data hostname.data domainname.data
        t.data), ?_⟩
      rw [← hm]

theorem mail_signature_verified (hostname domainname : String) (offender : offenderlist)
    (config : configparams) (hver : templates_verified config) :
    ∃ out, mail_signature hostname domainname offender config = some (out, config) := by
  unfold mail_signature
  split
  · cases hm : config.user_signature with
    | none => exact ⟨_, rfl⟩
    | some t =>
      obtain ⟨hnul, hok⟩ := hver t (Or.inr (Or.inl hm))
      simp only [print_template_verified hostname domainname t offender.offender_name hnul hok]
      refine ⟨String.mk (substitute offender.offender_name.data hostname.data domainname.data
        t.data), ?_⟩
      rw [← hm]
  · cases hm : config.group_signature with
    | none => exact ⟨_, rfl⟩
    | some t =>
      obtain ⟨hnul, hok⟩ := hver t (Or.inr (Or.inr (Or.inr hm)))
      simp only [print_template_verified hostname domainname t offender.offender_name hnul hok]
      refine ⟨String.mk (substitute offender.offender_name.data hostname.data domainname.data
        t.data), ?_⟩
      rw [← hm]

theorem mail_user_verified (env : mail_collab) (flags : Nat) (quotatable : List quotatable_t)
    (admins : List adminstable) (hostname domainname : String) (call : Nat)
    (offender : offenderlist) (config : configparams) (hver : templates_verified config) :
    ∃ r, mail_user env flags quotatable admins hostname domainname call offender config =
        some (r, config) ∧
      (r.ret = -1 ↔
        (mail_recipient admins offender = none ∨ env.run_mailer call config.mail_cmd = false)) ∧
      (r.ret = 0 ∨ r.ret = -1) := by
  unfold mail_user
  cases hto : mail_recipient admins offender with
  | none =>
    exact ⟨{ ret := -1, sent := none }, rfl, ⟨fun _ => Or.inl rfl, fun _ => rfl⟩, Or.inr rfl⟩
  | some rcpt =>
    dsimp only
    cases hrun : env.run_mailer call config.mail_cmd with
    | false =>
      rw [if_pos rfl]
      exact ⟨{ ret := -1, sent := none }, rfl, ⟨fun _ => Or.inr rfl, fun _ => rfl⟩, Or.inr rfl⟩
    | true =>
      obtain ⟨message, hmsg⟩ := mail_message_verified hostname domainname offender config hver
      obtain ⟨signature, hsig⟩ :=
        mail_signature_verified hostname domainname offender config hver
      rw [if_neg (by decide), hmsg]
      dsimp only
      rw [hsig]
      refine ⟨{ ret := 0
                sent := some (config.mail_cmd,
                  mail_header env call offender config ++ message ++
                    mail_details env flags quotatable offender ++ signature) }, rfl, ?_,
        Or.inl rfl⟩
      constructor
      · intro h
        exact absurd (show (0 : Int) = -1 from h) (by decide)
      · rintro (h | h)
        · cases h
        · cases h

theorem lor_zero_or_minus_one (a b : Int) (ha : a = 0 ∨ a = -1) (hb : b = 0 ∨ b = -1) :
    (int_or a b = 0 ∨ int_or a b = -1) ∧ (int_or a b < 0 ↔ a = -1 ∨ b = -1) := by
  rcases ha with rfl | rfl <;> rcases hb with rfl | rfl <;> decide

theorem mail_to_offenders_loop_spec (env : mail_collab) (flags : Nat)
    (quotatable : List quotatable_t) (admins : List adminstable) (hostname domainname : String)
    (config : configparams) (hver : templates_verified config) (offs : List offenderlist) :
    ∀ (call : Nat) (ret0 : Int) (log0 : List (offenderlist × mail_result)),
      (ret0 = 0 ∨ ret0 = -1) →
      ∃ ret entries,
        mail_to_offenders_loop env flags quotatable admins hostname domainname call offs config
            ret0 log0 = some (ret, log0 ++ entries) ∧
          entries.map Prod.fst = offs ∧
          (∀ i o, offs[i]? = some o → ∃ r, entries[i]? = some (o, r) ∧
            mail_user env flags quotatable admins hostname domainname (call + i) o config =
              some (r, config)) ∧
          (ret = 0 ∨ ret = -1) ∧
          (ret < 0 ↔ ret0 = -1 ∨ ∃ e ∈ entries, e.2.ret = -1) := by
  induction offs with
  | nil =>
    intro call ret0 log0 hret0
    refine ⟨ret0, [], by simp [mail_to_offenders_loop], rfl, ?_, hret0, ?_⟩
    · intro i o h
      simp at h
    · rcases hret0 with rfl | rfl <;> simp
  | cons o rest ih =>
    intro call ret0 log0 hret0
    obtain ⟨r, hr, _, hr01⟩ :=
      mail_user_verified env flags quotatable admins hostname domainname call o config hver
    obtain ⟨hlor01, hlorneg⟩ := lor_zero_or_minus_one ret0 r.ret hret0 hr01
    obtain ⟨ret, entries, hloop, hmap, hidx, hret01, hneg⟩ :=
      ih (call + 1) (int_or ret0 r.ret) (log0 ++ [(o, r)]) hlor01
    refine ⟨ret, (o, r) :: entries, ?_, ?_, ?_, hret01, ?_⟩
    · rw [mail_to_offenders_loop, hr]
      dsimp only
      rw [hloop, List.append_assoc]
      rfl
    · simp [hmap]
    · intro i o1 h
      cases i with
      | zero =>
        simp only [List.getElem?_cons_zero, Option.some.injEq] at h
        subst h
        exact ⟨r, by simp, hr⟩
      | succ j =>
        simp only [List.getElem?_cons_succ] at h
        obtain ⟨r1, h1, h2⟩ := hidx j o1 h
        refine ⟨r1, by simpa using h1, ?_⟩
        rw [← h2]
        congr 1
        omega
    · rw [hneg]
      have hlt : int_or ret0 r.ret = -1 ↔ ret0 = -1 ∨ r.ret = -1 := by
        rw [← hlorneg]
        rcases hlor01 with h | h <;> rw [h] <;> decide
      rw [hlt]
      constructor
      · rintro ((h | h) | ⟨e, he, h⟩)
        · exact Or.inl h
        · exact Or.inr ⟨(o, r), List.mem_cons_self _ _, h⟩
        · exact Or.inr ⟨e, List.mem_cons_of_mem _ he, h⟩
      · rintro (h | ⟨e, he, h⟩)
        · exact Or.inl (Or.inl h)
        · rcases List.mem_cons.1 he with he | he
          · subst he
            exact Or.inl (Or.inr h)
          · exact Or.inr ⟨e, he, h⟩

/-- C18: with templates that `verify_format` accepted, `mail_to_offenders` returns, having
called `mail_user` exactly once for every offender of the registry, in list order, whatever the
earlier results; each call returns 0 or -1, and -1 exactly when the group has no administrator
in the table or `run_mailer` gives no stream; the value returned is negative if and only if at
least one call returned -1, and `warn_quota` then exits with status 1, and ends normally
otherwise. -/
theorem mail_to_offenders_spec (env : mail_collab) (flags : Nat)
    (quotatable : List quotatable_t) (admins : List adminstable) (hostname domainname : String)
    (offenders : List offenderlist) (config : configparams)
    (hver : templates_verified config) :
    ∃ ret log,
      mail_to_offenders env flags quotatable admins hostname domainname offenders config =
          some (ret, log) ∧
        log.map Prod.fst = offenders ∧
        (∀ i o, offenders[i]? = some o → ∃ r, log[i]? = some (o, r) ∧
          mail_user env flags quotatable admins hostname domainname i o config =
            some (r, config) ∧
          (r.ret = -1 ↔
            (mail_recipient admins o = none ∨ env.run_mailer i config.mail_cmd = false)) ∧
          (r.ret = 0 ∨ r.ret = -1)) ∧
        (ret < 0 ↔ ∃ e ∈ log, e.2.ret = -1) ∧
        warn_quota_dispatch env flags quotatable admins hostname domainname offenders config =
          some (if ∃ e ∈ log, e.2.ret = -1 then Except.error 1 else Except.ok log) := by
  obtain ⟨ret, entries, hloop, hmap, hidx, _, hneg⟩ :=
    mail_to_offenders_loop_spec env flags quotatable admins hostname domainname config hver
      offenders 0 0 [] (Or.inl rfl)
  have hrun : mail_to_offenders env flags quotatable admins hostname domainname offenders
      config = some (ret, entries) := by
    unfold mail_to_offenders
    rw [hloop]
    simp
  have hneg1 : ret < 0 ↔ ∃ e ∈ entries, e.2.ret = -1 := by
    rw [hneg]
    simp
  refine ⟨ret, entries, hrun, hmap, ?_, hneg1, ?_⟩
  · intro i o h
    obtain ⟨r, h1, h2⟩ := hidx i o h
    rw [Nat.zero_add] at h2
    obtain ⟨r1, h3, h4, h5⟩ :=
      mail_user_verified env flags quotatable admins hostname domainname i o config hver
    rw [h2] at h3
    cases h3
    exact ⟨r, h1, h2, h4, h5⟩
  · unfold warn_quota_dispatch
    rw [hrun]
    by_cases hc : ret < 0
    · simp only [if_pos hc, if_pos (hneg1.1 hc)]
    · simp only [if_neg hc, if_neg (fun h => hc (hneg1.2 h))]

/-- Witness of C18: alice is mailed, the group wheel has no administrator, and the mailer does
not start for the group staff: three calls, results 0, -1, -1, and `warn_quota` exits with
status 1. -/
theorem mail_to_offenders_spec_witness :
    (mail_to_offenders sample_mail_env 0 [] sample_admins "srv1" "example.com"
        [sample_offender 2000000 0,
         { offender_type := 1, offender_id := 50, offender_name := "wheel", usage := [] },
         { offender_type := 1, offender_id := 51, offender_name := "staff", usage := [] }]
        (sample_config 604800)).map (fun p => (p.1, p.2.map (fun e => e.2.ret))) =
      some (-1, [0, -1, -1]) ∧
    (∃ ret log,
      mail_to_offenders sample_mail_env 0 [] sample_admins "srv1" "example.com"
          [sample_offender 2000000 0,
           { offender_type := 1, offender_id := 50, offender_name := "wheel", usage := [] },
           { offender_type := 1, offender_id := 51, offender_name := "staff", usage := [] }]
          (sample_config 604800) = some (ret, log) ∧
        log.map Prod.fst =
          [sample_offender 2000000 0,
           { offender_type := 1, offender_id := 50, offender_name := "wheel", usage := [] },
           { offender_type := 1, offender_id := 51, offender_name := "staff", usage := [] }]) :=
  ⟨by rfl,
    (mail_to_offenders_spec sample_mail_env 0 [] sample_admins "srv1" "example.com"
      [sample_offender 2000000 0,
       { offender_type := 1, offender_id := 50, offender_name := "wheel", usage := [] },
       { offender_type := 1, offender_id := 51, offender_name := "staff", usage := [] }]
      (sample_config 604800)
      (fun t h => by rcases h with h | h | h | h <;> cases h)).elim
      (fun ret h => h.elim (fun log h => ⟨ret, log, h.1, h.2.1⟩))⟩

/-! ## Dropped records and request names -/

/-- C26: when the account of the record is not in the registry (the search loop finds no
offender with the record's type and id), no display name is supplied and the name lookup
`id2name`, which `add_offender` calls with its `int` parameters, fails, `add_offender` creates
nothing and `add_offence` returns the registry exactly as it was. -/
theorem add_offence_lookup_failure_drops (id2name : Int → Int → Option String)
    (reg : List offenderlist) (d : rozofs_dquot_t)
    (hnew : dquot_key d ∉ reg.map offender_key)
    (hfail : id2name (to_int d.key.qid) (to_int d.key.type) = none) :
    add_offender id2name reg (to_int d.key.type) (to_int d.key.qid) none = none ∧
      add_offence id2name reg d none = reg := by
  have hf : find_offender reg d = none := (find_offender_eq_none_iff reg d).2 hnew
  exact ⟨by simp [add_offender, hfail], add_offence_of_dropped id2name reg d hf hfail⟩

/-- Witness of C26: a record of group 50, which nobody can name, in a registry that holds user
1000 only. -/
theorem add_offence_lookup_failure_drops_witness :
    add_offender sample_id2name [sample_offender 0 0] 1 50 none = none ∧
      add_offence sample_id2name [sample_offender 0 0] (sample_dquot 3 1 50) none
        = [sample_offender 0 0] :=
  add_offence_lookup_failure_drops sample_id2name [sample_offender 0 0] (sample_dquot 3 1 50)
    (by decide) rfl

theorem sample_request_value_injective : Function.Injective sample_request_value := by
  intro a b h
  cases a <;> cases b <;> first | rfl | (exact absurd h (by decide))

open storio_disk_thread_request_e in
/-- C27: with the enum constants numbered by pairwise distinct values,
`storio_disk_thread_request_e2String` returns for each of the ten constants the string of its case
label, two different constants give two different strings, and the result is `"??"` exactly when
the input is the value of none of the constants. -/
theorem storio_disk_thread_request_e2String_spec (value : storio_disk_thread_request_e → Int)
    (hinj : Function.Injective value) :
    (storio_disk_thread_request_e2String value (value STORIO_DISK_THREAD_READ) = "READ"
      ∧ storio_disk_thread_request_e2String value (value STORIO_DISK_THREAD_RESIZE) = "RESIZE"
      ∧ storio_disk_thread_request_e2String value (value STORIO_DISK_THREAD_WRITE) = "WRITE"
      ∧ storio_disk_thread_request_e2String value (value STORIO_DISK_THREAD_TRUNCATE) = "TRUNCATE"
      ∧ storio_disk_thread_request_e2String value (value STORIO_DISK_THREAD_WRITE_REPAIR3)
          = "WRITE REPAIR3"
      ∧ storio_disk_thread_request_e2String value (value STORIO_DISK_THREAD_REMOVE) = "REMOVE"
      ∧ storio_disk_thread_request_e2String value (value STORIO_DISK_THREAD_REMOVE_CHUNK)
          = "REMOVE CHUNK"
      ∧ storio_disk_thread_request_e2String value (value STORIO_DISK_THREAD_REBUILD_START)
          = "REBUILD START"
      ∧ storio_disk_thread_request_e2String value (value STORIO_DISK_THREAD_REBUILD_STOP)
          = "REBUILD STOP"
      ∧ storio_disk_thread_request_e2String value (value STORIO_DISK_THREAD_MAX_OPCODE)
          = "MAX OPCODE")
    ∧ (∀ c d : storio_disk_thread_request_e, c ≠ d →
        storio_disk_thread_request_e2String value (value c)
          ≠ storio_disk_thread_request_e2String value (value d))
    ∧ (∀ x : Int, storio_disk_thread_request_e2String value x = "??" ↔ ∀ c, x ≠ value c) := by
  have hv : ∀ c d, value c = value d ↔ c = d := fun c d => hinj.eq_iff
  refine ⟨?_, ?_, ?_⟩
  · simp [storio_disk_thread_request_e2String, hv]
  · intro c d hcd
    cases c <;> cases d <;>
      first
      | exact absurd rfl hcd
      | (simp only [storio_disk_thread_request_e2String, hv]; decide)
  · intro x
    constructor
    · intro h c hc
      rw [hc] at h
      cases c <;> simp [storio_disk_thread_request_e2String, hv] at h
    · intro h
      unfold storio_disk_thread_request_e2String
      rw [if_neg (h _), if_neg (h _), if_neg (h _), if_neg (h _), if_neg (h _), if_neg (h _),
        if_neg (h _), if_neg (h _), if_neg (h _), if_neg (h _)]

open storio_disk_thread_request_e in
theorem storio_disk_thread_request_e2String_spec_witness :
    storio_disk_thread_request_e2String sample_request_value 5 = "WRITE REPAIR3"
      ∧ (storio_disk_thread_request_e2String sample_request_value 11 = "??"
          ↔ ∀ c, (11 : Int) ≠ sample_request_value c) :=
  ⟨(storio_disk_thread_request_e2String_spec sample_request_value
      sample_request_value_injective).1.2.2.2.2.1,
   (storio_disk_thread_request_e2String_spec sample_request_value
      sample_request_value_injective).2.2 11⟩

/-! ## Templates: frame and bounds -/

theorem strchr_from_getElem (buf : List Char) :
    ∀ (i : Nat) (c : Char) (q : Nat), strchr_from buf i c = some q → buf[q]? = some c := by
  induction buf with
  | nil => intro i c q h; simp [strchr_from] at h
  | cons x xs ih =>
    intro i c q h
    cases i with
    | zero =>
      simp only [strchr_from] at h
      by_cases hx : x = c
      · rw [if_pos hx] at h
        cases h
        simp [hx]
      · rw [if_neg hx] at h
        by_cases hx0 : x = NUL
        · rw [if_pos hx0] at h
          cases h
        · rw [if_neg hx0] at h
          obtain ⟨q1, hq1, rfl⟩ := Option.map_eq_some'.1 h
          simpa using ih 0 c q1 hq1
    | succ j =>
      simp only [strchr_from] at h
      obtain ⟨q1, hq1, rfl⟩ := Option.map_eq_some'.1 h
      simpa using ih j c q1 hq1

theorem set_set_restore (l : List Char) :
    ∀ (i : Nat) (a b : Char), l[i]? = some b → (l.set i a).set i b = l := by
  induction l with
  | nil => intro i a b h; simp at h
  | cons x xs ih =>
    intro i a b h
    cases i with
    | zero =>
      simp only [List.getElem?_cons_zero, Option.some.injEq] at h
      simp [h]
    | succ j =>
      simp only [List.getElem?_cons_succ] at h
      simp [ih j a b h]

theorem format_print_loop_buffer (name hostname domainname : List Char) (fuel : Nat) :
    ∀ (fmt : List Char) (lastch : Nat) (ch : Option Nat) (out : List Char)
      (r : List Char × List Char),
      (∀ q, ch = some q → fmt[q]? = some '%') →
      format_print_loop name hostname domainname fuel fmt lastch ch out = some r →
      r.2 = fmt := by
  induction fuel with
  | zero => intro fmt lastch ch out r _ h; simp [format_print_loop] at h
  | succ f ih =>
    intro fmt lastch ch out r hch h
    cases ch with
    | none =>
      simp only [format_print_loop, Option.some.injEq] at h
      rw [← h]
    | some q =>
      have hq : fmt[q]? = some '%' := hch q rfl
      simp only [format_print_loop, set_set_restore fmt q NUL '%' hq] at h
      cases hb : byte_at fmt (q + 1) with
      | none => rw [hb] at h; cases h
      | some c =>
        rw [hb] at h
        simp only at h
        by_cases hlen : q + 2 ≤ fmt.length
        · rw [if_pos hlen] at h
          exact ih fmt (q + 2) _ _ r (fun p hp => strchr_from_getElem fmt (q + 2) '%' p hp) h
        · rw [if_neg hlen] at h
          cases h

theorem format_print_buffer (hostname domainname fmt name : List Char)
    (r : List Char × List Char) (h : format_print hostname domainname fmt name = some r) :
    r.2 = fmt :=
  format_print_loop_buffer name hostname domainname (fmt.length + 1) fmt 0 _ [] r
    (fun p hp => strchr_from_getElem fmt 0 '%' p hp) h

theorem print_template_buffer (hostname domainname template name out buf : String)
    (h : print_template hostname domainname template name = some (out, buf)) :
    buf = template := by
  unfold print_template at h
  cases hf : format_print hostname.data domainname.data template.data name.data with
  | none => rw [hf] at h; cases h
  | some r =>
    have hb := format_print_buffer hostname.data domainname.data template.data name.data r hf
    rw [hf] at h
    obtain ⟨o, b⟩ := r
    simp only [Option.some.injEq, Prod.mk.injEq] at h
    simp only at hb
    rw [← h.2, hb]

theorem mail_message_frame (hostname domainname : String) (offender : offenderlist)
    (config config1 : configparams) (out : String)
    (h : mail_message hostname domainname offender config = some (out, config1)) :
    config1 = config := by
  unfold mail_message at h
  split at h
  · cases hm : config.user_message with
    | none =>
      rw [hm] at h
      simp only [Option.some.injEq, Prod.mk.injEq] at h
      exact h.2.symm
    | some t =>
      rw [hm] at h
      simp only at h
      cases hp : print_template hostname domainname t offender.offender_name with
      | none => rw [hp] at h; cases h
      | some r =>
        obtain ⟨o, b⟩ := r
        rw [hp] at h
        simp only [Option.some.injEq, Prod.mk.injEq] at h
        rw [← h.2, print_template_buffer _ _ _ _ _ _ hp, ← hm]
  · cases hm : config.group_message with
    | none =>
      rw [hm] at h
      simp only [Option.some.injEq, Prod.mk.injEq] at h
      exact h.2.symm
    | some t =>
      rw [hm] at h
      simp only at h
      cases hp : print_template hostname domainname t offender.offender_name with
      | none => rw [hp] at h; cases h
      | some r =>
        obtain ⟨o, b⟩ := r
        rw [hp] at h
        simp only [Option.some.injEq, Prod.mk.injEq] at h
        rw [← h.2, print_template_buffer _ _ _ _ _ _ hp, ← hm]

theorem mail_signature_frame (hostname domainname : String) (offender : offenderlist)
    (config config1 : configparams) (out : String)
    (h : mail_signature hostname domainname offender config = some (out, config1)) :
    config1 = config := by
  unfold mail_signature at h
  split at h
  · cases hm : config.user_signature with
    | none =>
      rw [hm] at h
      simp only [Option.some.injEq, Prod.mk.injEq] at h
      exact h.2.symm
    | some t =>
      rw [hm] at h
      simp only at h
      cases hp : print_template hostname domainname t offender.offender_name with
      | none => rw [hp] at h; cases h
      | some r =>
        obtain ⟨o, b⟩ := r
        rw [hp] at h
        simp only [Option.some.injEq, Prod.mk.injEq] at h
        rw [← h.2, print_template_buffer _ _ _ _ _ _ hp, ← hm]
  · cases hm : config.group_signature with
    | none =>
      rw [hm] at h
      simp only [Option.some.injEq, Prod.mk.injEq] at h
      exact h.2.symm
    | some t =>
      rw [hm] at h
      simp only at h
      cases hp : print_template hostname domainname t offender.offender_name with
      | none => rw [hp] at h; cases h
      | some r =>
        obtain ⟨o, b⟩ := r
        rw [hp] at h
        simp only [Option.some.injEq, Prod.mk.injEq] at h
        rw [← h.2, print_template_buffer _ _ _ _ _ _ hp, ← hm]

/-- C29: whenever `format_print` returns, the template buffer it leaves is character for
character the template it was given, although each `%` was overwritten by a NUL while the text
before it was written; for a template accepted by `verify_format` it does return; and in
`mail_user` the configuration left by the rendering of the opening text or of the signature for
one offender is the configuration it started from, so the rendering for the next offender is the
rendering with a fresh copy. -/
theorem format_print_template_unchanged (hostname domainname fmt name : List Char) :
    (∀ out buf, format_print hostname domainname fmt name = some (out, buf) → buf = fmt) ∧
    (NUL ∉ fmt → verify_format fmt = some (Except.ok ()) →
      ∃ out, format_print hostname domainname fmt name = some (out, fmt)) ∧
    (∀ (h d : String) (o1 o2 : offenderlist) (config config1 : configparams) (out1 : String),
      (mail_message h d o1 config = some (out1, config1) →
        config1 = config ∧ mail_message h d o2 config1 = mail_message h d o2 config) ∧
      (mail_signature h d o1 config = some (out1, config1) →
        config1 = config ∧ mail_signature h d o2 config1 = mail_signature h d o2 config)) := by
  refine ⟨?_, ?_, ?_⟩
  · intro out buf h
    exact format_print_buffer hostname domainname fmt name (out, buf) h
  · intro hnul hacc
    have hok : format_ok fmt = true := by
      rw [verify_format_eq fmt hnul] at hacc
      by_cases h : format_ok fmt = true
      · exact h
      · rw [if_neg h] at hacc
        cases hacc
    exact ⟨_, format_print_eq name hostname domainname fmt hnul hok⟩
  · intro h d o1 o2 config config1 out1
    constructor
    · intro hm
      have := mail_message_frame h d o1 config config1 out1 hm
      exact ⟨this, by rw [this]⟩
    · intro hm
      have := mail_signature_frame h d o1 config config1 out1 hm
      exact ⟨this, by rw [this]⟩

/-- Witness of C29: a template with three directives rendered for alice, and the opening text
of a configured template rendered for one offender and then for the next. -/
theorem format_print_template_unchanged_witness :
    (∃ out, format_print "srv1".data "example.com".data "Dear %s, 100%% full on %h".data
        "alice".data = some (out, "Dear %s, 100%% full on %h".data)) ∧
    mail_message "srv1" "example.com" (sample_offender 0 0)
        { sample_config 0 with user_message := some "Dear %s," }
      = some ("Dear alice,", { sample_config 0 with user_message := some "Dear %s," }) ∧
    mail_message "srv1" "example.com" (sample_offender 5 5)
        { sample_config 0 with user_message := some "Dear %s," }
      = some ("Dear alice,", { sample_config 0 with user_message := some "Dear %s," }) :=
  ⟨(format_print_template_unchanged "srv1".data "example.com".data
      "Dear %s, 100%% full on %h".data "alice".data).2.1 (by decide) rfl,
   rfl,
   (((format_print_template_unchanged [] [] [] []).2.2 "srv1" "example.com" (sample_offender 0 0)
      (sample_offender 5 5) { sample_config 0 with user_message := some "Dear %s," }
      { sample_config 0 with user_message := some "Dear %s," } "Dear alice,").1 rfl).2.trans rfl⟩

theorem verify_format_traced_fst (fmt : List Char) (fuel : Nat) :
    ∀ (ch : Option Nat) (visited : List Nat),
      (verify_format_traced fmt fuel ch visited).map Prod.fst = verify_format_loop fmt fuel ch := by
  induction fuel with
  | zero => intro ch visited; rfl
  | succ f ih =>
    intro ch visited
    cases ch with
    | none => rfl
    | some q =>
      simp only [verify_format_traced, verify_format_loop]
      cases byte_at fmt (q + 1) with
      | none => rfl
      | some c =>
        simp only
        by_cases hc : is_format_char c = true
        · rw [if_pos hc, if_pos hc, ih]
        · rw [if_neg hc, if_neg hc]
          rfl

theorem format_print_traced_fst (name hostname domainname : List Char) (fuel : Nat) :
    ∀ (fmt : List Char) (lastch : Nat) (ch : Option Nat) (out : List Char) (visited : List Nat),
      (format_print_traced name hostname domainname fuel fmt lastch ch out visited).map
          (fun r => (r.1, r.2.1)) =
        format_print_loop name hostname domainname fuel fmt lastch ch out := by
  induction fuel with
  | zero => intro fmt lastch ch out visited; rfl
  | succ f ih =>
    intro fmt lastch ch out visited
    cases ch with
    | none => rfl
    | some q =>
      simp only [format_print_traced, format_print_loop]
      cases byte_at ((fmt.set q NUL).set q '%') (q + 1) with
      | none => rfl
      | some c =>
        simp only
        by_cases hlen : q + 2 ≤ ((fmt.set q NUL).set q '%').length
        · rw [if_pos hlen, if_pos hlen, ih]
        · rw [if_neg hlen, if_neg hlen]
          rfl

theorem format_print_traced_step (name hostname domainname : List Char) (f : Nat)
    (pre b : List Char) (x : Char) (t2 out : List Char) (visited : List Nat) (hb : NUL ∉ b) :
    format_print_traced name hostname domainname (f + 1) (pre ++ b ++ '%' :: x :: t2) pre.length
        (some (pre ++ b).length) out visited =
      format_print_traced name hostname domainname f (pre ++ b ++ '%' :: x :: t2)
        ((pre ++ b).length + 2)
        (strchr_from (pre ++ b ++ '%' :: x :: t2) ((pre ++ b).length + 2) '%')
        (out ++ b ++ format_subst name hostname domainname x)
        (visited ++ [(pre ++ b).length]) := by
  have hset1 : (pre ++ b ++ '%' :: x :: t2).set (pre ++ b).length NUL =
      pre ++ b ++ NUL :: x :: t2 := set_append_cons (pre ++ b) '%' NUL (x :: t2)
  have hset2 : (pre ++ b ++ NUL :: x :: t2).set (pre ++ b).length '%' =
      pre ++ b ++ '%' :: x :: t2 := set_append_cons (pre ++ b) NUL '%' (x :: t2)
  have hput : fputs_from (pre ++ b ++ NUL :: x :: t2) pre.length = b := by
    rw [List.append_assoc]
    exact fputs_from_append_nul pre b (x :: t2) hb
  have hbyte : byte_at (pre ++ b ++ '%' :: x :: t2) ((pre ++ b).length + 1) = some x := by
    have h1 : pre ++ b ++ '%' :: x :: t2 = (pre ++ b ++ ['%']) ++ x :: t2 := by simp
    have h2 : (pre ++ b).length + 1 = (pre ++ b ++ ['%']).length := by
      simp only [List.length_append, List.length_singleton]
    rw [h1, h2, byte_at_append_cons]
  have hlen : (pre ++ b).length + 2 ≤ (pre ++ b ++ '%' :: x :: t2).length := by
    simp only [List.length_append, List.length_cons]
    omega
  simp only [format_print_traced, hset1, hset2, hput, hbyte, if_pos hlen]

theorem verify_format_traced_step (f : Nat) (pre b : List Char) (x : Char) (t2 : List Char)
    (visited : List Nat) (hx : is_format_char x = true) :
    verify_format_traced (pre ++ b ++ '%' :: x :: t2) (f + 1) (some (pre ++ b).length) visited =
      verify_format_traced (pre ++ b ++ '%' :: x :: t2) f
        (strchr_from (pre ++ b ++ '%' :: x :: t2) ((pre ++ b).length + 2) '%')
        (visited ++ [(pre ++ b).length]) := by
  have hbyte : byte_at (pre ++ b ++ '%' :: x :: t2) ((pre ++ b).length + 1) = some x := by
    have h1 : pre ++ b ++ '%' :: x :: t2 = (pre ++ b ++ ['%']) ++ x :: t2 := by simp
    have h2 : (pre ++ b).length + 1 = (pre ++ b ++ ['%']).length := by
      simp only [List.length_append, List.length_singleton]
    rw [h1, h2, byte_at_append_cons]
  simp only [verify_format_traced, hbyte, if_pos hx]

theorem traced_loops_eq (name hostname domainname : List Char) (fuel : Nat) :
    ∀ (pre s out : List Char) (visited : List Nat), NUL ∉ s → format_ok s = true →
      s.length < fuel →
      ∃ vs : List Nat,
        format_print_traced name hostname domainname fuel (pre ++ s) pre.length
            (strchr_from (pre ++ s) pre.length '%') out visited =
          some (out ++ substitute name hostname domainname s, pre ++ s, visited ++ vs) ∧
        verify_format_traced (pre ++ s) fuel (strchr_from (pre ++ s) pre.length '%') visited =
          some (Except.ok (), visited ++ vs) ∧
        ∀ p ∈ vs, (pre ++ s)[p]? = some '%' ∧ p + 1 < (pre ++ s).length := by
  induction fuel with
  | zero => intro pre s out visited _ _ h; omega
  | succ f ih =>
    intro pre s out visited hnul hok hlen
    rw [strchr_from_append]
    cases hq : strchr_from s 0 '%' with
    | none =>
      have hnot := strchr_zero_none s '%' hnul hq
      refine ⟨[], ?_, ?_, ?_⟩
      · simp only [Option.map_none', format_print_traced]
        rw [fputs_from_append pre s hnul, substitute_of_not_mem name hostname domainname s hnot,
          List.append_nil]
      · simp only [Option.map_none', verify_format_traced, List.append_nil]
      · intro p hp
        cases hp
    | some q =>
      obtain ⟨b, t, hs, hb, hbnul, hqb⟩ := strchr_zero_some s '%' q hq
      subst hs
      subst hqb
      rw [format_ok_append b _ hb] at hok
      cases t with
      | nil => simp [format_ok] at hok
      | cons x t2 =>
        rw [format_ok_percent_cons, Bool.and_eq_true] at hok
        have hidx : b.length + pre.length = (pre ++ b).length := by
          simp only [List.length_append]; omega
        have hfmt : pre ++ (b ++ '%' :: x :: t2) = pre ++ b ++ '%' :: x :: t2 := by simp
        have hfmt2 : pre ++ b ++ '%' :: x :: t2 = (pre ++ b ++ ['%', x]) ++ t2 := by simp
        have hidx2 : (pre ++ b).length + 2 = (pre ++ b ++ ['%', x]).length := by
          simp only [List.length_append, List.length_cons, List.length_nil]
        have hnul2 : NUL ∉ t2 := by
          intro hm
          apply hnul
          simp [hm]
        have hlen2 : t2.length < f := by
          simp only [List.length_append, List.length_cons] at hlen
          omega
        obtain ⟨vs, h1, h2, h3⟩ := ih (pre ++ b ++ ['%', x]) t2
          (out ++ b ++ format_subst name hostname domainname x)
          (visited ++ [(pre ++ b).length]) hnul2 hok.2 hlen2
        refine ⟨(pre ++ b).length :: vs, ?_, ?_, ?_⟩
        · simp only [Option.map_some']
          rw [hidx, hfmt, format_print_traced_step name hostname domainname f pre b x t2 out
            visited hbnul, hfmt2, hidx2, h1,
            substitute_append name hostname domainname b _ hb, substitute_percent_cons]
          simp
        · simp only [Option.map_some']
          rw [hidx, hfmt, verify_format_traced_step f pre b x t2 visited hok.1, hfmt2, hidx2, h2]
          simp
        · intro p hp
          rw [hfmt]
          rcases List.mem_cons.1 hp with hp1 | hp1
          · subst hp1
            refine ⟨getElem?_append_cons (pre ++ b) '%' (x :: t2), ?_⟩
            simp only [List.length_append, List.length_cons]
            omega
          · rw [hfmt2]
            exact h3 p hp1

/-- C30: for every template accepted by `verify_format`, `format_print` returns without a read
past the terminator, and the positions `ch` it visits are exactly the positions `verify_format`
visited, in the same order; each of them holds a `%`, the character after it is inside the
string (`ch + 1` is less than the length), and the position `ch + 2` at which the scan resumes is
at most the position of the terminator. -/
theorem format_print_stays_inside (name hostname domainname fmt : List Char) (hnul : NUL ∉ fmt)
    (haccepted : verify_format fmt = some (Except.ok ())) :
    format_print hostname domainname fmt name ≠ none ∧
    ∃ (out : List Char) (visited : List Nat),
      format_print_traced name hostname domainname (fmt.length + 1) fmt 0
          (strchr_from fmt 0 '%') [] [] = some (out, fmt, visited) ∧
      verify_format_traced fmt (fmt.length + 1) (strchr_from fmt 0 '%') [] =
          some (Except.ok (), visited) ∧
      ∀ ch ∈ visited, fmt[ch]? = some '%' ∧ ch + 1 < fmt.length ∧ ch + 2 ≤ fmt.length := by
  have hok : format_ok fmt = true := by
    rw [verify_format_eq fmt hnul] at haccepted
    by_cases h : format_ok fmt = true
    · exact h
    · rw [if_neg h] at haccepted
      cases haccepted
  obtain ⟨vs, h1, h2, h3⟩ := traced_loops_eq name hostname domainname (fmt.length + 1) [] fmt []
    [] hnul hok (by omega)
  simp only [List.nil_append, List.length_nil] at h1 h2 h3
  refine ⟨?_, _, vs, h1, h2, ?_⟩
  · rw [format_print_eq name hostname domainname fmt hnul hok]
    exact Option.some_ne_none _
  · intro ch hch
    obtain ⟨ha, hb⟩ := h3 ch hch
    exact ⟨ha, hb, by omega⟩

/-- Witness of C30: a template with three directives, the last one at the very end; the
positions visited are 1, 4 and 6. -/
theorem format_print_stays_inside_witness :
    format_print "srv1".data "example.com".data "a%sb%%%h".data "alice".data ≠ none ∧
    format_print_traced "alice".data "srv1".data "example.com".data
        ("a%sb%%%h".data.length + 1) "a%sb%%%h".data 0
        (strchr_from "a%sb%%%h".data 0 '%') [] [] =
      some ("aaliceb%srv1".data, "a%sb%%%h".data, [1, 4, 6]) ∧
    verify_format_traced "a%sb%%%h".data ("a%sb%%%h".data.length + 1)
        (strchr_from "a%sb%%%h".data 0 '%') [] = some (Except.ok (), [1, 4, 6]) :=
  ⟨(format_print_stays_inside "alice".data "srv1".data "example.com".data "a%sb%%%h".data
      (by decide) rfl).1, rfl, rfl⟩

/-! ## Registry invariant of `check_offence` -/

theorem mail_usage_split (env : mail_collab) (flags : Nat) (quotatable : List quotatable_t)
    (lptr : usage) :
    mail_usage env flags quotatable lptr =
      mail_usage_before quotatable lptr ++ violation_markers env.toqb lptr ++
        mail_usage_after env flags lptr := by
  simp only [mail_usage, mail_usage_before, violation_markers, mail_usage_after,
    String.append_assoc]

theorem violation_markers_of_over (toqb : Nat → Nat) (lptr : usage)
    (h : over_soft_limit toqb lptr) :
    violation_markers toqb lptr = "++" ∨ violation_markers toqb lptr = "+-" ∨
      violation_markers toqb lptr = "-+" := by
  unfold violation_markers
  unfold over_soft_limit at h
  by_cases hb : lptr.dq_dqb.dqb_bsoftlimit ≠ 0
      ∧ lptr.dq_dqb.dqb_bsoftlimit ≤ toqb lptr.dq_dqb.dqb_curspace
  · by_cases hi : lptr.dq_dqb.dqb_isoftlimit ≠ 0
        ∧ lptr.dq_dqb.dqb_isoftlimit ≤ lptr.dq_dqb.dqb_curinodes
    · rw [if_pos hb, if_pos hi]
      exact Or.inl rfl
    · rw [if_pos hb, if_neg hi]
      exact Or.inr (Or.inl rfl)
  · by_cases hi : lptr.dq_dqb.dqb_isoftlimit ≠ 0
        ∧ lptr.dq_dqb.dqb_isoftlimit ≤ lptr.dq_dqb.dqb_curinodes
    · rw [if_neg hb, if_pos hi]
      exact Or.inr (Or.inr rfl)
    · rcases h with h | h
      · exact absurd h hb
      · exact absurd h hi

theorem over_soft_limit_new_usage (toqb : Nat → Nat) (d : rozofs_dquot_t)
    (h : IsViolation toqb d) : over_soft_limit toqb (new_usage d) := h

theorem check_offence_keeps_over (toqb : Nat → Nat) (id2name : Int → Int → Option String)
    (maildev : String) (maildev_handle : Option quota_handle) (now : Int)
    (reg : List offenderlist) (d : rozofs_dquot_t) (name : Option String)
    (hinv : ∀ o ∈ reg, o.usage ≠ [] ∧ ∀ u ∈ o.usage, over_soft_limit toqb u) :
    ∀ o ∈ check_offence toqb id2name maildev maildev_handle now reg d name,
      o.usage ≠ [] ∧ ∀ u ∈ o.usage, over_soft_limit toqb u := by
  intro o ho
  rw [check_offence_eq] at ho
  by_cases hc : IsViolation toqb d ∧ deliverable toqb maildev maildev_handle now d ≠ 0
  · rw [if_pos hc] at ho
    rcases mem_add_offence id2name reg d name o ho with h | h | ⟨_, h⟩
    · exact hinv o h
    · obtain ⟨o0, ho0, _, _, hu⟩ := h
      rw [hu]
      refine ⟨List.cons_ne_nil _ _, ?_⟩
      intro u hu1
      rcases List.mem_cons.1 hu1 with h1 | h1
      · rw [h1]
        exact over_soft_limit_new_usage toqb d hc.1
      · exact (hinv o0 ho0).2 u h1
    · rw [h]
      refine ⟨List.cons_ne_nil _ _, ?_⟩
      intro u hu1
      rcases List.mem_cons.1 hu1 with h1 | h1
      · rw [h1]
        exact over_soft_limit_new_usage toqb d hc.1
      · cases h1
  · rw [if_neg hc] at ho
    exact hinv o ho

theorem run_checks_keeps_over (toqb : Nat → Nat) (id2name : Int → Int → Option String)
    (calls : List registry_call) :
    ∀ (reg : List offenderlist), (∀ c ∈ calls, is_check c = true) →
      (∀ o ∈ reg, o.usage ≠ [] ∧ ∀ u ∈ o.usage, over_soft_limit toqb u) →
      ∀ o ∈ run_calls toqb id2name reg calls,
        o.usage ≠ [] ∧ ∀ u ∈ o.usage, over_soft_limit toqb u := by
  induction calls with
  | nil => intro reg _ hinv; exact hinv
  | cons c rest ih =>
    intro reg hck hinv
    have hrest : ∀ c ∈ rest, is_check c = true := fun c hc => hck c (List.mem_cons_of_mem _ hc)
    cases c with
    | add d n =>
      have := hck (registry_call.add d n) (List.mem_cons_self _ _)
      cases this
    | check maildev handle now d n =>
      simp only [run_calls]
      exact ih _ hrest (check_offence_keeps_over toqb id2name maildev handle now reg d n hinv)

/-- C28: after any finite sequence of `check_offence` calls from the empty registry, every
offender of the registry has a non-empty usage list, every stored usage entry is over at least
one of its own set soft limits (block or inode), and the two markers `mail_user` prints for the
entry in the usage table, between the text before and the text after them, are `++`, `+-` or
`-+`, never `--`. -/
theorem check_offence_registry_invariant (toqb : Nat → Nat)
    (id2name : Int → Int → Option String) (calls : List registry_call)
    (hcalls : ∀ c ∈ calls, is_check c = true) :
    ∀ o ∈ run_calls toqb id2name [] calls,
      o.usage ≠ [] ∧
      ∀ u ∈ o.usage, over_soft_limit toqb u ∧
        ∀ (env : mail_collab) (flags : Nat) (quotatable : List quotatable_t),
          env.toqb = toqb →
          mail_usage env flags quotatable u =
            mail_usage_before quotatable u ++ violation_markers toqb u ++
              mail_usage_after env flags u ∧
          (violation_markers toqb u = "++" ∨ violation_markers toqb u = "+-" ∨
            violation_markers toqb u = "-+") := by
  intro o ho
  have h := run_checks_keeps_over toqb id2name calls [] hcalls
    (fun o ho => absurd ho (List.not_mem_nil _)) o ho
  refine ⟨h.1, ?_⟩
  intro u hu
  refine ⟨h.2 u hu, ?_⟩
  intro env flags quotatable henv
  subst henv
  exact ⟨mail_usage_split env flags quotatable u, violation_markers_of_over env.toqb u (h.2 u hu)⟩

/-- Witness of C28: two records of user 1000, of exports 3 and 4, both over the block soft limit
only; the offender holds both entries, each marked `+-`. -/
theorem check_offence_registry_invariant_witness :
    ({ offender_type := 0, offender_id := 1000, offender_name := "alice",
       usage := [new_usage (sample_dquot 4 0 1000), new_usage (sample_dquot 3 0 1000)] }
        : offenderlist) ∈
      run_calls id sample_id2name []
        [registry_call.check "" none 0 (sample_dquot 3 0 1000) (some "alice"),
         registry_call.check "" none 0 (sample_dquot 4 0 1000) none] ∧
    [new_usage (sample_dquot 4 0 1000), new_usage (sample_dquot 3 0 1000)] ≠ [] ∧
    over_soft_limit id (new_usage (sample_dquot 3 0 1000)) ∧
    violation_markers id (new_usage (sample_dquot 3 0 1000)) = "+-" :=
  ⟨by decide,
   (check_offence_registry_invariant id sample_id2name
      [registry_call.check "" none 0 (sample_dquot 3 0 1000) (some "alice"),
       registry_call.check "" none 0 (sample_dquot 4 0 1000) none] (by decide)
      { offender_type := 0, offender_id := 1000, offender_name := "alice",
        usage := [new_usage (sample_dquot 4 0 1000), new_usage (sample_dquot 3 0 1000)] }
      (by decide)).1,
   ((check_offence_registry_invariant id sample_id2name
      [registry_call.check "" none 0 (sample_dquot 3 0 1000) (some "alice"),
       registry_call.check "" none 0 (sample_dquot 4 0 1000) none] (by decide)
      { offender_type := 0, offender_id := 1000, offender_name := "alice",
        usage := [new_usage (sample_dquot 4 0 1000), new_usage (sample_dquot 3 0 1000)] }
      (by decide)).2 (new_usage (sample_dquot 3 0 1000)) (by decide)).1,
   by decide⟩

/-! ## Lines of a file -/

theorem fgets_chars_append (s : List Char) :
    ∀ k, (fgets_chars s k).1 ++ (fgets_chars s k).2 = s := by
  induction s with
  | nil => intro k; rfl
  | cons c s ih =>
    intro k
    unfold fgets_chars
    by_cases hk : k = 0
    · rw [if_pos hk]; rfl
    · rw [if_neg hk]
      by_cases hc : c = '\n'
      · rw [if_pos hc]; rfl
      · rw [if_neg hc]
        simp only [List.cons_append, ih (k - 1)]

theorem fgets_chars_rest_length (c : Char) (s : List Char) (k : Nat) (hk : 0 < k) :
    (fgets_chars (c :: s) k).2.length ≤ s.length := by
  have h := congrArg List.length (fgets_chars_append (c :: s) k)
  have h1 : 1 ≤ (fgets_chars (c :: s) k).1.length := by
    unfold fgets_chars
    rw [if_neg (by omega)]
    by_cases hc : c = '\n'
    · rw [if_pos hc]; simp
    · rw [if_neg hc]; simp
  simp only [List.length_append, List.length_cons] at h
  omega

theorem file_lines_mem (n : Nat) (fuel : Nat) :
    ∀ (stream line : List Char), line ∈ file_lines n fuel stream → ∀ c ∈ line, c ∈ stream := by
  induction fuel with
  | zero => intro stream line h; simp [file_lines] at h
  | succ f ih =>
    intro stream line h c hc
    cases stream with
    | nil => simp [file_lines, fgets] at h
    | cons x s =>
      simp only [file_lines, fgets, List.mem_cons] at h
      have happ := fgets_chars_append (x :: s) (n - 1)
      rcases h with h | h
      · rw [← happ]
        exact List.mem_append_left _ (h ▸ hc)
      · rw [← happ]
        exact List.mem_append_right _ (ih _ line h c hc)

theorem file_lines_flatten (n : Nat) (hn : 2 ≤ n) (fuel : Nat) :
    ∀ (stream : List Char), stream.length ≤ fuel →
      (file_lines n fuel stream).flatten = stream := by
  induction fuel with
  | zero =>
    intro stream h
    have : stream = [] := List.length_eq_zero.1 (by omega)
    subst this
    rfl
  | succ f ih =>
    intro stream h
    cases stream with
    | nil => rfl
    | cons x s =>
      simp only [file_lines, fgets, List.flatten_cons]
      have hlen := fgets_chars_rest_length x s (n - 1) (by omega)
      simp only [List.length_cons] at h
      rw [ih _ (by omega)]
      exact fgets_chars_append (x :: s) (n - 1)

/-! ## The device description table: the claim -/

theorem takeWhile_ne_append (b t : List Char) (c : Char) (h : c ∉ b) :
    (b ++ c :: t).takeWhile (fun x => x ≠ c) = b := by
  induction b with
  | nil => simp [List.takeWhile]
  | cons x xs ih =>
    simp only [List.mem_cons, not_or] at h
    have hx : decide (x ≠ c) = true := decide_eq_true (fun e => h.1 e.symm)
    rw [List.cons_append, List.takeWhile_cons]
    simp only [hx, if_true]
    rw [ih h.2]

theorem dropWhile_ne_append (b t : List Char) (c : Char) (h : c ∉ b) :
    (b ++ c :: t).dropWhile (fun x => x ≠ c) = c :: t := by
  induction b with
  | nil => simp [List.dropWhile]
  | cons x xs ih =>
    simp only [List.mem_cons, not_or] at h
    have hx : decide (x ≠ c) = true := decide_eq_true (fun e => h.1 e.symm)
    rw [List.cons_append, List.dropWhile_cons]
    simp only [hx, if_true]
    exact ih h.2

theorem get_quotatable_line_eq (buffer : List Char) (qtab_i : Nat)
    (quotatable : List quotatable_t) (hnul : NUL ∉ buffer) :
    get_quotatable_line buffer qtab_i quotatable =
      if is_quotatab_entry buffer = true then
        (qtab_i + 1, quotatable.take qtab_i ++ [quotatab_entry buffer])
      else (qtab_i, quotatable) := by
  unfold get_quotatable_line is_quotatab_entry
  by_cases hcom : buffer.head? = some '#' ∨ buffer.head? = some ';'
  · rw [if_pos hcom]
    have hcom2 : (decide (buffer.head? = some '#') || decide (buffer.head? = some ';')) = true := by
      simpa using hcom
    simp only [hcom2, Bool.not_true, Bool.false_and]
    rfl
  · rw [if_neg hcom]
    have hcom2 : (decide (buffer.head? = some '#') || decide (buffer.head? = some ';')) = false := by
      simpa using hcom
    by_cases hblank : (buffer.dropWhile isspace).head? = none
    · rw [if_pos hblank]
      have hall : buffer.all isspace = true := by
        rw [List.head?_eq_none_iff, List.dropWhile_eq_nil_iff] at hblank
        exact List.all_eq_true.2 hblank
      simp [hall]
    · rw [if_neg hblank]
      have hall : buffer.all isspace = false := by
        rw [List.head?_eq_none_iff, List.dropWhile_eq_nil_iff] at hblank
        rw [Bool.eq_false_iff]
        intro h
        exact hblank (List.all_eq_true.1 h)
      cases hq : strchr_from buffer 0 ':' with
      | none =>
        have hnot := strchr_zero_none buffer ':' hnul hq
        simp [hnot]
      | some q =>
        obtain ⟨b, t, hs, hb, _, hqb⟩ := strchr_zero_some buffer ':' q hq
        have hmem : ':' ∈ buffer := by rw [hs]; simp
        have htake : buffer.take q = b := by rw [hs, hqb]; simp
        have hdrop : buffer.drop (q + 1) = t := by
          rw [hs, hqb, List.drop_append_eq_append_drop]
          simp
        have htw : buffer.takeWhile (fun c => c ≠ ':') = b := by
          rw [hs]; exact takeWhile_ne_append b t ':' hb
        have hdw : (buffer.dropWhile (fun c => c ≠ ':')).drop 1 = t := by
          rw [hs, dropWhile_ne_append b t ':' hb]; rfl
        simp only [hcom2, hall, Bool.not_false, Bool.and_true, Bool.true_and]
        rw [if_pos (by simpa using hmem)]
        simp only [quotatab_entry, htake, hdrop, htw, hdw, create_eoln]

theorem get_quotatable_fold (lines : List (List Char)) (hnul : ∀ l ∈ lines, NUL ∉ l) :
    ∀ (quotatable : List quotatable_t),
      lines.foldl (fun st buffer => get_quotatable_line buffer st.1 st.2)
          (quotatable.length, quotatable) =
        ((quotatable ++ (lines.filter is_quotatab_entry).map quotatab_entry).length,
          quotatable ++ (lines.filter is_quotatab_entry).map quotatab_entry) := by
  induction lines with
  | nil => intro quotatable; simp
  | cons l rest ih =>
    intro quotatable
    have hl : NUL ∉ l := hnul l (List.mem_cons_self _ _)
    have hrest : ∀ l ∈ rest, NUL ∉ l := fun x hx => hnul x (List.mem_cons_of_mem _ hx)
    simp only [List.foldl_cons]
    rw [get_quotatable_line_eq l _ _ hl]
    by_cases he : is_quotatab_entry l = true
    · rw [if_pos he, List.take_length]
      have := ih hrest (quotatable ++ [quotatab_entry l])
      simp only [List.length_append, List.length_singleton] at this
      rw [this]
      simp only [List.filter_cons, he, if_true, List.map_cons, List.length_append,
        List.length_cons, List.length_map, List.append_assoc, List.singleton_append,
        Prod.mk.injEq, and_true]
      omega
    · rw [if_neg he]
      rw [ih hrest quotatable]
      simp [List.filter_cons, he]

/-- C25: on a file without NUL bytes, `get_quotatable` returns 0 and leaves in `quotatable`, in
the order of the file, exactly one entry for each line read by `fgets` that is not a comment
(first character `#` or `;`), is not blank and holds a `:`; the device of the entry is the
stripped text before the first `:`, its description the stripped text after it with every `|`
made a newline, and `qtab_i` is the number of the entries.  The lines read are the whole file. -/
theorem get_quotatable_spec (content : List Char) (hnul : NUL ∉ content) :
    get_quotatable (some content) =
      (0,
        (((file_lines IOBUF_SIZE content.length content).filter is_quotatab_entry).map
          quotatab_entry).length,
        ((file_lines IOBUF_SIZE content.length content).filter is_quotatab_entry).map
          quotatab_entry) ∧
    (file_lines IOBUF_SIZE content.length content).flatten = content := by
  constructor
  · unfold get_quotatable
    have h := get_quotatable_fold (file_lines IOBUF_SIZE content.length content)
      (fun l hl hm => hnul (file_lines_mem IOBUF_SIZE content.length content l hl NUL hm)) []
    simp only [List.length_nil, List.nil_append] at h
    simp only [h]
  · exact file_lines_flatten IOBUF_SIZE (by decide) content.length content (Nat.le_refl _)

/-- Witness of C25: a file with a comment, an empty line, two entries, a blank line and a line
without `:`. -/
theorem get_quotatable_spec_witness :
    get_quotatable (some "# c\n\neid_3:Home|of users\n  \nfoo\n eid_4 : 'Scratch' ".data) =
      (0, 2, [{ devname := "eid_3", devdesc := "Home\nof users" },
              { devname := "eid_4", devdesc := "Scratch" }]) :=
  (get_quotatable_spec "# c\n\neid_3:Home|of users\n  \nfoo\n eid_4 : 'Scratch' ".data
    (by decide)).1.trans (by decide)

/-! ## The administrators table: order and lookup -/

/-- C24, evaluated at the failing input: with the group flag set and an administrators file of
one well-formed line, the scan of export 3 alone leaves one entry in the table, and the scan of
exports 3 and 4 leaves two, the same line loaded twice: `get_groupadmins` runs once for every
export and adds to the entries already there. -/
theorem warn_quota_scan_reloads_admins_per_export :
    (warn_quota_scan (sample_admins_env (some "staff: root@example.com\n".data)) "" FL_GROUP
        { offenders := [], maildev_handle := none, admins := [], checked := 0 } ["3"]).map
      (fun st => st.admins) =
      Except.ok [{ grpname := "staff", adminname := "root@example.com" }] ∧
    (warn_quota_scan (sample_admins_env (some "staff: root@example.com\n".data)) "" FL_GROUP
        { offenders := [], maildev_handle := none, admins := [], checked := 0 } ["3", "4"]).map
      (fun st => st.admins) =
      Except.ok [{ grpname := "staff", adminname := "root@example.com" },
        { grpname := "staff", adminname := "root@example.com" }] :=
  ⟨rfl, rfl⟩

/-! ## The configuration file: lines -/

theorem fgets_chars_line (l : List Char) :
    ∀ (rest : List Char) (k : Nat), '\n' ∉ l → l.length < k →
      fgets_chars (l ++ '\n' :: rest) k = (l ++ ['\n'], rest) := by
  induction l with
  | nil =>
    intro rest k _ hk
    have hk0 : ¬ k = 0 := by simp only [List.length_nil] at hk; omega
    simp [fgets_chars, hk0]
  | cons x xs ih =>
    intro rest k hx hk
    simp only [List.mem_cons, not_or] at hx
    simp only [List.length_cons] at hk
    have hk0 : ¬ k = 0 := by omega
    have hx1 : ¬ x = '\n' := fun e => hx.1 e.symm
    have h := ih rest (k - 1) hx.2 (by omega)
    rw [List.cons_append]
    unfold fgets_chars
    rw [if_neg hk0, if_neg hx1, h]
    rfl

theorem fgets_line (n : Nat) (l rest : List Char) (hl : '\n' ∉ l) (hn : l.length + 2 ≤ n) :
    fgets n (l ++ '\n' :: rest) = some (l ++ ['\n'], rest) := by
  have h := fgets_chars_line l rest (n - 1) hl (by omega)
  cases l with
  | nil => simpa [fgets] using h
  | cons x xs => simpa [fgets] using h

theorem readconfigfile_loop_step (sscanf_d_s : List Char → Option (Int × List Char))
    (str2timeunits : Int → List Char → Option Int) (fuel : Nat) (joined l rest : List Char)
    (config : configparams) (maildev : String) (hl : '\n' ∉ l)
    (hlen : joined.length + l.length + 2 ≤ IOBUF_SIZE) :
    readconfigfile_loop sscanf_d_s str2timeunits (fuel + 1) joined (l ++ '\n' :: rest) config
        maildev =
      if joined = [] ∧ ((l ++ ['\n']).head? = some '#' ∨ (l ++ ['\n']).head? = some ';') then
        readconfigfile_loop sscanf_d_s str2timeunits fuel [] rest config maildev
      else if joined = [] ∧ ((l ++ ['\n']).dropWhile isspace).head? = none then
        readconfigfile_loop sscanf_d_s str2timeunits fuel [] rest config maildev
      else if (joined ++ l).getLast? = some '\\' then
        readconfigfile_loop sscanf_d_s str2timeunits fuel (joined ++ l).dropLast rest config
          maildev
      else
        match config_line sscanf_d_s str2timeunits config maildev (joined ++ l) with
        | none => none
        | some (Except.error c) => some (Except.error c)
        | some (Except.ok (config1, maildev1)) =>
          readconfigfile_loop sscanf_d_s str2timeunits fuel [] rest config1 maildev1 := by
  have hf : fgets (IOBUF_SIZE - joined.length) (l ++ '\n' :: rest) = some (l ++ ['\n'], rest) :=
    fgets_line _ l rest hl (by omega)
  have hlast : (joined ++ (l ++ ['\n'])).getLast? = some '\n' := by
    rw [← List.append_assoc]
    exact List.getLast?_concat _
  have hdrop : (joined ++ (l ++ ['\n'])).dropLast = joined ++ l := by
    rw [← List.append_assoc]
    exact List.dropLast_concat
  rw [readconfigfile_loop, hf]
  simp only [hlast, hdrop, ne_eq, not_true_eq_false, if_false]

theorem config_line_no_equals (sscanf_d_s : List Char → Option (Int × List Char))
    (str2timeunits : Int → List Char → Option Int) (config : configparams) (maildev : String)
    (buff : List Char) (h : strchr_from buff 0 '=' = none) :
    config_line sscanf_d_s str2timeunits config maildev buff =
      some (Except.ok (config, maildev)) := by
  unfold config_line
  rw [h]

theorem config_line_unknown_key (sscanf_d_s : List Char → Option (Int × List Char))
    (str2timeunits : Int → List Char → Option Int) (config : configparams) (maildev : String)
    (buff : List Char) (pos : Nat) (hq : strchr_from buff 0 '=' = some pos)
    (hk : stripstring (buff.take pos) ∉ recognized_keys) :
    config_line sscanf_d_s str2timeunits config maildev buff =
      some (Except.ok (config, maildev)) := by
  unfold config_line
  rw [hq]
  dsimp only
  generalize stripstring (buff.take pos) = var at hk ⊢
  generalize stripstring (buff.drop (pos + 1)) = value
  generalize load_template value = lt
  have h0 : ¬ var = ['M', 'A', 'I', 'L', '_', 'C', 'M', 'D'] := by
    intro e
    apply hk
    rw [e]
    decide
  rw [if_neg h0]
  have h1 : ¬ var = ['F', 'R', 'O', 'M'] := by
    intro e
    apply hk
    rw [e]
    decide
  rw [if_neg h1]
  have h2 : ¬ var = ['S', 'U', 'B', 'J', 'E', 'C', 'T'] := by
    intro e
    apply hk
    rw [e]
    decide
  rw [if_neg h2]
  have h3 : ¬ var = ['C', 'C', '_', 'T', 'O'] := by
    intro e
    apply hk
    rw [e]
    decide
  rw [if_neg h3]
  have h4 : ¬ var = ['S', 'U', 'P', 'P', 'O', 'R', 'T'] := by
    intro e
    apply hk
    rw [e]
    decide
  rw [if_neg h4]
  have h5 : ¬ var = ['P', 'H', 'O', 'N', 'E'] := by
    intro e
    apply hk
    rw [e]
    decide
  rw [if_neg h5]
  have h6 : ¬ var = ['C', 'H', 'A', 'R', 'S', 'E', 'T'] := by
    intro e
    apply hk
    rw [e]
    decide
  rw [if_neg h6]
  have h7 : ¬ var = ['M', 'A', 'I', 'L', 'D', 'E', 'V'] := by
    intro e
    apply hk
    rw [e]
    decide
  rw [if_neg h7]
  have h8 : ¬ var = ['M', 'E', 'S', 'S', 'A', 'G', 'E'] := by
    intro e
    apply hk
    rw [e]
    decide
  rw [if_neg h8]
  have h9 : ¬ var = ['S', 'I', 'G', 'N', 'A', 'T', 'U', 'R', 'E'] := by
    intro e
    apply hk
    rw [e]
    decide
  rw [if_neg h9]
  have h10 : ¬ var = ['G', 'R', 'O', 'U', 'P', '_', 'M', 'E', 'S', 'S', 'A', 'G', 'E'] := by
    intro e
    apply hk
    rw [e]
    decide
  rw [if_neg h10]
  have h11 : ¬ var = ['G', 'R', 'O', 'U', 'P', '_', 'S', 'I', 'G', 'N', 'A', 'T', 'U', 'R', 'E'] := by
    intro e
    apply hk
    rw [e]
    decide
  rw [if_neg h11]
  have h12 : ¬ var = ['L', 'D', 'A', 'P', '_', 'M', 'A', 'I', 'L'] := by
    intro e
    apply hk
    rw [e]
    decide
  rw [if_neg h12]
  have h13 : ¬ var = ['C', 'C', '_', 'B', 'E', 'F', 'O', 'R', 'E'] := by
    intro e
    apply hk
    rw [e]
    decide
  rw [if_neg h13]

theorem strchr_zero_of_not_mem (s : List Char) (c : Char) (h : c ∉ s) :
    strchr_from s 0 c = none := by
  induction s with
  | nil => rfl
  | cons x xs ih =>
    simp only [List.mem_cons, not_or] at h
    have hx : ¬ x = c := fun e => h.1 e.symm
    simp only [strchr_from, hx, if_false]
    by_cases hx0 : x = NUL
    · rw [if_pos hx0]
    · rw [if_neg hx0, ih h.2]
      rfl

theorem config_line_ignored (sscanf_d_s : List Char → Option (Int × List Char))
    (str2timeunits : Int → List Char → Option Int) (config : configparams) (maildev : String)
    (buff : List Char)
    (h : '=' ∉ buff ∨
      (NUL ∉ buff ∧ stripstring (buff.takeWhile (fun c => c ≠ '=')) ∉ recognized_keys)) :
    config_line sscanf_d_s str2timeunits config maildev buff =
      some (Except.ok (config, maildev)) := by
  rcases h with h | ⟨hnul, hk⟩
  · exact config_line_no_equals _ _ _ _ _ (strchr_zero_of_not_mem buff '=' h)
  · cases hq : strchr_from buff 0 '=' with
    | none => exact config_line_no_equals _ _ _ _ _ hq
    | some pos =>
      obtain ⟨b, t, hs, hb, _, hqb⟩ := strchr_zero_some buff '=' pos hq
      have htake : buff.take pos = buff.takeWhile (fun c => c ≠ '=') := by
        rw [hs, hqb, takeWhile_ne_append b t '=' hb]
        simp
      apply config_line_unknown_key _ _ _ _ _ pos hq
      rw [htake]
      exact hk

theorem head?_dropWhile_isspace_ne_none (l : List Char) (c : Char) (hc : c ∈ l)
    (hs : isspace c = false) : (l.dropWhile isspace).head? ≠ none := by
  intro h
  rw [List.head?_eq_none_iff, List.dropWhile_eq_nil_iff] at h
  have := h c hc
  rw [hs] at this
  cases this

theorem strchr_zero_of_all_isspace (l : List Char) (h : l.all isspace = true) :
    strchr_from l 0 '=' = none := by
  apply strchr_zero_of_not_mem
  intro hm
  have := List.all_eq_true.1 h '=' hm
  revert this
  decide

theorem getLast?_ne_of_all_isspace (l : List Char) (h : l.all isspace = true) :
    l.getLast? ≠ some '\\' := by
  intro hl
  have hm : '\\' ∈ l := List.mem_of_getLast?_eq_some hl
  have := List.all_eq_true.1 h '\\' hm
  revert this
  decide

/-- C21 fails as stated: a comment line is skipped alone even when it ends in a backslash.  The
file of the two lines `#c\` and `SUBJECT=Quota` sets the subject, whereas the file of the single
line `#cSUBJECT=Quota`, their join, leaves the default subject. -/
theorem readconfigfile_comment_continuation_counterexample :
    readconfigfile sample_sscanf sample_str2timeunits (some "#c\\\nSUBJECT=Quota\n".data) =
      some (Except.ok (0, { readconfigfile_defaults.1 with subject := "Quota" },
        readconfigfile_defaults.2)) ∧
    readconfigfile sample_sscanf sample_str2timeunits (some "#cSUBJECT=Quota\n".data) =
      some (Except.ok (0, readconfigfile_defaults.1, readconfigfile_defaults.2)) ∧
    ({ readconfigfile_defaults.1 with subject := "Quota" } : configparams) ≠
      readconfigfile_defaults.1 :=
  ⟨rfl, rfl, by decide⟩

/-- C21, amended: in `readconfigfile`, a physical line `a\` (the backslash right before the
newline) that is not skipped as a comment, whether it starts a logical line or continues one
(`joined` holds what is kept so far), is joined with the physical line `b` that follows: the
loop does on the two lines exactly what it does on the single line `a ++ b`, the backslash and
the newline dropped, provided the joined text fits the line buffer; and the file of the two
lines `MESSAGE=Hello|\` and `World` leaves the user message `Hello`, newline, `World`. -/
theorem readconfigfile_joins_continuation (sscanf_d_s : List Char → Option (Int × List Char))
    (str2timeunits : Int → List Char → Option Int) (fuel : Nat) (joined a b rest : List Char)
    (config : configparams) (maildev : String)
    (ha : '\n' ∉ a) (hb : '\n' ∉ b)
    (hcomment : joined = [] → a.head? ≠ some '#' ∧ a.head? ≠ some ';')
    (hlen : joined.length + a.length + b.length + 3 ≤ IOBUF_SIZE) :
    readconfigfile_loop sscanf_d_s str2timeunits (fuel + 2) joined
        (a ++ '\\' :: '\n' :: (b ++ '\n' :: rest)) config maildev =
      readconfigfile_loop sscanf_d_s str2timeunits (fuel + 1) joined
        (a ++ b ++ '\n' :: rest) config maildev ∧
    readconfigfile sample_sscanf sample_str2timeunits (some "MESSAGE=Hello|\\\nWorld\n".data) =
      some (Except.ok (0, { readconfigfile_defaults.1 with user_message := some "Hello\nWorld" },
        readconfigfile_defaults.2)) := by
  refine ⟨?_, rfl⟩
  have hstream : a ++ '\\' :: '\n' :: (b ++ '\n' :: rest) =
      (a ++ ['\\']) ++ '\n' :: (b ++ '\n' :: rest) := by simp
  have ha2 : '\n' ∉ a ++ ['\\'] := by
    intro h
    rcases List.mem_append.1 h with h1 | h1
    · exact ha h1
    · simp at h1
  have hab : '\n' ∉ a ++ b := by
    intro h
    rcases List.mem_append.1 h with h1 | h1
    · exact ha h1
    · exact hb h1
  have hblank : ((a ++ ['\\'] ++ ['\n']).dropWhile isspace).head? ≠ none :=
    head?_dropWhile_isspace_ne_none _ '\\' (by simp) (by decide)
  have hhead : joined = [] →
      ¬ ((a ++ ['\\'] ++ ['\n']).head? = some '#' ∨ (a ++ ['\\'] ++ ['\n']).head? = some ';') := by
    intro hj
    cases a with
    | nil => decide
    | cons x xs => simpa using hcomment hj
  -- the line `a\`
  rw [hstream, readconfigfile_loop_step sscanf_d_s str2timeunits (fuel + 1) joined (a ++ ['\\'])
    (b ++ '\n' :: rest) config maildev ha2
    (by simp only [List.length_append, List.length_singleton]; omega)]
  rw [if_neg (fun h => hhead h.1 h.2), if_neg (fun h => hblank h.2),
    if_pos (by rw [← List.append_assoc]; exact List.getLast?_concat _)]
  have hjoined : (joined ++ (a ++ ['\\'])).dropLast = joined ++ a := by
    rw [← List.append_assoc]
    exact List.dropLast_concat
  -- the line `b` after it, and the line `a ++ b`
  rw [hjoined, readconfigfile_loop_step sscanf_d_s str2timeunits fuel (joined ++ a) b rest config
    maildev hb (by simp only [List.length_append]; omega),
    readconfigfile_loop_step sscanf_d_s str2timeunits fuel joined (a ++ b) rest config
    maildev hab (by simp only [List.length_append]; omega)]
  rw [List.append_assoc joined a b]
  by_cases hane : a = []
  · subst hane
    simp only [List.append_nil, List.nil_append]
  have hne : ¬ (joined ++ a = []) := fun h => hane (List.append_eq_nil.1 h).2
  have c1 : (joined ++ a = [] ∧
      ((b ++ ['\n']).head? = some '#' ∨ (b ++ ['\n']).head? = some ';')) = False :=
    eq_false (fun h => hne h.1)
  have c2 : (joined ++ a = [] ∧ ((b ++ ['\n']).dropWhile isspace).head? = none) = False :=
    eq_false (fun h => hne h.1)
  have hhd : (a ++ b ++ ['\n']).head? = a.head? := by
    rw [List.append_assoc]
    exact List.head?_append_of_ne_nil a hane
  have d1 : (joined = [] ∧
      ((a ++ b ++ ['\n']).head? = some '#' ∨ (a ++ b ++ ['\n']).head? = some ';')) = False := by
    rw [hhd]
    exact eq_false (fun h => h.2.elim (hcomment h.1).1 (hcomment h.1).2)
  simp only [c1, c2, d1, if_false]
  by_cases d2 : joined = [] ∧ ((a ++ b ++ ['\n']).dropWhile isspace).head? = none
  · obtain ⟨hj, hbl⟩ := d2
    subst hj
    have hall : (([] : List Char) ++ (a ++ b)).all isspace = true := by
      rw [List.head?_eq_none_iff, List.dropWhile_eq_nil_iff] at hbl
      rw [List.nil_append]
      exact List.all_eq_true.2 (fun c hc => hbl c (List.mem_append_left _ hc))
    have c3 : ((([] : List Char) ++ (a ++ b)).getLast? = some '\\') = False :=
      eq_false (getLast?_ne_of_all_isspace _ hall)
    have d2 : (([] : List Char) = [] ∧
        ((a ++ b ++ ['\n']).dropWhile isspace).head? = none) = True :=
      eq_true ⟨rfl, hbl⟩
    simp only [d2, if_true, c3, if_false, ite_self,
      config_line_no_equals _ _ _ _ _ (strchr_zero_of_all_isspace _ hall)]
  · simp only [d2, if_false]

/-- Witness of C21: the two lines of the example, met in the loop with the default
configuration. -/
theorem readconfigfile_joins_continuation_witness :
    readconfigfile_loop sample_sscanf sample_str2timeunits (1 + 2) []
        ("MESSAGE=Hello|".data ++ '\\' :: '\n' :: ("World".data ++ '\n' :: [])) (sample_config 0)
        "" =
      some (Except.ok ({ sample_config 0 with user_message := some "Hello\nWorld" }, "")) :=
  (readconfigfile_joins_continuation sample_sscanf sample_str2timeunits 1 [] "MESSAGE=Hello|".data
    "World".data [] (sample_config 0) "" (by decide) (by decide)
    (fun _ => ⟨by decide, by decide⟩) (by decide)).1.trans rfl

/-- C22: in `readconfigfile`, a logical line without `=`, or whose text before the `=`, once
stripped, is none of the recognized keys, leaves every field of the configuration and `maildev`
as they were; and a physical line that starts a logical line and is a comment (first character
`#` or `;`), is blank, or is such a line without a closing backslash, changes nothing either,
the loop going on with the lines that follow. -/
theorem readconfigfile_ignores (sscanf_d_s : List Char → Option (Int × List Char))
    (str2timeunits : Int → List Char → Option Int) (config : configparams) (maildev : String) :
    (∀ buff : List Char,
      ('=' ∉ buff ∨
        (NUL ∉ buff ∧ stripstring (buff.takeWhile (fun c => c ≠ '=')) ∉ recognized_keys)) →
      config_line sscanf_d_s str2timeunits config maildev buff =
        some (Except.ok (config, maildev))) ∧
    (∀ (fuel : Nat) (l rest : List Char), '\n' ∉ l → l.length + 2 ≤ IOBUF_SIZE →
      (l.head? = some '#' ∨ l.head? = some ';' ∨ l.all isspace = true ∨
        (l.getLast? ≠ some '\\' ∧
          ('=' ∉ l ∨
            (NUL ∉ l ∧ stripstring (l.takeWhile (fun c => c ≠ '=')) ∉ recognized_keys)))) →
      readconfigfile_loop sscanf_d_s str2timeunits (fuel + 1) [] (l ++ '\n' :: rest) config
          maildev =
        readconfigfile_loop sscanf_d_s str2timeunits fuel [] rest config maildev) := by
  refine ⟨fun buff h => config_line_ignored _ _ _ _ buff h, ?_⟩
  intro fuel l rest hl hlen h
  rw [readconfigfile_loop_step sscanf_d_s str2timeunits fuel [] l rest config maildev hl
    (by simp only [List.length_nil]; omega)]
  by_cases h1 : ([] : List Char) = [] ∧
      ((l ++ ['\n']).head? = some '#' ∨ (l ++ ['\n']).head? = some ';')
  · rw [if_pos h1]
  rw [if_neg h1]
  by_cases h2 : ([] : List Char) = [] ∧ ((l ++ ['\n']).dropWhile isspace).head? = none
  · rw [if_pos h2]
  rw [if_neg h2]
  rcases h with h | h | h | ⟨hlast, h⟩
  · exfalso
    apply h1
    refine ⟨rfl, Or.inl ?_⟩
    cases l with
    | nil => simp at h
    | cons x xs => simpa using h
  · exfalso
    apply h1
    refine ⟨rfl, Or.inr ?_⟩
    cases l with
    | nil => simp at h
    | cons x xs => simpa using h
  · exfalso
    apply h2
    refine ⟨rfl, ?_⟩
    rw [List.head?_eq_none_iff, List.dropWhile_eq_nil_iff]
    intro c hc
    rcases List.mem_append.1 hc with hc1 | hc1
    · exact List.all_eq_true.1 h c hc1
    · simp only [List.mem_singleton] at hc1
      rw [hc1]
      decide
  · rw [List.nil_append, if_neg hlast, config_line_ignored _ _ _ _ l h]

/-- Witness of C22: a line with an unknown key, and a file whose only effective line is the
last one. -/
theorem readconfigfile_ignores_witness :
    config_line sample_sscanf sample_str2timeunits (sample_config 0) "any" "COLOUR = red".data =
      some (Except.ok (sample_config 0, "any")) ∧
    readconfigfile_loop sample_sscanf sample_str2timeunits (8 + 1) []
        ("no equals sign here".data ++ '\n' :: "# c\n\nSUBJECT=Quota\n".data) (sample_config 0)
        "any" =
      some (Except.ok ({ sample_config 0 with subject := "Quota" }, "any")) :=
  ⟨(readconfigfile_ignores sample_sscanf sample_str2timeunits (sample_config 0) "any").1
      "COLOUR = red".data (Or.inr ⟨by decide, by decide⟩),
   ((readconfigfile_ignores sample_sscanf sample_str2timeunits (sample_config 0) "any").2 8
      "no equals sign here".data "# c\n\nSUBJECT=Quota\n".data (by decide) (by decide)
      (Or.inr (Or.inr (Or.inr ⟨by decide, Or.inl (by decide)⟩)))).trans rfl⟩

/-! ## The administrators table: scans stay inside newline-terminated lines -/

theorem byte_at_of_le (buf : List Char) (i : Nat) (h : i ≤ buf.length) :
    ∃ c, byte_at buf i = some c := by
  unfold byte_at
  by_cases hlt : i < buf.length
  · rw [if_pos hlt]
    exact ⟨buf[i], List.getElem?_eq_getElem hlt⟩
  · rw [if_neg hlt, if_pos (by omega)]
    exact ⟨NUL, rfl⟩

theorem le_of_byte_at (buf : List Char) (i : Nat) (c : Char) (h : byte_at buf i = some c) :
    i ≤ buf.length := by
  unfold byte_at at h
  by_cases hlt : i < buf.length
  · omega
  · rw [if_neg hlt] at h
    by_cases he : i = buf.length
    · omega
    · rw [if_neg he] at h
      cases h

theorem byte_at_lt_of_ne_nul (buf : List Char) (i : Nat) (c : Char)
    (h : byte_at buf i = some c) (hc : c ≠ NUL) : i < buf.length ∧ buf[i]? = some c := by
  unfold byte_at at h
  by_cases hlt : i < buf.length
  · rw [if_pos hlt] at h
    exact ⟨hlt, h⟩
  · rw [if_neg hlt] at h
    by_cases he : i = buf.length
    · rw [if_pos he] at h
      exact absurd (Option.some.inj h).symm hc
    · rw [if_neg he] at h
      cases h

theorem byte_at_set_ne (buf : List Char) (i k : Nat) (c : Char) (h : i ≠ k) :
    byte_at (buf.set i c) k = byte_at buf k := by
  unfold byte_at
  rw [List.length_set, List.getElem?_set_ne h]

theorem scan_forward_spec (p : Char → Bool) (buf : List Char) (fuel : Nat) :
    ∀ i j, scan_forward p buf fuel i = some j →
      i ≤ j ∧ (∃ c, byte_at buf j = some c ∧ p c = false) ∧
        ∀ k, i ≤ k → k < j → ∃ d, byte_at buf k = some d ∧ p d = true := by
  induction fuel with
  | zero => intro i j h; simp [scan_forward] at h
  | succ f ih =>
    intro i j h
    simp only [scan_forward] at h
    cases hb : byte_at buf i with
    | none => rw [hb] at h; cases h
    | some c =>
      rw [hb] at h
      simp only at h
      by_cases hp : p c = true
      · rw [if_pos hp] at h
        obtain ⟨h1, h2, h3⟩ := ih (i + 1) j h
        refine ⟨by omega, h2, ?_⟩
        intro k hk1 hk2
        by_cases hki : k = i
        · subst hki
          exact ⟨c, hb, hp⟩
        · exact h3 k (by omega) hk2
      · rw [if_neg hp] at h
        simp only [Option.some.injEq] at h
        subst h
        refine ⟨Nat.le_refl _, ⟨c, hb, by simpa using hp⟩, ?_⟩
        intro k hk1 hk2
        omega

theorem scan_forward_some (p : Char → Bool) (buf : List Char) (fuel : Nat) :
    ∀ i s c, i ≤ s → s - i < fuel → byte_at buf s = some c → p c = false →
      ∃ j, scan_forward p buf fuel i = some j ∧ j ≤ s := by
  induction fuel with
  | zero => intro i s c _ h; omega
  | succ f ih =>
    intro i s c his hfuel hs hpc
    have hslen := le_of_byte_at buf s c hs
    obtain ⟨d, hd⟩ := byte_at_of_le buf i (by omega)
    simp only [scan_forward, hd]
    by_cases hp : p d = true
    · rw [if_pos hp]
      have hne : i ≠ s := by
        intro e
        subst e
        rw [hd] at hs
        simp only [Option.some.injEq] at hs
        subst hs
        rw [hpc] at hp
        cases hp
      obtain ⟨j, hj, hjs⟩ := ih (i + 1) s c (by omega) (by omega) hs hpc
      exact ⟨j, hj, hjs⟩
    · rw [if_neg hp]
      exact ⟨i, rfl, his⟩

theorem scan_backward_some (p : Char → Bool) (buf : List Char) :
    ∀ i j c, j ≤ i → i ≤ buf.length → byte_at buf j = some c → p c = false →
      ∃ e, scan_backward p buf i = some e ∧ j ≤ e ∧ e ≤ i := by
  intro i
  induction i with
  | zero =>
    intro j c hji _ hj hpc
    have : j = 0 := by omega
    subst this
    simp only [scan_backward, hj, hpc]
    exact ⟨0, by simp, Nat.le_refl _, Nat.le_refl _⟩
  | succ n ih =>
    intro j c hji hlen hj hpc
    obtain ⟨d, hd⟩ := byte_at_of_le buf (n + 1) hlen
    simp only [scan_backward, hd]
    by_cases hp : p d = true
    · rw [if_pos hp]
      have hne : j ≠ n + 1 := by
        intro e
        subst e
        rw [hd] at hj
        simp only [Option.some.injEq] at hj
        subst hj
        rw [hpc] at hp
        cases hp
      obtain ⟨e, he, h1, h2⟩ := ih j c (by omega) (by omega) hj hpc
      exact ⟨e, he, h1, by omega⟩
    · rw [if_neg hp]
      exact ⟨n + 1, rfl, hji, Nat.le_refl _⟩

theorem byte_at_set_length (buf : List Char) (i : Nat) (c : Char) :
    byte_at (buf.set i c) buf.length = some NUL := by
  have h := byte_at_length (buf.set i c)
  rwa [List.length_set] at h

theorem get_groupadmins_line_newline (body : List Char) :
    get_groupadmins_line (body ++ ['\n']) ≠ none := by
  have hnl0 : byte_at (body ++ ['\n']) body.length = some '\n' := byte_at_append_cons body '\n' []
  have hlen : (body ++ ['\n']).length = body.length + 1 := by simp
  generalize body ++ ['\n'] = L at hnl0 hlen ⊢
  have hend : byte_at L L.length = some NUL := byte_at_length L
  have hbl : body.length < L.length := (byte_at_lt_of_ne_nul L _ _ hnl0 (by decide)).1
  unfold get_groupadmins_line
  simp only
  split
  · simp
  -- Skip initial spaces
  obtain ⟨g, hg, hgle⟩ := scan_forward_some isspace L (L.length + 2) 0 L.length NUL
    (Nat.zero_le _) (by omega) hend (by decide)
  obtain ⟨_, ⟨cg, hcg, hpg⟩, _⟩ := scan_forward_spec isspace L _ 0 g hg
  rw [hg]
  simp only
  split
  · simp
  rename_i hgn
  -- Find splitting colon
  obtain ⟨col, hcol, hcolle⟩ := scan_forward_some (fun c => c ≠ NUL && c ≠ ':') L
    (L.length + 2) g L.length NUL hgle (by omega) hend (by decide)
  obtain ⟨hgcol, ⟨cc, hcc, hpc⟩, _⟩ := scan_forward_spec _ L _ g col hcol
  rw [hcol]
  simp only
  split
  · simp
  rename_i hcn
  have hccn : cc ≠ NUL := by
    intro e
    apply hcn
    left
    rw [hcc, e]
  have hcce : cc = ':' := by
    by_contra hne
    have : (decide (cc ≠ NUL) && decide (cc ≠ ':')) = true := by simp [hccn, hne]
    rw [this] at hpc
    cases hpc
  have hcollt : col < L.length := (byte_at_lt_of_ne_nul L col cc hcc hccn).1
  have hgcol2 : g < col := by
    have : g ≠ col := fun e => hcn (Or.inr e)
    omega
  have hcolne : col ≠ body.length := by
    intro e
    rw [e, hnl0] at hcc
    simp only [Option.some.injEq] at hcc
    rw [← hcc] at hcce
    revert hcce
    decide
  -- Cut trailing spaces
  obtain ⟨e, he, hge, hele⟩ := scan_backward_some isspace L (col - 1) g cg (by omega) (by omega)
    hcg hpg
  rw [he]
  simp only
  -- Skip initial spaces at admins name
  obtain ⟨a, ha, hale⟩ := scan_forward_some isspace (L.set (e + 1) NUL) (L.length + 2)
    (col + 1) L.length NUL (by omega) (by omega) (byte_at_set_length L _ _) (by decide)
  obtain ⟨hcola, ⟨ca, hca, hpa⟩, _⟩ := scan_forward_spec _ _ _ (col + 1) a ha
  rw [ha]
  simp only
  split
  · simp
  rename_i han
  have hnl1 : byte_at (L.set (e + 1) NUL) body.length = some '\n' := by
    rw [byte_at_set_ne L (e + 1) body.length NUL (by omega)]
    exact hnl0
  have hane : a ≠ body.length := by
    intro e1
    rw [e1, hnl1] at hca
    simp only [Option.some.injEq] at hca
    rw [← hca] at hpa
    revert hpa
    decide
  have halt : a < L.length := by
    have hcan : ca ≠ NUL := by
      intro e1
      apply han
      rw [hca, e1]
    have := (byte_at_lt_of_ne_nul _ a ca hca hcan).1
    rwa [List.length_set] at this
  -- Go through admins name
  obtain ⟨cp, hcp, hcple⟩ := scan_forward_some (fun c => !isspace c) (L.set (e + 1) NUL)
    (L.length + 2) a body.length '\n' (by omega) (by omega) hnl1 (by decide)
  rw [hcp]
  simp only
  split
  · -- Skip trailing spaces
    obtain ⟨l, hl, _⟩ := scan_forward_some isspace ((L.set (e + 1) NUL).set cp NUL)
      (L.length + 2) (cp + 1) L.length NUL (by omega) (by omega)
      (by
        have h := byte_at_set_length (L.set (e + 1) NUL) cp NUL
        rwa [List.length_set] at h)
      (by decide)
    rw [hl]
    simp only
    split <;> simp
  · simp

theorem config_line_ne_none (sscanf_d_s : List Char → Option (Int × List Char))
    (str2timeunits : Int → List Char → Option Int) (config : configparams) (maildev : String)
    (buff : List Char) (hnul : NUL ∉ buff) :
    config_line sscanf_d_s str2timeunits config maildev buff ≠ none := by
  unfold config_line
  cases hq : strchr_from buff 0 '=' with
  | none => exact Option.some_ne_none _
  | some pos =>
    have hval : NUL ∉ stripstring (buff.drop (pos + 1)) :=
      fun h => hnul (List.mem_of_mem_drop (mem_stripstring _ _ h))
    have hlt := load_template_eq (stripstring (buff.drop (pos + 1))) hval
    dsimp only
    generalize stripstring (buff.take pos) = var
    generalize stripstring (buff.drop (pos + 1)) = value at hlt ⊢
    by_cases h0 : var = ['M', 'A', 'I', 'L', '_', 'C', 'M', 'D']
    · rw [if_pos h0]
      exact Option.some_ne_none _
    rw [if_neg h0]
    by_cases h1 : var = ['F', 'R', 'O', 'M']
    · rw [if_pos h1]
      exact Option.some_ne_none _
    rw [if_neg h1]
    by_cases h2 : var = ['S', 'U', 'B', 'J', 'E', 'C', 'T']
    · rw [if_pos h2]
      exact Option.some_ne_none _
    rw [if_neg h2]
    by_cases h3 : var = ['C', 'C', '_', 'T', 'O']
    · rw [if_pos h3]
      exact Option.some_ne_none _
    rw [if_neg h3]
    by_cases h4 : var = ['S', 'U', 'P', 'P', 'O', 'R', 'T']
    · rw [if_pos h4]
      exact Option.some_ne_none _
    rw [if_neg h4]
    by_cases h5 : var = ['P', 'H', 'O', 'N', 'E']
    · rw [if_pos h5]
      exact Option.some_ne_none _
    rw [if_neg h5]
    by_cases h6 : var = ['C', 'H', 'A', 'R', 'S', 'E', 'T']
    · rw [if_pos h6]
      exact Option.some_ne_none _
    rw [if_neg h6]
    by_cases h7 : var = ['M', 'A', 'I', 'L', 'D', 'E', 'V']
    · rw [if_pos h7]
      exact Option.some_ne_none _
    rw [if_neg h7]
    by_cases h8 : var = ['M', 'E', 'S', 'S', 'A', 'G', 'E']
    · rw [if_pos h8, hlt]
      by_cases hok : format_ok (create_eoln value) = true
      · rw [if_pos hok]
        exact Option.some_ne_none _
      · rw [if_neg hok]
        exact Option.some_ne_none _
    rw [if_neg h8]
    by_cases h9 : var = ['S', 'I', 'G', 'N', 'A', 'T', 'U', 'R', 'E']
    · rw [if_pos h9, hlt]
      by_cases hok : format_ok (create_eoln value) = true
      · rw [if_pos hok]
        exact Option.some_ne_none _
      · rw [if_neg hok]
        exact Option.some_ne_none _
    rw [if_neg h9]
    by_cases h10 : var = ['G', 'R', 'O', 'U', 'P', '_', 'M', 'E', 'S', 'S', 'A', 'G', 'E']
    · rw [if_pos h10, hlt]
      by_cases hok : format_ok (create_eoln value) = true
      · rw [if_pos hok]
        exact Option.some_ne_none _
      · rw [if_neg hok]
        exact Option.some_ne_none _
    rw [if_neg h10]
    by_cases h11 : var = ['G', 'R', 'O', 'U', 'P', '_', 'S', 'I', 'G', 'N', 'A', 'T', 'U', 'R', 'E']
    · rw [if_pos h11, hlt]
      by_cases hok : format_ok (create_eoln value) = true
      · rw [if_pos hok]
        exact Option.some_ne_none _
      · rw [if_neg hok]
        exact Option.some_ne_none _
    rw [if_neg h11]
    by_cases h12 : var = ['L', 'D', 'A', 'P', '_', 'M', 'A', 'I', 'L']
    · rw [if_pos h12]
      split <;> exact Option.some_ne_none _
    rw [if_neg h12]
    by_cases h13 : var = ['C', 'C', '_', 'B', 'E', 'F', 'O', 'R', 'E']
    · rw [if_pos h13]
      cases sscanf_d_s value with
      | none => exact Option.some_ne_none _
      | some r =>
        obtain ⟨num, unit⟩ := r
        simp only
        cases str2timeunits num unit with
        | none => exact Option.some_ne_none _
        | some seconds => exact Option.some_ne_none _
    rw [if_neg h13]
    exact Option.some_ne_none _

theorem fgets_chars_length (s : List Char) : ∀ k, (fgets_chars s k).1.length ≤ k := by
  induction s with
  | nil => intro k; simp [fgets_chars]
  | cons c s ih =>
    intro k
    unfold fgets_chars
    by_cases hk : k = 0
    · rw [if_pos hk]; simp
    · rw [if_neg hk]
      by_cases hc : c = '\n'
      · rw [if_pos hc]
        simp only [List.length_singleton]
        omega
      · rw [if_neg hc]
        have := ih (k - 1)
        simp only [List.length_cons]
        omega

theorem readconfigfile_loop_returns (sscanf_d_s : List Char → Option (Int × List Char))
    (str2timeunits : Int → List Char → Option Int) (fuel : Nat) :
    ∀ (joined stream : List Char) (config : configparams) (maildev : String),
      NUL ∉ joined → NUL ∉ stream → joined.length + 3 ≤ IOBUF_SIZE → stream.length < fuel →
      readconfigfile_loop sscanf_d_s str2timeunits fuel joined stream config maildev ≠ none := by
  induction fuel with
  | zero => intro joined stream config maildev _ _ _ h; omega
  | succ f ih =>
    intro joined stream config maildev hj hs hjl hf
    cases stream with
    | nil =>
      rw [readconfigfile_loop]
      exact Option.some_ne_none _
    | cons c s =>
      have happ := fgets_chars_append (c :: s) (IOBUF_SIZE - joined.length - 1)
      have hrl := fgets_chars_rest_length c s (IOBUF_SIZE - joined.length - 1) (by omega)
      have hcl := fgets_chars_length (c :: s) (IOBUF_SIZE - joined.length - 1)
      rw [readconfigfile_loop]
      simp only [fgets]
      generalize (fgets_chars (c :: s) (IOBUF_SIZE - joined.length - 1)).1 = chunk at happ hcl ⊢
      generalize (fgets_chars (c :: s) (IOBUF_SIZE - joined.length - 1)).2 = rest at happ hrl ⊢
      have hchunk : NUL ∉ chunk := fun h => hs (happ ▸ List.mem_append_left _ h)
      have hrest : NUL ∉ rest := fun h => hs (happ ▸ List.mem_append_right _ h)
      have hbuff : NUL ∉ joined ++ chunk := by
        intro h
        rcases List.mem_append.1 h with h1 | h1
        · exact hj h1
        · exact hchunk h1
      have hrf : rest.length < f := by
        simp only [List.length_cons] at hf
        omega
      have hnil : NUL ∉ ([] : List Char) := List.not_mem_nil _
      have hnl : ([] : List Char).length + 3 ≤ IOBUF_SIZE := by decide
      split
      · exact ih [] rest config maildev hnil hrest hnl hrf
      split
      · exact ih [] rest config maildev hnil hrest hnl hrf
      split
      · have h1 := config_line_ne_none sscanf_d_s str2timeunits config maildev (joined ++ chunk)
          hbuff
        split
        · rename_i heq
          exact absurd heq h1
        · exact Option.some_ne_none _
        · exact ih [] rest _ _ hnil hrest hnl hrf
      split
      · apply ih _ rest config maildev _ hrest _ hrf
        · intro h
          exact hbuff (List.mem_of_mem_dropLast (List.mem_of_mem_dropLast h))
        · simp only [List.length_dropLast, List.length_append]
          omega
      · have h1 := config_line_ne_none sscanf_d_s str2timeunits config maildev
          (joined ++ chunk).dropLast (fun h => hbuff (List.mem_of_mem_dropLast h))
        split
        · rename_i heq
          exact absurd heq h1
        · exact Option.some_ne_none _
        · exact ih [] rest _ _ hnil hrest hnl hrf

theorem readconfigfile_returns (sscanf_d_s : List Char → Option (Int × List Char))
    (str2timeunits : Int → List Char → Option Int) (content : List Char)
    (hnul : NUL ∉ content) :
    readconfigfile sscanf_d_s str2timeunits (some content) ≠ none := by
  have h := readconfigfile_loop_returns sscanf_d_s str2timeunits (content.length + 1) []
    content readconfigfile_defaults.1 readconfigfile_defaults.2 (List.not_mem_nil _) hnul
    (by decide) (by omega)
  unfold readconfigfile
  simp only
  split
  · rename_i heq
    exact absurd heq h
  · exact Option.some_ne_none _
  · exact Option.some_ne_none _

/-! ## The administrators table: where the scans read -/

theorem scan_forward_reads_le (p : Char → Bool) (buf : List Char) (fuel : Nat) :
    ∀ i j, scan_forward p buf fuel i = some j →
      ∀ k ∈ scan_forward_reads p buf fuel i, k ≤ j := by
  induction fuel with
  | zero => intro i j h; simp [scan_forward] at h
  | succ f ih =>
    intro i j h k hk
    simp only [scan_forward] at h
    simp only [scan_forward_reads] at hk
    cases hb : byte_at buf i with
    | none => rw [hb] at h; cases h
    | some c =>
      rw [hb] at h hk
      simp only at h hk
      by_cases hp : p c = true
      · rw [if_pos hp] at h hk
        have hij := (scan_forward_spec p buf f (i + 1) j h).1
        rcases List.mem_cons.1 hk with h1 | h1
        · omega
        · exact ih (i + 1) j h k h1
      · rw [if_neg hp] at h hk
        simp only [Option.some.injEq] at h
        simp only [List.mem_singleton] at hk
        omega

theorem scan_backward_reads_le (p : Char → Bool) (buf : List Char) :
    ∀ i, ∀ k ∈ scan_backward_reads p buf i, k ≤ i := by
  intro i
  induction i with
  | zero =>
    intro k hk
    simp only [scan_backward_reads, List.mem_singleton] at hk
    omega
  | succ n ih =>
    intro k hk
    simp only [scan_backward_reads] at hk
    cases hb : byte_at buf (n + 1) with
    | none =>
      rw [hb] at hk
      simp only [List.mem_singleton] at hk
      omega
    | some c =>
      rw [hb] at hk
      simp only at hk
      by_cases hp : p c = true
      · rw [if_pos hp] at hk
        rcases List.mem_cons.1 hk with h1 | h1
        · omega
        · have := ih k h1
          omega
      · rw [if_neg hp] at hk
        simp only [List.mem_singleton] at hk
        omega

theorem scan_forward_le_length (p : Char → Bool) (buf : List Char) (fuel i j : Nat)
    (h : scan_forward p buf fuel i = some j) : j ≤ buf.length := by
  obtain ⟨_, ⟨c, hc, _⟩, _⟩ := scan_forward_spec p buf fuel i j h
  exact le_of_byte_at buf j c hc

theorem get_groupadmins_reads_le (buffer : List Char)
    (hne : get_groupadmins_line buffer ≠ none) :
    ∀ k ∈ get_groupadmins_reads buffer, k ≤ buffer.length := by
  unfold get_groupadmins_line at hne
  unfold get_groupadmins_reads
  simp only at hne ⊢
  intro k hk
  split at hk
  · cases hk
  -- Skip initial spaces
  cases h1 : scan_forward isspace buffer (buffer.length + 2) 0 with
  | none =>
    exfalso
    apply hne
    rw [if_neg (by assumption), h1]
  | some grouppos =>
    have l1 := scan_forward_le_length _ _ _ _ _ h1
    have r1 := scan_forward_reads_le _ _ _ _ _ h1
    rw [h1] at hk
    simp only at hk
    rcases List.mem_append.1 hk with hk | hk
    · exact Nat.le_trans (r1 k hk) l1
    split at hk
    · cases hk
    -- Find splitting colon
    cases h2 : scan_forward (fun c => c ≠ NUL && c ≠ ':') buffer (buffer.length + 2)
        grouppos with
    | none =>
      exfalso
      apply hne
      rw [if_neg (by assumption), h1]
      simp only
      rw [if_neg (by assumption), h2]
    | some colon =>
      have l2 := scan_forward_le_length _ _ _ _ _ h2
      have r2 := scan_forward_reads_le _ _ _ _ _ h2
      rw [h2] at hk
      simp only at hk
      rcases List.mem_append.1 hk with hk | hk
      · exact Nat.le_trans (r2 k hk) l2
      split at hk
      · cases hk
      -- Cut trailing spaces
      rcases List.mem_append.1 hk with hk | hk
      · have := scan_backward_reads_le isspace buffer (colon - 1) k hk
        omega
      cases h3 : scan_backward isspace buffer (colon - 1) with
      | none => rw [h3] at hk; cases hk
      | some endname =>
        rw [h3] at hk
        simp only at hk
        -- Skip initial spaces at admins name
        cases h4 : scan_forward isspace (buffer.set (endname + 1) NUL) (buffer.length + 2)
            (colon + 1) with
        | none =>
          exfalso
          apply hne
          rw [if_neg (by assumption), h1]
          simp only
          rw [if_neg (by assumption), h2]
          simp only
          rw [if_neg (by assumption), h3]
          simp only
          rw [h4]
        | some adminpos =>
          have l4 := scan_forward_le_length _ _ _ _ _ h4
          have r4 := scan_forward_reads_le _ _ _ _ _ h4
          rw [List.length_set] at l4
          rw [h4] at hk
          simp only at hk
          rcases List.mem_append.1 hk with hk | hk
          · exact Nat.le_trans (r4 k hk) l4
          split at hk
          · cases hk
          -- Go through admins name
          cases h5 : scan_forward (fun c => !isspace c) (buffer.set (endname + 1) NUL)
              (buffer.length + 2) adminpos with
          | none =>
            exfalso
            apply hne
            rw [if_neg (by assumption), h1]
            simp only
            rw [if_neg (by assumption), h2]
            simp only
            rw [if_neg (by assumption), h3]
            simp only
            rw [h4]
            simp only
            rw [if_neg (by assumption), h5]
          | some colpos =>
            have l5 := scan_forward_le_length _ _ _ _ _ h5
            have r5 := scan_forward_reads_le _ _ _ _ _ h5
            rw [List.length_set] at l5
            rw [h5] at hk
            simp only at hk
            rcases List.mem_append.1 hk with hk | hk
            · exact Nat.le_trans (r5 k hk) l5
            split at hk
            · -- Skip trailing spaces
              cases h6 : scan_forward isspace
                  ((buffer.set (endname + 1) NUL).set colpos NUL) (buffer.length + 2)
                  (colpos + 1) with
              | none =>
                exfalso
                apply hne
                rw [if_neg (by assumption), h1]
                simp only
                rw [if_neg (by assumption), h2]
                simp only
                rw [if_neg (by assumption), h3]
                simp only
                rw [h4]
                simp only
                rw [if_neg (by assumption), h5]
                simp only
                rw [if_pos (by assumption), h6]
              | some last =>
                have l6 := scan_forward_le_length _ _ _ _ _ h6
                have r6 := scan_forward_reads_le _ _ _ _ _ h6
                rw [List.length_set, List.length_set] at l6
                exact Nat.le_trans (r6 k hk) l6
            · cases hk

theorem scan_forward_none_reads (p : Char → Bool) (buf : List Char) (fuel : Nat) :
    ∀ i, i ≤ buf.length + 1 → buf.length + 2 - i ≤ fuel → scan_forward p buf fuel i = none →
      buf.length + 1 ∈ scan_forward_reads p buf fuel i := by
  induction fuel with
  | zero => intro i h1 h2 _; omega
  | succ f ih =>
    intro i h1 h2 h
    simp only [scan_forward] at h
    simp only [scan_forward_reads]
    cases hb : byte_at buf i with
    | none =>
      simp only [List.mem_singleton]
      by_cases hi : i ≤ buf.length
      · obtain ⟨c, hc⟩ := byte_at_of_le buf i hi
        rw [hc] at hb
        cases hb
      · omega
    | some c =>
      rw [hb] at h
      simp only at h ⊢
      have hi := le_of_byte_at buf i c hb
      by_cases hp : p c = true
      · rw [if_pos hp] at h ⊢
        exact List.mem_cons_of_mem _ (ih (i + 1) (by omega) (by omega) h)
      · rw [if_neg hp] at h
        cases h

theorem get_groupadmins_line_none_reads (buffer : List Char)
    (h : get_groupadmins_line buffer = none) :
    buffer.length + 1 ∈ get_groupadmins_reads buffer := by
  unfold get_groupadmins_line at h
  unfold get_groupadmins_reads
  simp only at h ⊢
  split at h
  · cases h
  rename_i hc
  rw [if_neg hc]
  -- Skip initial spaces
  cases h1 : scan_forward isspace buffer (buffer.length + 2) 0 with
  | none =>
    exact List.mem_append_left _
      (scan_forward_none_reads _ _ _ 0 (by omega) (by omega) h1)
  | some grouppos =>
    have l1 := scan_forward_le_length _ _ _ _ _ h1
    obtain ⟨_, ⟨cg, hcg, hpg⟩, _⟩ := scan_forward_spec _ _ _ _ _ h1
    rw [h1] at h
    simp only at h ⊢
    apply List.mem_append_right
    split at h
    · cases h
    rename_i hg
    rw [if_neg hg]
    -- Find splitting colon
    cases h2 : scan_forward (fun c => c ≠ NUL && c ≠ ':') buffer (buffer.length + 2)
        grouppos with
    | none =>
      exact List.mem_append_left _
        (scan_forward_none_reads _ _ _ grouppos (by omega) (by omega) h2)
    | some colon =>
      have l2 := scan_forward_le_length _ _ _ _ _ h2
      have hgc := (scan_forward_spec _ _ _ _ _ h2).1
      rw [h2] at h
      simp only at h ⊢
      apply List.mem_append_right
      split at h
      · cases h
      rename_i hcol
      rw [if_neg hcol]
      have hgc2 : grouppos < colon := by
        have : grouppos ≠ colon := fun e => hcol (Or.inr e)
        omega
      -- Cut trailing spaces
      obtain ⟨endname, h3, _, hele⟩ := scan_backward_some isspace buffer (colon - 1) grouppos cg
        (by omega) (by omega) hcg hpg
      rw [h3] at h ⊢
      simp only at h ⊢
      apply List.mem_append_right
      -- Skip initial spaces at admins name
      cases h4 : scan_forward isspace (buffer.set (endname + 1) NUL) (buffer.length + 2)
          (colon + 1) with
      | none =>
        apply List.mem_append_left
        have := scan_forward_none_reads isspace (buffer.set (endname + 1) NUL)
          (buffer.length + 2) (colon + 1) (by rw [List.length_set]; omega)
          (by rw [List.length_set]; omega) h4
        rwa [List.length_set] at this
      | some adminpos =>
        have l4 := scan_forward_le_length _ _ _ _ _ h4
        rw [List.length_set] at l4
        rw [h4] at h
        simp only at h ⊢
        apply List.mem_append_right
        split at h
        · cases h
        rename_i ha
        rw [if_neg ha]
        -- Go through admins name
        cases h5 : scan_forward (fun c => !isspace c) (buffer.set (endname + 1) NUL)
            (buffer.length + 2) adminpos with
        | none =>
          apply List.mem_append_left
          have := scan_forward_none_reads (fun c => !isspace c)
            (buffer.set (endname + 1) NUL) (buffer.length + 2) adminpos
            (by rw [List.length_set]; omega) (by rw [List.length_set]; omega) h5
          rwa [List.length_set] at this
        | some colpos =>
          have l5 := scan_forward_le_length _ _ _ _ _ h5
          rw [List.length_set] at l5
          rw [h5] at h
          simp only at h ⊢
          apply List.mem_append_right
          split at h
          · rename_i hcp
            rw [if_pos hcp]
            -- Skip trailing spaces
            cases h6 : scan_forward isspace ((buffer.set (endname + 1) NUL).set colpos NUL)
                (buffer.length + 2) (colpos + 1) with
            | none =>
              have := scan_forward_none_reads isspace
                ((buffer.set (endname + 1) NUL).set colpos NUL) (buffer.length + 2)
                (colpos + 1) (by rw [List.length_set, List.length_set]; omega)
                (by rw [List.length_set, List.length_set]; omega) h6
              rwa [List.length_set, List.length_set] at this
            | some last =>
              rw [h6] at h
              simp only at h
              split at h <;> cases h
          · cases h

theorem get_groupadmins_reads_newline (body : List Char) :
    ∀ k ∈ get_groupadmins_reads (body ++ ['\n']), k ≤ (body ++ ['\n']).length :=
  get_groupadmins_reads_le (body ++ ['\n']) (get_groupadmins_line_newline body)

theorem get_groupadmins_line_none_iff (buffer : List Char) :
    get_groupadmins_line buffer = none ↔
      ∃ k ∈ get_groupadmins_reads buffer, buffer.length < k := by
  constructor
  · intro h
    exact ⟨buffer.length + 1, get_groupadmins_line_none_reads buffer h, Nat.lt_succ_self _⟩
  · rintro ⟨k, hk, hlt⟩
    by_contra hne
    have := get_groupadmins_reads_le buffer hne k hk
    omega

/-- C31, evaluated at the failing input: the final line `staff: root` of an administrators file,
with no trailing newline, is 11 characters long, its terminator at index 11.  The scan over the
administrator name, `for (adminpos = colpos; !isspace(*colpos); colpos++);`, starts at index 7
in the buffer whose index 5 holds the NUL that ends the group name, and reads the indices 7 to
12: it passes the terminator, which is no white space, and reads index 12, outside the line.
The loop body and `get_groupadmins` on a file that ends with this line do not stay within the
line. -/
theorem get_groupadmins_line_reads_past_terminator :
    "staff: root".data.length = 11 ∧
    scan_forward_reads (fun c => !isspace c) ("staff: root".data.set 5 NUL)
        ("staff: root".data.length + 2) 7 = [7, 8, 9, 10, 11, 12] ∧
    get_groupadmins_reads "staff: root".data =
      [0, 0, 1, 2, 3, 4, 5, 4, 6, 7, 7, 8, 9, 10, 11, 12] ∧
    get_groupadmins_line "staff: root".data = none ∧
    file_lines IOBUF_SIZE "wheel: carol\nstaff: root".data.length
        "wheel: carol\nstaff: root".data = ["wheel: carol\n".data, "staff: root".data] ∧
    get_groupadmins sample_qsort (some "wheel: carol\nstaff: root".data) [] = none := by
  refine ⟨by decide, by decide, by decide, by decide, by decide, by decide⟩

/-! ## The administrators table: the claim on order and lookup -/

end Warnquota
